import Mathlib

/-!
The resp-server program: the single-threaded RESP request parser and reply buffers

A shallow embedding of `src/server.c`.  A byte is a natural number (`List Nat` is a byte string; the code
never relies on the upper bound 255 of `char`), an `sds` buffer is the list of
its `sdslen` bytes followed by an implicit NUL terminator, and C out-parameters
and mutation of `client *c` / the global `server` become explicit state
passing.  A failed `assert`, a dereference of an argument slot that holds no
object and an exhausted loop budget are explicit `Fault`s.
-/

set_option autoImplicit false

namespace RespServer

/-! ## Bytes and constants -/

/-- The bytes of a C string literal. -/
def bytes (s : String) : List Nat := s.data.map Char.toNat

/-- Carriage return. -/
def CR : Nat := 13

/-- Line feed. -/
def LF : Nat := 10

/-- Modelled from the spec: `server.h` is not among the sources; the limits
table of the spec gives `PROTO_INLINE_MAX_SIZE` = 16 KiB. -/
def PROTO_INLINE_MAX_SIZE : Nat := 16384

/-- Modelled from the spec: `server.h` is not among the sources; the limits
table of the spec gives `PROTO_MBULK_BIG_ARG` = 32 KiB. -/
def PROTO_MBULK_BIG_ARG : Nat := 32768

/-- Modelled from the spec: `server.h` is not among the sources; the limits
table of the spec gives `PROTO_REPLY_CHUNK_BYTES` = 16 KiB. -/
def PROTO_REPLY_CHUNK_BYTES : Nat := 16384

/-- Modelled from the spec: `server.h` is not among the sources; the limits
table of the spec gives `NET_MAX_WRITES_PER_EVENT` = 64 KiB. -/
def NET_MAX_WRITES_PER_EVENT : Nat := 65536

/-- The value `initConf` stores in `server.proto_max_bulk_len`: `512ll*1024*1024`. -/
def proto_max_bulk_len : Int := 512 * 1024 * 1024

/-- The width of `size_t`. -/
def SIZE_MAX1 : Nat := 2 ^ 64

/-- The largest `long long`. -/
def LLONG_MAX : Nat := 2 ^ 63 - 1

/-- The C conversion `(size_t)x` of a signed value. -/
def toSizeT (x : Int) : Nat := (x % (SIZE_MAX1 : Int)).toNat

/-! ## Data model -/

/-- The values of `client.reqtype`: `0`, `PROTO_REQ_INLINE`, `PROTO_REQ_MULTIBULK`. -/
inductive ReqType where
  | unset
  | PROTO_REQ_INLINE
  | PROTO_REQ_MULTIBULK
  deriving DecidableEq, Repr

/-- The return values `ERROR_SUCCESS` / `ERROR_FAILED` (and `C_OK` / `C_ERR`). -/
inductive Ret where
  | ERROR_SUCCESS
  | ERROR_FAILED
  deriving DecidableEq, Repr

/-- The ways an execution leaves the defined behaviour of the program. -/
inductive Fault where
  /-- `assert(c->argc == 0)` in `processMultibulkBuffer`. -/
  | assert_argc_zero
  /-- `assert(c->querybuf[c->qb_pos] == '*')`. -/
  | assert_star
  /-- `assert(c->multibulklen > 0)`. -/
  | assert_multibulklen_pos
  /-- `assert(c->reply_bytes == 0)` in `writeToClient`. -/
  | assert_reply_bytes_zero
  /-- `c->argv[0]->ptr` read while `argv` holds no object (NULL or released). -/
  | argv0_invalid
  /-- A NULL pointer (`c->conn`, the head node of an empty list) is dereferenced. -/
  | null_deref
  /-- The loop budget of the model ran out before the loop ended. -/
  | out_of_fuel
  deriving DecidableEq, Repr

/-- A `respCommand`: name, handler (identified by a number; the handler bodies
live in `command.c`) and arity. -/
structure respCommand where
  name : List Nat
  proc : Nat
  arity : Int
  deriving DecidableEq, Repr

/-- A `clientReplyBlock`: `size` is the capacity of the slab `buf`, that is the
length of `buf`; `used` is the occupancy. -/
structure clientReplyBlock where
  used : Nat
  buf : List Nat
  deriving DecidableEq, Repr

/-- The field `size` of a reply block: the capacity of its slab. -/
def clientReplyBlock.size (b : clientReplyBlock) : Nat := b.buf.length

/-- The connection states the code tests for. -/
inductive ConnState where
  | CONN_STATE_CONNECTED
  | CONN_STATE_ERROR
  deriving DecidableEq, Repr

/-- A `connection`: its descriptor and state. -/
structure connection where
  fd : Nat
  state : ConnState
  deriving DecidableEq, Repr

/-- The per-connection record `client`.  `buf` is the inline reply slab, so
`sizeof(c->buf)` is `buf.length`; `argv` lists the objects stored in the slots
`0 .. argc-1`, and `argv_alloc` is the number of slots of the array that `argv`
points to (0 for NULL). -/
structure client where
  id : Nat
  conn : Option connection
  querybuf : List Nat
  qb_pos : Nat
  reqtype : ReqType
  argc : Nat
  argv : List (List Nat)
  argv_alloc : Nat
  argv_len_sum : Nat
  cmd : Option respCommand
  lastcmd : Option respCommand
  multibulklen : Int
  bulklen : Int
  buf : List Nat
  bufpos : Nat
  sentlen : Nat
  reply : List clientReplyBlock
  reply_bytes : Nat
  client_list_node : Option Nat
  deriving DecidableEq, Repr

/-- One slot of the event loop: the mask bits registered for a descriptor. -/
structure fileEvent where
  fd : Nat
  readable : Bool
  writable : Bool
  deriving DecidableEq, Repr

/-- The part of the global `server` the modelled functions touch.  Clients are
referred to by their `id`. -/
structure respServer where
  clients : List Nat
  clients_pending_write : List Nat
  clients_to_close : List Nat
  current_client : Option Nat
  next_client_id : Nat
  el : List fileEvent
  deriving DecidableEq, Repr

/-- The state a call works on: the global `server`, the client `c` the call
receives, and two records kept for the statements: `dispatched` lists `argc`
and `argv` at each call of `processCommand`, `invoked` lists the handler and
`argv` at each `c->cmd->proc(c)`, both oldest first. -/
structure State where
  server : respServer
  c : client
  dispatched : List (Nat × List (List Nat))
  invoked : List (Nat × List (List Nat))

/-- What the sources do not fix: the command dictionary behind `lookupCommand`
(`dict.c`), the handler bodies (`command.c`) and the slack the allocator adds to
a request (`zmalloc_usable`). -/
structure Env where
  lookupCommand : List Nat → Option respCommand
  proc : Nat → respServer → client → respServer × client
  slack : Nat → Nat

/-! ## Reply buffering -/

/-- `clientHasPendingReplies`: `c->bufpos || listLength(c->reply)`. -/
def clientHasPendingReplies (c : client) : Bool :=
  c.bufpos != 0 || c.reply.length != 0

/-- `prepareClientToWrite`: a client without pending replies is put at the
head of `server.clients_pending_write`. -/
def prepareClientToWrite (st : State) : State :=
  if !clientHasPendingReplies st.c then
    { st with server :=
        { st.server with clients_pending_write := st.c.id :: st.server.clients_pending_write } }
  else st

/-- `memcpy(dst + off, s, len)` on a slab. -/
def memcpyAt (dst : List Nat) (off : Nat) (s : List Nat) : List Nat :=
  dst.take off ++ s ++ dst.drop (off + s.length)

/-- `_addReplyToBuffer`: `none` is `C_ERR`, `some c` is `C_OK` with the
updated client. -/
def _addReplyToBuffer (c : client) (s : List Nat) : Option client :=
  let available := toSizeT ((c.buf.length : Int) - (c.bufpos : Int))
  if c.reply.length > 0 then none
  else if s.length > available then none
  else some { c with buf := memcpyAt c.buf c.bufpos s, bufpos := c.bufpos + s.length }

/-- The first half of `_addReplyProtoToList`: fill the tail block.  Returns the
updated chain and the bytes that did not fit. -/
def fillTail (reply : List clientReplyBlock) (s : List Nat) :
    List clientReplyBlock × List Nat :=
  match reply.getLast? with
  | none => (reply, s)
  | some tail =>
    let avail := toSizeT ((tail.size : Int) - (tail.used : Int))
    let copy := if avail ≥ s.length then s.length else avail
    (reply.dropLast ++
        [{ tail with buf := memcpyAt tail.buf tail.used (s.take copy), used := tail.used + copy }],
      s.drop copy)

/-- `_addReplyProtoToList`. -/
def _addReplyProtoToList (env : Env) (c : client) (s : List Nat) : client :=
  let (reply1, s1) := fillTail c.reply s
  let len := s1.length
  if len ≠ 0 then
    let size := if len < PROTO_REPLY_CHUNK_BYTES then PROTO_REPLY_CHUNK_BYTES else len
    let usable := size + env.slack size
    let tail : clientReplyBlock := { used := len, buf := s1 ++ List.replicate (usable - len) 0 }
    { c with reply := reply1 ++ [tail], reply_bytes := (c.reply_bytes + tail.size) % SIZE_MAX1 }
  else { c with reply := reply1 }

/-- `addReplyProto`. -/
def addReplyProto (env : Env) (st : State) (s : List Nat) : State :=
  let st1 := prepareClientToWrite st
  match _addReplyToBuffer st1.c s with
  | some c1 => { st1 with c := c1 }
  | none => { st1 with c := _addReplyProtoToList env st1.c s }

/-- `addReplyErrorLength`. -/
def addReplyErrorLength (env : Env) (st : State) (s : List Nat) : State :=
  let st1 := if s.length = 0 ∨ s.head? ≠ some '-'.toNat then addReplyProto env st (bytes "-ERR ") else st
  let st2 := addReplyProto env st1 s
  addReplyProto env st2 [CR, LF]

/-- `addReplyError`: `strlen(err)` bytes of the C string `err`. -/
def addReplyError (env : Env) (st : State) (err : String) : State :=
  addReplyErrorLength env st (bytes err)

/-! ## Request parsing -/

/-- `strchr(s, ch)` on a NUL-terminated buffer whose `sdslen` bytes are `s`:
the offset of the first `ch`, looking no further than the first NUL. -/
def strchr : List Nat → Nat → Option Nat
  | [], _ => none
  | b :: bs, ch =>
    if b = ch then some 0
    else if b = 0 then none
    else (strchr bs ch).map (· + 1)

/-- The accumulation loop of `string2ll` over the digits after the first one,
with its two `unsigned long long` overflow checks. -/
def string2llDigits : List Nat → Nat → Option Nat
  | [], v => some v
  | b :: bs, v =>
    if '0'.toNat ≤ b ∧ b ≤ '9'.toNat then
      if v > (SIZE_MAX1 - 1) / 10 then none
      else if v * 10 > (SIZE_MAX1 - 1) - (b - '0'.toNat) then none
      else string2llDigits bs (v * 10 + (b - '0'.toNat))
    else none

/-- Modelled from the spec: `string2ll` is declared in `util.h` and its body is
not among the sources; the spec only says that the integer between the type
byte and `\r` is parsed and that an invalid one is rejected.  This is the
strict decimal reader: an optional `-`, then `0` alone or a digit `1`-`9`
followed by digits, no other byte, and a value in the range of `long long`. -/
def string2ll (s : List Nat) : Option Int :=
  match s with
  | [] => none
  | b :: rest =>
    if rest = [] ∧ b = '0'.toNat then some 0
    else
      let negative := decide (b = '-'.toNat)
      let p := if negative then rest else s
      match p with
      | [] => none
      | d :: ds =>
        if '1'.toNat ≤ d ∧ d ≤ '9'.toNat then
          match string2llDigits ds (d - '0'.toNat) with
          | none => none
          | some v =>
            if negative then (if v > LLONG_MAX + 1 then none else some (-(v : Int)))
            else if v > LLONG_MAX then none else some (v : Int)
        else none

/-- The C conversion `(ssize_t)x` of an unsigned value. -/
def toSSizeT (x : Nat) : Int :=
  if x % SIZE_MAX1 ≥ 2 ^ 63 then ((x % SIZE_MAX1 : Nat) : Int) - (SIZE_MAX1 : Int)
  else ((x % SIZE_MAX1 : Nat) : Int)

/-- `sdslen(c->querybuf)-c->qb_pos` in `size_t` arithmetic. -/
def unconsumed (c : client) : Nat :=
  toSizeT ((c.querybuf.length : Int) - (c.qb_pos : Int))

/-- `sdsrange(s, start, -1)`: keep the bytes from `start` to the end. -/
def sdsrange (s : List Nat) (start : Nat) : List Nat := s.drop start

/-- One pass of a parsing loop either leaves the function with a return value
or goes on to the next pass. -/
inductive Step where
  | done (r : Ret) (st : State)
  | next (st : State)

/-- The state a pass ends with. -/
def Step.state : Step → State
  | .done _ st => st
  | .next st => st

/-- The statements after the `while` of `processMultibulkBuffer`, reached by
`break` and by the loop condition. -/
def mbReturn (st : State) : Ret :=
  if st.c.multibulklen = 0 then Ret.ERROR_SUCCESS else Ret.ERROR_FAILED

/-- The block `if (c->multibulklen == 0) { ... }` that reads `*<N>\r\n`. -/
def mbHeader (env : Env) (st : State) : Except Fault Step :=
  let c := st.c
  if c.multibulklen = 0 then
    if c.argc ≠ 0 then .error Fault.assert_argc_zero
    else
      match strchr (c.querybuf.drop c.qb_pos) CR with
      | none =>
        if unconsumed c > PROTO_INLINE_MAX_SIZE then
          .ok (.done Ret.ERROR_FAILED
            (addReplyError env st "Protocol error: too big mbulk count string"))
        else .ok (.done Ret.ERROR_FAILED st)
      | some off =>
        if (off : Int) > toSSizeT (toSizeT ((unconsumed c : Int) - 2)) then
          .ok (.done Ret.ERROR_FAILED st)
        else if (c.querybuf.drop c.qb_pos).head? ≠ some '*'.toNat then
          .error Fault.assert_star
        else
          match string2ll (((c.querybuf.drop (c.qb_pos + 1))).take (off - 1)) with
          | none =>
            .ok (.done Ret.ERROR_FAILED
              (addReplyError env st "Protocol error: invalid multibulk length"))
          | some ll =>
            if ll > 1024 * 1024 then
              .ok (.done Ret.ERROR_FAILED
                (addReplyError env st "Protocol error: invalid multibulk length"))
            else
              let c1 := { c with qb_pos := c.qb_pos + off + 2 }
              if ll ≤ 0 then .ok (.done Ret.ERROR_SUCCESS { st with c := c1 })
              else
                .ok (.next { st with c :=
                  { c1 with multibulklen := ll, argv := [], argv_alloc := ll.toNat,
                            argv_len_sum := 0 } })
  else .ok (.next st)

/-- The block `if (c->bulklen == -1) { ... }` that reads `$<L>\r\n`. -/
def mbBulkLen (env : Env) (st : State) : Step :=
  let c := st.c
  if c.bulklen = -1 then
    match strchr (c.querybuf.drop c.qb_pos) CR with
    | none =>
      if unconsumed c > PROTO_INLINE_MAX_SIZE then
        .done Ret.ERROR_FAILED
          (addReplyError env st "Protocol error: too big bulk count string")
      else .done (mbReturn st) st
    | some off =>
      if (off : Int) > toSSizeT (toSizeT ((unconsumed c : Int) - 2)) then
        .done (mbReturn st) st
      else if (c.querybuf.drop c.qb_pos).head? ≠ some '$'.toNat then
        .done Ret.ERROR_FAILED st
      else
        match string2ll ((c.querybuf.drop (c.qb_pos + 1)).take (off - 1)) with
        | none => .done Ret.ERROR_FAILED st
        | some ll =>
          if ll < 0 ∨ ll > proto_max_bulk_len then .done Ret.ERROR_FAILED st
          else
            let c1 := { c with qb_pos := c.qb_pos + off + 2 }
            if ll ≥ (PROTO_MBULK_BIG_ARG : Int) ∧
                unconsumed c1 ≤ (toSizeT ll + 2) % SIZE_MAX1 then
              .next { st with c :=
                { c1 with querybuf := sdsrange c1.querybuf c1.qb_pos, qb_pos := 0, bulklen := ll } }
            else .next { st with c := { c1 with bulklen := ll } }
  else .next st

/-- The rest of the loop body: wait for `bulklen+2` bytes, then store the
argument, by taking over `querybuf` or by copying out of it. -/
def mbBulkData (st : State) : Step :=
  let c := st.c
  if unconsumed c < toSizeT (c.bulklen + 2) then .done (mbReturn st) st
  else if c.qb_pos = 0 ∧ c.bulklen ≥ (PROTO_MBULK_BIG_ARG : Int) ∧
      c.querybuf.length = toSizeT (c.bulklen + 2) then
    .next { st with c :=
      { c with argv := c.argv.take c.argc ++ [c.querybuf.take (c.querybuf.length - 2)],
               argc := c.argc + 1,
               argv_len_sum := (c.argv_len_sum + toSizeT c.bulklen) % SIZE_MAX1,
               querybuf := [],
               bulklen := -1, multibulklen := c.multibulklen - 1 } }
  else
    .next { st with c :=
      { c with argv := c.argv.take c.argc ++
                 [(c.querybuf.drop c.qb_pos).take (toSizeT c.bulklen)],
               argc := c.argc + 1,
               argv_len_sum := (c.argv_len_sum + toSizeT c.bulklen) % SIZE_MAX1,
               qb_pos := toSizeT ((c.qb_pos : Int) + (c.bulklen + 2)),
               bulklen := -1, multibulklen := c.multibulklen - 1 } }

/-- The loop `while(c->multibulklen) { ... }` followed by the final return. -/
def mbLoop (env : Env) : Nat → State → Except Fault (Ret × State)
  | 0, _ => .error Fault.out_of_fuel
  | fuel + 1, st =>
    if st.c.multibulklen = 0 then .ok (mbReturn st, st)
    else
      match mbBulkLen env st with
      | .done r st1 => .ok (r, st1)
      | .next st1 =>
        match mbBulkData st1 with
        | .done r st2 => .ok (r, st2)
        | .next st2 => mbLoop env fuel st2

/-- `processMultibulkBuffer`.  The loop runs at most `multibulklen` passes, so
`multibulklen + 1` tests of its condition are enough. -/
def processMultibulkBuffer (env : Env) (st : State) : Except Fault (Ret × State) :=
  match mbHeader env st with
  | .error f => .error f
  | .ok (.done r st1) => .ok (r, st1)
  | .ok (.next st1) =>
    if st1.c.multibulklen > 0 then mbLoop env (st1.c.multibulklen.toNat + 1) st1
    else .error Fault.assert_multibulklen_pos

/-- `freeClientArgv`: the `argc` objects are released. -/
def freeClientArgv (c : client) : client :=
  { c with argv := [], argc := 0, cmd := none, argv_len_sum := 0 }

/-- `resetClient`. -/
def resetClient (c : client) : client :=
  { freeClientArgv c with reqtype := ReqType.unset, multibulklen := 0, bulklen := -1 }

/-- `processCommand`.  It returns `ERROR_SUCCESS` on every path, so only the
state is kept. -/
def processCommand (env : Env) (st : State) : Except Fault State :=
  let dispatched := st.dispatched ++ [(st.c.argc, st.c.argv)]
  match st.c.argv with
  | [] => .error Fault.argv0_invalid
  | name :: _ =>
    let found := env.lookupCommand name
    let c := { st.c with cmd := found, lastcmd := found }
    match found with
    | none => .ok { st with c := c, dispatched := dispatched }
    | some cmd =>
      if (cmd.arity > 0 ∧ cmd.arity ≠ (c.argc : Int)) ∨ ((c.argc : Int) < -cmd.arity) then
        .ok { st with c := c, dispatched := dispatched }
      else
        let (server1, c1) := env.proc cmd.proc st.server c
        .ok { server := server1, c := resetClient c1, dispatched := dispatched,
              invoked := st.invoked ++ [(cmd.proc, c.argv)] }

/-- The trim after the loop of `processInputBuffer`. -/
def trimQuerybuf (st : State) : State :=
  if st.c.qb_pos ≠ 0 then
    { st with c := { st.c with querybuf := sdsrange st.c.querybuf st.c.qb_pos, qb_pos := 0 } }
  else st

/-- The two statements `server.current_client = c; processCommand(c);`. -/
def runCommand (env : Env) (st : State) : Except Fault State :=
  processCommand env { st with server := { st.server with current_client := some st.c.id } }

/-- The classification `if (!c->reqtype) { ... }` at the top of the loop body. -/
def classify (st : State) : State :=
  if st.c.reqtype = ReqType.unset then
    if (st.c.querybuf.drop st.c.qb_pos).head? = some '*'.toNat then
      { st with c := { st.c with reqtype := ReqType.PROTO_REQ_MULTIBULK } }
    else { st with c := { st.c with reqtype := ReqType.PROTO_REQ_INLINE } }
  else st

/-- The loop `while(c->qb_pos < sdslen(c->querybuf))` of `processInputBuffer`
followed by the trim; `fuel` bounds the number of tests of the loop condition. -/
def processInputLoop (env : Env) : Nat → State → Except Fault State
  | 0, _ => .error Fault.out_of_fuel
  | fuel + 1, st =>
    if st.c.qb_pos < st.c.querybuf.length then
      let st1 := classify st
      if st1.c.reqtype = ReqType.PROTO_REQ_MULTIBULK then
        match processMultibulkBuffer env st1 with
        | .error f => .error f
        | .ok (Ret.ERROR_FAILED, st2) => .ok (trimQuerybuf st2)
        | .ok (Ret.ERROR_SUCCESS, st2) =>
          match runCommand env st2 with
          | .error f => .error f
          | .ok st3 => processInputLoop env fuel st3
      else
        match runCommand env st1 with
        | .error f => .error f
        | .ok st3 => processInputLoop env fuel st3
    else .ok (trimQuerybuf st)

/-- `processInputBuffer`, with one test of the loop condition for every
unconsumed byte and one more. -/
def processInputBuffer (env : Env) (st : State) : Except Fault State :=
  processInputLoop env (st.c.querybuf.length - st.c.qb_pos + 1) st

/-- The fields `createClient` sets, for a client without connection
(`createClient(NULL)`); `buf` is the uninitialised inline slab. -/
def createClient (id : Nat) (buf : List Nat) : client :=
  { id := id, conn := none, querybuf := [], qb_pos := 0, reqtype := ReqType.unset,
    argc := 0, argv := [], argv_alloc := 0, argv_len_sum := 0, cmd := none, lastcmd := none,
    multibulklen := 0, bulklen := -1, buf := buf, bufpos := 0, sentlen := 0, reply := [],
    reply_bytes := 0, client_list_node := none }

/-! ## Flushing replies -/

/-- What one `connWrite` does, as decided by the peer and the kernel: it takes
up to `n` bytes, or returns -1 with the connection still connected, or returns
-1 and leaves the connection in the error state. -/
inductive WriteResult where
  | wrote (n : Nat)
  | again
  | failed
  deriving DecidableEq, Repr

/-- Modelled from the spec: `connWrite` (`connection.c`) is not among the
sources; the spec gives the capability *write n bytes → count or retry-later or
error*.  The call is offered the `len` bytes `data` and answers with the next
entry of `script`: the return value, the connection, the rest of the script
and the bytes the connection accepted.  A script that has run out accepts
nothing. -/
def connWrite (conn : connection) (script : List WriteResult) (data : List Nat) (len : Nat) :
    Int × connection × List WriteResult × List Nat :=
  match script with
  | [] => (0, conn, [], [])
  | WriteResult.wrote n :: rest => ((min n len : Nat), conn, rest, data.take (min n len))
  | WriteResult.again :: rest => (-1, conn, rest, [])
  | WriteResult.failed :: rest =>
    (-1, { conn with state := ConnState.CONN_STATE_ERROR }, rest, [])

/-- Modelled from the spec: `deleteFileEvent` (the event loop) is not among the
sources; per the spec each slot carries a mask `(READABLE|WRITABLE)`.  The call
clears the given mask bits of the slot of `fd`. -/
def deleteFileEvent (el : List fileEvent) (fd : Nat) (readable writable : Bool) :
    List fileEvent :=
  el.map fun fe =>
    if fe.fd = fd then
      { fe with readable := fe.readable && !readable, writable := fe.writable && !writable }
    else fe

/-- `freeClientAsync`. -/
def freeClientAsync (st : State) : State :=
  { st with server :=
      { st.server with clients_to_close := st.server.clients_to_close ++ [st.c.id] } }

/-- The locals of `writeToClient` together with the state, the behaviour of
the connection still to come, and the bytes the connection has accepted during
the call. -/
structure WriteRun where
  st : State
  script : List WriteResult
  wire : List Nat
  nwritten : Int
  totwritten : Nat

/-- How one pass of the loop of `writeToClient` ends. -/
inductive WriteStep where
  | brk (run : WriteRun)
  | cont (run : WriteRun)
  | budget (run : WriteRun)

/-- The body of the loop of `writeToClient` up to the budget test: `brk` is
`break`, `cont` is `continue`, `budget` falls through to the budget test. -/
def writeBody (run : WriteRun) : Except Fault WriteStep :=
  let c := run.st.c
  if c.bufpos > 0 then
    match c.conn with
    | none => .error Fault.null_deref
    | some conn =>
      let (n, conn1, script1, acc) :=
        connWrite conn run.script (c.buf.drop c.sentlen)
          (toSizeT ((c.bufpos : Int) - (c.sentlen : Int)))
      let c1 := { c with conn := some conn1 }
      if n ≤ 0 then
        .ok (.brk { run with st := { run.st with c := c1 }, script := script1,
                             wire := run.wire ++ acc, nwritten := n })
      else
        let c2 := { c1 with sentlen := c1.sentlen + n.toNat }
        let c3 := if c2.sentlen = c2.bufpos then { c2 with bufpos := 0, sentlen := 0 } else c2
        .ok (.budget { st := { run.st with c := c3 }, script := script1,
                       wire := run.wire ++ acc, nwritten := n,
                       totwritten := run.totwritten + n.toNat })
  else
    match c.reply with
    | [] => .error Fault.null_deref
    | o :: rest =>
      if o.used = 0 then
        .ok (.cont { run with st := { run.st with c :=
          { c with reply_bytes := toSizeT ((c.reply_bytes : Int) - (o.size : Int)),
                   reply := rest } } })
      else
        match c.conn with
        | none => .error Fault.null_deref
        | some conn =>
          let (n, conn1, script1, acc) :=
            connWrite conn run.script (o.buf.drop c.sentlen)
              (toSizeT ((o.used : Int) - (c.sentlen : Int)))
          let c1 := { c with conn := some conn1 }
          if n ≤ 0 then
            .ok (.brk { run with st := { run.st with c := c1 }, script := script1,
                                 wire := run.wire ++ acc, nwritten := n })
          else
            let c2 := { c1 with sentlen := c1.sentlen + n.toNat }
            let run2 : WriteRun :=
              { st := { run.st with c := c2 }, script := script1, wire := run.wire ++ acc,
                nwritten := n, totwritten := run.totwritten + n.toNat }
            if c2.sentlen = o.used then
              let c3 := { c2 with reply_bytes := toSizeT ((c2.reply_bytes : Int) - (o.size : Int)),
                                  reply := rest, sentlen := 0 }
              if rest.length = 0 ∧ c3.reply_bytes ≠ 0 then .error Fault.assert_reply_bytes_zero
              else .ok (.budget { run2 with st := { run.st with c := c3 } })
            else .ok (.budget run2)

/-- The loop `while(clientHasPendingReplies(c)) { ... }` of `writeToClient`. -/
def writeLoop : Nat → WriteRun → Except Fault WriteRun
  | 0, _ => .error Fault.out_of_fuel
  | fuel + 1, run =>
    if clientHasPendingReplies run.st.c then
      match writeBody run with
      | .error f => .error f
      | .ok (.brk run1) => .ok run1
      | .ok (.cont run1) => writeLoop fuel run1
      | .ok (.budget run1) =>
        if run1.totwritten > NET_MAX_WRITES_PER_EVENT then .ok run1
        else writeLoop fuel run1
    else .ok run

/-- The statements of `writeToClient` after the loop. -/
def writeFinish (run : WriteRun) (handler_installed : Bool) : Except Fault (Ret × WriteRun) :=
  let afterErr : Except Fault (Option WriteRun) :=
    if run.nwritten = -1 then
      match run.st.c.conn with
      | none => .error Fault.null_deref
      | some conn =>
        if conn.state = ConnState.CONN_STATE_CONNECTED then .ok (some { run with nwritten := 0 })
        else .ok none
    else .ok (some run)
  match afterErr with
  | .error f => .error f
  | .ok none => .ok (Ret.ERROR_FAILED, { run with st := freeClientAsync run.st })
  | .ok (some run1) =>
    if !clientHasPendingReplies run1.st.c then
      let st1 : State := { run1.st with c := { run1.st.c with sentlen := 0 } }
      if handler_installed then
        match st1.c.conn with
        | none => .error Fault.null_deref
        | some conn =>
          .ok (Ret.ERROR_SUCCESS, { run1 with st := { st1 with server :=
            { st1.server with el := deleteFileEvent st1.server.el conn.fd true false } } })
      else .ok (Ret.ERROR_SUCCESS, { run1 with st := st1 })
    else .ok (Ret.ERROR_SUCCESS, run1)

/-- `writeToClient(c, handler_installed)` against a connection that behaves as
`script` says; `C_OK` / `C_ERR` are `ERROR_SUCCESS` / `ERROR_FAILED`.  Every
pass of the loop that goes on has used up an entry of the script or removed a
block, which bounds the number of tests of the loop condition. -/
def writeToClient (st : State) (script : List WriteResult) (handler_installed : Bool) :
    Except Fault (Ret × WriteRun) :=
  match writeLoop (script.length + st.c.reply.length + 1)
      { st := st, script := script, wire := [], nwritten := 0, totwritten := 0 } with
  | .error f => .error f
  | .ok run => writeFinish run handler_installed

/-! ## Observations used by the statements -/

/-- The output stream of a client: `buf[0..bufpos)` followed by `buf[0..used)`
of every block of the reply chain, in chain order. -/
def outputStream (c : client) : List Nat :=
  c.buf.take c.bufpos ++ (c.reply.map fun b => b.buf.take b.used).flatten

/-- The output not yet sent: the output stream without the first `sentlen`
bytes of its head chunk. -/
def unsentOutput (c : client) : List Nat := (outputStream c).drop c.sentlen

/-- The invariants of the reply side of a client record: `bufpos` is a cursor
into the inline slab and every block has `used ≤ size`. -/
def ReplyWF (c : client) : Prop :=
  c.bufpos ≤ c.buf.length ∧ ∀ b ∈ c.reply, b.used ≤ b.size

/-- The invariants `writeToClient` relies on: the connection is there,
`sentlen` is a cursor into the head output chunk that has not reached its end
(the code moves on as soon as it does), and `reply_bytes` is the sum of the
block sizes (as a `size_t`). -/
def FlushWF (c : client) : Prop :=
  c.conn ≠ none ∧
  (if c.bufpos > 0 then c.sentlen < c.bufpos
   else match c.reply with
     | [] => True
     | o :: _ => c.sentlen < o.used ∨ c.sentlen = 0) ∧
  c.reply_bytes = (c.reply.map clientReplyBlock.size).sum % SIZE_MAX1

/-- The bytes of a reply chain: `buf[0..used)` of every block, in chain order. -/
def chainStream (reply : List clientReplyBlock) : List Nat :=
  (reply.map fun b => b.buf.take b.used).flatten

/-- What holds of a run of the loop of `writeToClient` that started from the
client `c0`: the bytes accepted so far followed by the unsent output are the
unsent output of `c0`, the invariants of the reply side hold, blocks have only
been removed from the head of the chain, and the chain is untouched until the
inline slab is drained. -/
structure WInv (c0 : client) (run : WriteRun) : Prop where
  cons : run.wire ++ unsentOutput run.st.c = unsentOutput c0
  rwf : ReplyWF run.st.c
  fwf : FlushWF run.st.c
  chain : ∃ k, run.st.c.reply = c0.reply.drop k
  slab : (run.st.c.bufpos = c0.bufpos ∧ run.st.c.reply = c0.reply ∧
      run.st.c.sentlen = c0.sentlen + run.wire.length) ∨
    (run.st.c.bufpos = 0 ∧ c0.bufpos - c0.sentlen ≤ run.wire.length ∧
      (0 < c0.bufpos → run.wire.length = c0.bufpos - c0.sentlen → run.st.c.sentlen = 0))

/-- What one pass of the loop of `writeToClient` establishes, by the way it
ends: the invariant again, and what it used up (an entry of the script or a
block of the chain) when the loop goes on. -/
def StepPost (c0 : client) (run : WriteRun) (step : WriteStep) : Prop :=
  match step with
  | .brk run1 => WInv c0 run1
  | .cont run1 =>
    WInv c0 run1 ∧ run1.script = run.script ∧
      run1.st.c.reply.length + 1 = run.st.c.reply.length
  | .budget run1 =>
    WInv c0 run1 ∧ run1.script.length + 1 = run.script.length ∧
      run1.st.c.reply.length ≤ run.st.c.reply.length

/-- What a flush that started from the client `c0` and put `wire` on the
connection leaves in the client `c`: the bytes are conserved, the chain is
untouched while the inline slab is not drained, `bufpos` and `sentlen` are 0
once it is, blocks have only been removed from the head of the chain, and the
block left at the head (if any) is empty or has bytes not yet accepted. -/
def FlushPost (c0 : client) (wire : List Nat) (c : client) : Prop :=
  wire ++ unsentOutput c = unsentOutput c0 ∧
  (c.bufpos ≠ 0 → c.reply = c0.reply ∧ wire.length < c0.bufpos - c0.sentlen) ∧
  (0 < c0.bufpos → c0.bufpos - c0.sentlen ≤ wire.length → c.bufpos = 0) ∧
  (0 < c0.bufpos → wire.length = c0.bufpos - c0.sentlen → c.sentlen = 0) ∧
  (∃ k, c.reply = c0.reply.drop k) ∧
  (c.bufpos = 0 → ∀ o rest, c.reply = o :: rest → c.sentlen < o.used ∨ o.used = 0)

/-! ## The wire format, for the statements about decoding -/

/-- The decimal digits of a length, as the sender writes them. -/
def natDigits (n : Nat) : List Nat :=
  if n = 0 then ['0'.toNat] else (Nat.digits 10 n).reverse.map (· + '0'.toNat)

/-- The bulk `$<L>\r\n<L bytes>\r\n`. -/
def encodeBulk (a : List Nat) : List Nat :=
  '$'.toNat :: natDigits a.length ++ [CR, LF] ++ a ++ [CR, LF]

/-- The bulks of an argument vector, one after the other. -/
def encodeBulks (args : List (List Nat)) : List Nat := (args.map encodeBulk).flatten

/-- The command `*<N>\r\n` followed by its `N` bulks. -/
def encodeCommand (args : List (List Nat)) : List Nat :=
  '*'.toNat :: natDigits args.length ++ [CR, LF] ++ encodeBulks args

/-- A request stream: commands one after the other. -/
def encodeStream (cmds : List (List (List Nat))) : List Nat :=
  (cmds.map encodeCommand).flatten

/-- An argument vector the wire format allows: between 1 and 1048576
arguments, none longer than `proto_max_bulk_len`. -/
def ValidArgs (args : List (List Nat)) : Prop :=
  1 ≤ args.length ∧ args.length ≤ 1048576 ∧ ∀ a ∈ args, (a.length : Int) ≤ proto_max_bulk_len

/-- The command name of an argument vector is in the dictionary and the
vector passes the arity test of `processCommand`. -/
def Known (env : Env) (args : List (List Nat)) : Prop :=
  ∃ name rest cmd, args = name :: rest ∧ env.lookupCommand name = some cmd ∧
    ¬ ((cmd.arity > 0 ∧ cmd.arity ≠ (args.length : Int)) ∨ ((args.length : Int) < -cmd.arity))

/-- The handlers leave the input side of the client alone. -/
def HandlersKeepInput (env : Env) : Prop :=
  ∀ p srv c, (env.proc p srv c).2.querybuf = c.querybuf ∧ (env.proc p srv c).2.qb_pos = c.qb_pos

/-- What `readQueryFromClient` does to the state between the read and the call
of `processInputBuffer`: the bytes read are appended to `querybuf`. -/
def feed (st : State) (chunk : List Nat) : State :=
  { st with c := { st.c with querybuf := st.c.querybuf ++ chunk } }

/-- Chunks arriving one at a time, `processInputBuffer` after each. -/
def feedAll (env : Env) : State → List (List Nat) → Except Fault State
  | st, [] => .ok st
  | st, chunk :: chunks =>
    match processInputBuffer env (feed st chunk) with
    | .error f => .error f
    | .ok st1 => feedAll env st1 chunks

/-- ASCII `tolower`. -/
def tolower (b : Nat) : Nat := if 'A'.toNat ≤ b ∧ b ≤ 'Z'.toNat then b + 32 else b

/-- The static `commandTable`; `testComand` is handler 0 and `commandCommand`
is handler 1. -/
def commandTable : List respCommand :=
  [{ name := bytes "test", proc := 0, arity := 0 },
   { name := bytes "command", proc := 1, arity := -1 }]

/-- Modelled from the spec: `dictFetchValue` (`dict.c`) is not among the
sources; per the spec the lookup is a case-insensitive match of the `argv[0]`
string against the command dictionary, which `populateCommandTable` fills from
`commandTable`. -/
def lookupCommand (name : List Nat) : Option respCommand :=
  commandTable.find? fun cmd => cmd.name.map tolower = name.map tolower

/-- The environment with the static command table. -/
def staticEnv (proc : Nat → respServer → client → respServer × client) (slack : Nat → Nat) :
    Env :=
  { lookupCommand := lookupCommand, proc := proc, slack := slack }

/-- A server with empty registries, as `initConf` leaves it. -/
def initServerState : respServer :=
  { clients := [], clients_pending_write := [], clients_to_close := [],
    current_client := none, next_client_id := 1, el := [] }

/-- A state holding a client just made by `createClient`, nothing recorded yet. -/
def freshState (server : respServer) (id : Nat) (buf : List Nat) : State :=
  { server := server, c := createClient id buf, dispatched := [], invoked := [] }

/-- The static command table with handlers that do nothing and an allocator
without slack, for the closed statements. -/
def exampleEnv : Env := staticEnv (fun _ s c => (s, c)) (fun _ => 0)

/-- A fresh client that has received `input`. -/
def received (input : String) : State :=
  feed (freshState initServerState 1 [0, 0, 0, 0, 0, 0, 0, 0]) (bytes input)

/-- A connected client with the inline reply bytes 1, 2, 3, the first of them
sent already. -/
def exampleFlushState : State :=
  { server := initServerState,
    c := { createClient 1 [1, 2, 3] with
             conn := some ⟨5, ConnState.CONN_STATE_CONNECTED⟩, bufpos := 3, sentlen := 1 },
    dispatched := [], invoked := [] }

/-! ## Invariants of the parser, for the proofs -/

/-- The cursor is inside the buffer and the buffer has a length a `ssize_t` can hold. -/
def Sane (c : client) : Prop := c.qb_pos ≤ c.querybuf.length ∧ c.querybuf.length < 2 ^ 63

/-- The parser is inside a command: `done` are the arguments stored, `todo` the
ones still to read, `R` what follows the command on the wire, and `future` the
bytes that have not arrived yet. -/
structure Mid (c : client) (future : List Nat) (done todo : List (List Nat)) (R : List Nat) :
    Prop where
  sane : Sane c
  argv : c.argv = done
  argc : c.argc = done.length
  mbl : c.multibulklen = (todo.length : Int)
  valid : ∀ a ∈ todo, (a.length : Int) ≤ proto_max_bulk_len
  input : (c.bulklen = -1 ∧ c.querybuf.drop c.qb_pos ++ future = encodeBulks todo ++ R) ∨
    (∃ a more, todo = a :: more ∧ c.bulklen = (a.length : Int) ∧
      c.querybuf.drop c.qb_pos ++ future = a ++ [CR, LF] ++ encodeBulks more ++ R)

/-- What a run of the argument loop leaves behind. -/
def LoopPost (st st1 : State) (r : Ret) (future : List Nat) (done todo : List (List Nat))
    (R : List Nat) : Prop :=
  st1.server = st.server ∧ st1.dispatched = st.dispatched ∧ st1.invoked = st.invoked ∧
  st1.c.reqtype = st.c.reqtype ∧ st1.c.querybuf.length ≤ st.c.querybuf.length ∧
  ((r = Ret.ERROR_SUCCESS ∧ Sane st1.c ∧ st1.c.argv = done ++ todo ∧
      st1.c.argc = (done ++ todo).length ∧ st1.c.multibulklen = 0 ∧ st1.c.bulklen = -1 ∧
      st1.c.querybuf.drop st1.c.qb_pos ++ future = R) ∨
   (r = Ret.ERROR_FAILED ∧ future ≠ [] ∧ ∃ done1 todo1, done1 ++ todo1 = done ++ todo ∧
      todo1 ≠ [] ∧ Mid st1.c future done1 todo1 R))

/-- The parser is at or inside the command `args`, which `R` follows on the wire. -/
def Pend (c : client) (future : List Nat) (args : List (List Nat)) (R : List Nat) : Prop :=
  (Sane c ∧ c.multibulklen = 0 ∧ c.argc = 0 ∧ c.bulklen = -1 ∧
      c.querybuf.drop c.qb_pos ++ future = encodeCommand args ++ R) ∨
  (∃ done todo, done ++ todo = args ∧ todo ≠ [] ∧ Mid c future done todo R)

/-- What `processMultibulkBuffer` leaves behind on a well-formed command. -/
def ParsePost (st st1 : State) (r : Ret) (future : List Nat) (args : List (List Nat))
    (R : List Nat) : Prop :=
  st1.server = st.server ∧ st1.dispatched = st.dispatched ∧ st1.invoked = st.invoked ∧
  st1.c.reqtype = st.c.reqtype ∧ st1.c.querybuf.length ≤ st.c.querybuf.length ∧
  ((r = Ret.ERROR_SUCCESS ∧ Sane st1.c ∧ st1.c.argv = args ∧
      st1.c.argc = args.length ∧ st1.c.multibulklen = 0 ∧ st1.c.bulklen = -1 ∧
      st1.c.querybuf.drop st1.c.qb_pos ++ future = R) ∨
   (r = Ret.ERROR_FAILED ∧ future ≠ [] ∧ Pend st1.c future args R))

/-- The handler `processCommand` calls for an argument vector (0 if none). -/
def procOf (env : Env) (args : List (List Nat)) : Nat :=
  match args with
  | [] => 0
  | name :: _ =>
    match env.lookupCommand name with
    | none => 0
    | some cmd => cmd.proc

/-- The state of the parser against the commands `P` still to be dispatched,
the first of which may be under way; `future` has not arrived yet. -/
def PInv (env : Env) (st : State) (future : List Nat) (P : List (List (List Nat))) : Prop :=
  (∀ a ∈ P, ValidArgs a ∧ Known env a) ∧
  st.c.querybuf.length + future.length < 2 ^ 63 ∧
  ((st.c.reqtype ≠ ReqType.PROTO_REQ_INLINE ∧ st.c.qb_pos ≤ st.c.querybuf.length ∧
      st.c.multibulklen = 0 ∧ st.c.argc = 0 ∧ st.c.bulklen = -1 ∧
      st.c.querybuf.drop st.c.qb_pos ++ future = encodeStream P) ∨
   (∃ args rest done todo, P = args :: rest ∧ done ++ todo = args ∧ todo ≠ [] ∧
      st.c.reqtype = ReqType.PROTO_REQ_MULTIBULK ∧
      Mid st.c future done todo (encodeStream rest)))

/-- The entries `processCommand` records for a list of commands. -/
def traceOf (P : List (List (List Nat))) : List (Nat × List (List Nat)) :=
  P.map fun a => (a.length, a)

/-- The entries recorded for the handler calls of a list of commands. -/
def invokedOf (env : Env) (P : List (List (List Nat))) : List (Nat × List (List Nat)) :=
  P.map fun a => (procOf env a, a)

/-! ## Further operations and example states -/

/-- A client whose parser has just completed the command `args`: `argc` and
`argv` hold it and the request type is still `PROTO_REQ_MULTIBULK`. -/
def parsedState (args : List (List Nat)) : State :=
  { server := initServerState,
    c := { createClient 1 [0, 0, 0, 0, 0, 0, 0, 0] with
             reqtype := ReqType.PROTO_REQ_MULTIBULK, argc := args.length, argv := args,
             argv_alloc := args.length },
    dispatched := [], invoked := [] }

/-- A command dictionary with the single entry `set` of arity 3, for the arity
branch of `processCommand` (the static table has no entry of positive arity). -/
def arityEnv : Env :=
  { lookupCommand := fun name =>
      if name = bytes "set" then some { name := bytes "set", proc := 7, arity := 3 } else none,
    proc := fun _ s c => (s, c),
    slack := fun _ => 0 }

/-- The arity test of `processCommand` passes:
`!((arity > 0 && arity != argc) || (argc < -arity))`. -/
def arityOk (cmd : respCommand) (argc : Nat) : Prop :=
  ¬ ((cmd.arity > 0 ∧ cmd.arity ≠ (argc : Int)) ∨ ((argc : Int) < -cmd.arity))

instance (cmd : respCommand) (argc : Nat) : Decidable (arityOk cmd argc) := by
  unfold arityOk
  infer_instance

/-- A connected client on descriptor 5 with the inline reply bytes 1, 2, 3, the
first of them sent already, whose descriptor is registered in the event loop
for both readable and writable readiness (the state in which the event loop
calls `sendReplyToClient`). -/
def exampleHandlerState : State :=
  { exampleFlushState with
    server := { initServerState with el := [{ fd := 5, readable := true, writable := true }] } }

/-- Modelled from the spec: `listDelNode` (`adlist.c`) is not among the sources;
per the spec the list removes a node in O(1) given its handle.  A node of
`server.clients` is identified by the id of the client it holds (ids are
unique and `linkClient` is the only place that adds a node), so removing the
node removes that entry and keeps the others in their order. -/
def listDelNode (l : List Nat) (node : Nat) : List Nat := l.erase node

/-- `linkClient`: the client is added at the tail of `server.clients` and
remembers its node. -/
def linkClient (server : respServer) (c : client) : respServer × client :=
  ({ server with clients := server.clients ++ [c.id] }, { c with client_list_node := some c.id })

/-- `createClient(conn)` for a connection that is there: the id is
`++server.next_client_id` (a `uint64_t`), the fields are set as for
`createClient(NULL)`, and the client is linked. -/
def createClientOn (server : respServer) (conn : connection) (buf : List Nat) :
    respServer × client :=
  let client_id := (server.next_client_id + 1) % 2 ^ 64
  linkClient { server with next_client_id := client_id }
    { createClient client_id buf with conn := some conn }

/-- `unlinkClient`.  The body of `connClose` is in `connection.c`, which is not
among the sources: what it does to the slots of the event loop is the
parameter `connClose`. -/
def unlinkClient (connClose : connection → List fileEvent → List fileEvent) (st : State) :
    State :=
  let server1 :=
    if st.server.current_client = some st.c.id then { st.server with current_client := none }
    else st.server
  match st.c.conn with
  | none => { st with server := server1 }
  | some conn =>
    match st.c.client_list_node with
    | some node =>
      { st with
        server := { server1 with clients := listDelNode server1.clients node,
                                 el := connClose conn server1.el },
        c := { st.c with client_list_node := none, conn := none } }
    | none =>
      { st with
        server := { server1 with el := connClose conn server1.el },
        c := { st.c with conn := none } }

/-- A linked client: it has its connection, it remembers its node, and
`server.clients` holds it once (what `createClient(conn)` establishes). -/
def Linked (server : respServer) (c : client) : Prop :=
  c.conn ≠ none ∧ c.client_list_node = some c.id ∧ server.clients.count c.id = 1

/-- The blocks `_addReplyProtoToList` appends for the bytes `rem` left over
after the tail block is filled: none if nothing is left, otherwise one block
holding exactly `rem`, of capacity at least `max(len, PROTO_REPLY_CHUNK_BYTES)`. -/
def NewBlocks (rem : List Nat) (extra : List clientReplyBlock) : Prop :=
  (rem = [] ∧ extra = []) ∨
  (rem ≠ [] ∧ ∃ b, extra = [b] ∧ b.used = rem.length ∧ b.buf.take b.used = rem ∧
    max rem.length PROTO_REPLY_CHUNK_BYTES ≤ b.size)

/-- The second client of a server, made by `createClient(conn)` on descriptor 6
and marked as the current client. -/
def exampleLinkedState : State :=
  { server :=
      { (createClientOn { initServerState with clients := [1] }
            ⟨6, ConnState.CONN_STATE_CONNECTED⟩ [0, 0, 0, 0]).1 with
        current_client := some 2 },
    c := (createClientOn { initServerState with clients := [1] }
            ⟨6, ConnState.CONN_STATE_CONNECTED⟩ [0, 0, 0, 0]).2,
    dispatched := [], invoked := [] }

/-- The capacities of the reply side are values of type `size_t`:
`sizeof(c->buf)` and the field `size` of every block. -/
def SizesFit (c : client) : Prop :=
  c.buf.length < SIZE_MAX1 ∧ ∀ b ∈ c.reply, b.size < SIZE_MAX1

/-- A connected client whose inline slab is drained and whose reply chain holds
one block of capacity 4 with the bytes 7, 8. -/
def exampleChainState : State :=
  { server := initServerState,
    c := { createClient 1 [0, 0, 0, 0] with
             conn := some ⟨5, ConnState.CONN_STATE_CONNECTED⟩,
             reply := [{ used := 2, buf := [7, 8, 0, 0] }], reply_bytes := 4 },
    dispatched := [], invoked := [] }

/-! ## The calls of `connWrite` a flush makes -/

/-- One call of `connWrite` made by `writeToClient`: the client when the call is
made, the value of `totwritten` at that moment, the bytes and the length
offered, and the value returned. -/
structure WriteCall where
  c : client
  totwritten : Nat
  data : List Nat
  len : Nat
  ret : Int

/-- The size of the output chunk a call writes from: `bufpos` for the inline
slab, `used` of the head block otherwise. -/
def WriteCall.chunk (w : WriteCall) : Nat :=
  if w.c.bufpos > 0 then w.c.bufpos
  else match w.c.reply with
    | [] => 0
    | o :: _ => o.used

/-- The call of `connWrite` that the body of the loop of `writeToClient` makes
when it starts from `run`, if it makes one: `connWrite(c->conn, c->buf+c->sentlen,
c->bufpos-c->sentlen)` for the inline slab, `connWrite(c->conn, o->buf +
c->sentlen, objlen - c->sentlen)` for a head block that is not empty. -/
def writeCallOf (run : WriteRun) : Option WriteCall :=
  let c := run.st.c
  if c.bufpos > 0 then
    match c.conn with
    | none => none
    | some conn =>
      some { c := c, totwritten := run.totwritten, data := c.buf.drop c.sentlen,
             len := toSizeT ((c.bufpos : Int) - (c.sentlen : Int)),
             ret := (connWrite conn run.script (c.buf.drop c.sentlen)
                      (toSizeT ((c.bufpos : Int) - (c.sentlen : Int)))).1 }
  else
    match c.reply with
    | [] => none
    | o :: _ =>
      if o.used = 0 then none
      else
        match c.conn with
        | none => none
        | some conn =>
          some { c := c, totwritten := run.totwritten, data := o.buf.drop c.sentlen,
                 len := toSizeT ((o.used : Int) - (c.sentlen : Int)),
                 ret := (connWrite conn run.script (o.buf.drop c.sentlen)
                          (toSizeT ((o.used : Int) - (c.sentlen : Int)))).1 }

/-- The calls of `connWrite` made by the loop of `writeToClient`, oldest first;
the recursion is that of `writeLoop`. -/
def writeCalls : Nat → WriteRun → List WriteCall
  | 0, _ => []
  | fuel + 1, run =>
    if clientHasPendingReplies run.st.c then
      match writeBody run with
      | .error _ => (writeCallOf run).toList
      | .ok (.brk _) => (writeCallOf run).toList
      | .ok (.cont run1) => writeCalls fuel run1
      | .ok (.budget run1) =>
        (writeCallOf run).toList ++
          (if run1.totwritten > NET_MAX_WRITES_PER_EVENT then [] else writeCalls fuel run1)
    else []

/-- The calls of `connWrite` made by `writeToClient(c, handler_installed)`. -/
def writeToClientCalls (st : State) (script : List WriteResult) : List WriteCall :=
  writeCalls (script.length + st.c.reply.length + 1)
    { st := st, script := script, wire := [], nwritten := 0, totwritten := 0 }

/-- What a pass of the loop of `writeToClient` does to the locals, by the way
it ends and the call of `connWrite` it made. -/
def CallFacts (run : WriteRun) (step : WriteStep) : Prop :=
  match step with
  | .brk run1 =>
    ∃ call, writeCallOf run = some call ∧ call.ret ≤ 0 ∧ run1.nwritten = call.ret ∧
      run1.totwritten = run.totwritten ∧ run1.wire = run.wire ∧
      run1.st.server = run.st.server ∧
      ∃ conn1, run1.st.c = { run.st.c with conn := some conn1 }
  | .cont run1 =>
    writeCallOf run = none ∧ run1.nwritten = run.nwritten ∧
      run1.totwritten = run.totwritten ∧ run1.wire = run.wire ∧
      run1.st.server = run.st.server ∧ run1.st.c.id = run.st.c.id
  | .budget run1 =>
    ∃ call, writeCallOf run = some call ∧ 0 < call.ret ∧ run1.nwritten = call.ret ∧
      run1.totwritten = run.totwritten + call.ret.toNat ∧
      run1.wire = run.wire ++ call.data.take call.ret.toNat ∧
      call.ret.toNat ≤ call.len ∧
      run1.st.server = run.st.server ∧ run1.st.c.id = run.st.c.id

/-! ## Reachable states of the reply side -/

/-- The blocks of the reply chain fit the address space: their sizes add up to
less than `SIZE_MAX + 1`. -/
def ChainFits (c : client) : Prop := (c.reply.map clientReplyBlock.size).sum < SIZE_MAX1

/-- The states reachable from `createClient(conn)` by calls of `addReplyProto`,
`addReplyErrorLength` and `writeToClient` (against any behaviour of the
connection).  The allocator cannot hand out more memory than the address space
holds, so a call that appends is considered only when the blocks of the chain
fit the address space afterwards. -/
inductive ReplyReach (env : Env) : State → Prop
  | created (server : respServer) (conn : connection) (buf : List Nat)
      (dispatched invoked : List (Nat × List (List Nat))) :
      ReplyReach env { server := (createClientOn server conn buf).1,
                       c := (createClientOn server conn buf).2,
                       dispatched := dispatched, invoked := invoked }
  | proto (st : State) (s : List Nat) :
      ReplyReach env st → ChainFits (addReplyProto env st s).c →
      ReplyReach env (addReplyProto env st s)
  | error (st : State) (s : List Nat) :
      ReplyReach env st → ChainFits (addReplyErrorLength env st s).c →
      ReplyReach env (addReplyErrorLength env st s)
  | flush (st : State) (script : List WriteResult) (handler_installed : Bool) (r : Ret)
      (run : WriteRun) :
      ReplyReach env st → writeToClient st script handler_installed = .ok (r, run) →
      ReplyReach env run.st

/-- The invariant of the reply side that the reachable states keep: the
invariants `writeToClient` relies on, `sentlen = 0` when nothing is pending,
blocks that fit the address space, and no block of capacity 0. -/
def AcctInv (c : client) : Prop :=
  ReplyWF c ∧ FlushWF c ∧ (clientHasPendingReplies c = false → c.sentlen = 0) ∧
    ChainFits c ∧ ∀ b ∈ c.reply, 0 < b.size

/-! ## The parse cursor -/

/-- The invariant of the parse cursor: `qb_pos ≤ len(querybuf)`, the buffer has
a length a `ssize_t` can hold, and `bulklen` is -1 or a length the parser
accepted. -/
def CursorInv (c : client) : Prop :=
  Sane c ∧ (c.bulklen = -1 ∨ (0 ≤ c.bulklen ∧ c.bulklen ≤ proto_max_bulk_len))

/-- The unconsumed input of `c1` is what is left of the unconsumed input of
`c0` after some more of it has been consumed: `querybuf[qb_pos..]` of `c1` is
`querybuf[k..]` of `c0` for a `k` from the cursor of `c0` on. -/
def Consumes (c0 c1 : client) : Prop :=
  ∃ k, c0.qb_pos ≤ k ∧ k ≤ c0.querybuf.length ∧
    c1.querybuf.drop c1.qb_pos = c0.querybuf.drop k

/-- What a step of the parser that starts from `st` leaves in `st1`: the cursor
invariant, and unconsumed input that is a rest of the unconsumed input of `st`. -/
def CursorStep (st st1 : State) : Prop := CursorInv st1.c ∧ Consumes st.c st1.c

/-! ## Reading from the connection -/

/-- The state after the buffer-steal branch of `processMultibulkBuffer` has
stored `querybuf`, without its last two bytes, as the next argument. -/
def stolen (st : State) : State :=
  { st with c :=
    { st.c with argv := st.c.argv.take st.c.argc ++ [st.c.querybuf.take (st.c.querybuf.length - 2)],
                argc := st.c.argc + 1,
                argv_len_sum := (st.c.argv_len_sum + toSizeT st.c.bulklen) % SIZE_MAX1,
                querybuf := [],
                bulklen := -1, multibulklen := st.c.multibulklen - 1 } }

/-- The state after the copy branch of `processMultibulkBuffer`
(`createStringObject(c->querybuf+c->qb_pos,c->bulklen)` and
`c->qb_pos += c->bulklen+2`) has stored the next `bulklen` bytes as the next
argument and stepped over them and their CRLF. -/
def copied (st : State) : State :=
  { st with c :=
    { st.c with argv := st.c.argv.take st.c.argc ++
                  [(st.c.querybuf.drop st.c.qb_pos).take (toSizeT st.c.bulklen)],
                argc := st.c.argc + 1,
                argv_len_sum := (st.c.argv_len_sum + toSizeT st.c.bulklen) % SIZE_MAX1,
                qb_pos := toSizeT ((st.c.qb_pos : Int) + (st.c.bulklen + 2)),
                bulklen := -1, multibulklen := st.c.multibulklen - 1 } }

/-- The condition of the buffer-steal branch: `c->qb_pos == 0 &&
c->bulklen >= PROTO_MBULK_BIG_ARG && sdslen(c->querybuf) == (size_t)(c->bulklen+2)`. -/
def zeroCopy (c : client) : Prop :=
  c.qb_pos = 0 ∧ c.bulklen ≥ (PROTO_MBULK_BIG_ARG : Int) ∧
    c.querybuf.length = toSizeT (c.bulklen + 2)

instance (c : client) : Decidable (zeroCopy c) := by
  unfold zeroCopy
  infer_instance

/-- A client inside a command of one argument whose buffer holds exactly the
32768 bytes of that argument and the CRLF after them. -/
def wholeArgState : State :=
  { server := initServerState,
    c := { createClient 1 [0, 0, 0, 0] with
             reqtype := ReqType.PROTO_REQ_MULTIBULK, multibulklen := 1, bulklen := 32768,
             argv_alloc := 1,
             querybuf := List.replicate 32768 7 ++ [CR, LF] },
    dispatched := [], invoked := [] }

/-! ## States of the input loop -/

/-- A client that holds the one argument `foo` of an earlier command and whose
request type is inline, with the byte `x` unread. -/
def inlineState : State :=
  { server := initServerState,
    c := { createClient 1 [0, 0, 0, 0] with
             reqtype := ReqType.PROTO_REQ_INLINE, argc := 1, argv := [bytes "foo"],
             argv_alloc := 1, querybuf := bytes "x" },
    dispatched := [], invoked := [] }

/-! ## The write queue and the free queue -/

/-- The server together with the client records that are allocated and their
connections: `client id` is the record the pointer `id` of a list node leads
to, `none` once it has been freed, and `peer id` is what the connection of that
client does on the calls of `connWrite` still to come. -/
structure World where
  server : respServer
  client : Nat → Option client
  peer : Nat → List WriteResult

/-- What stops a pass over a queue: a fault inside the work on one client, or
a node whose client record has been freed. -/
inductive WorldFault where
  | inClient (f : Fault)
  | freed (id : Nat)
  deriving DecidableEq, Repr

/-- The entry of `id` in a table is replaced by `v`. -/
def setClient {α : Type} (table : Nat → α) (id : Nat) (v : α) : Nat → α :=
  fun i => if i = id then v else table i

/-- Modelled from the spec: `createFileEvent` (the event loop) is not among the
sources; per the spec each slot carries a mask `(READABLE|WRITABLE)` and the
callbacks.  The call sets the given mask bits of the slot of `fd`, making the
slot when there is none, and returns `ERROR_SUCCESS`; whether it can refuse a
descriptor is decided outside the sources and is the parameter `accepts`. -/
def createFileEvent (accepts : Nat → Bool) (el : List fileEvent) (fd : Nat)
    (readable writable : Bool) : Ret × List fileEvent :=
  if accepts fd then
    (Ret.ERROR_SUCCESS,
      if el.any (fun fe => fe.fd = fd) then
        el.map fun fe =>
          if fe.fd = fd then
            { fe with readable := fe.readable || readable, writable := fe.writable || writable }
          else fe
      else el ++ [{ fd := fd, readable := readable, writable := writable }])
  else (Ret.ERROR_FAILED, el)

/-- What one pass of the loop of `handleClientsWithPendingWrites` did: the
client of the node, what `writeToClient(c,0)` returned, whether the client had
pending replies after it, and, when
`createFileEvent(.., fd, EVENT_WRITABLE, sendReplyToClient, ..)` was called,
the descriptor it was called with and its return value. -/
structure FlushRecord where
  id : Nat
  ret : Ret
  pending : Bool
  registered : Option (Nat × Ret)
  deriving DecidableEq, Repr

/-- One pass of the loop of `handleClientsWithPendingWrites` for the node of
client `id`: the node is deleted, the client is flushed with its connection
behaving as `peer id` says, and the write handler is installed when the flush
returned `C_OK` and replies are still pending. -/
def handleOne (accepts : Nat → Bool) (w : World) (id : Nat) :
    Except WorldFault (World × FlushRecord) :=
  match w.client id with
  | none => .error (WorldFault.freed id)
  | some c =>
    let server1 :=
      { w.server with clients_pending_write := listDelNode w.server.clients_pending_write id }
    match writeToClient { server := server1, c := c, dispatched := [], invoked := [] }
        (w.peer id) false with
    | .error f => .error (WorldFault.inClient f)
    | .ok (r, run) =>
      if r = Ret.ERROR_FAILED then
        .ok ({ server := run.st.server, client := setClient w.client id (some run.st.c),
               peer := setClient w.peer id run.script },
             { id := id, ret := r, pending := clientHasPendingReplies run.st.c,
               registered := none })
      else if clientHasPendingReplies run.st.c then
        match run.st.c.conn with
        | none => .error (WorldFault.inClient Fault.null_deref)
        | some conn =>
          let reg := createFileEvent accepts run.st.server.el conn.fd false true
          let st2 : State := { run.st with server := { run.st.server with el := reg.2 } }
          let st3 : State := if reg.1 ≠ Ret.ERROR_SUCCESS then freeClientAsync st2 else st2
          .ok ({ server := st3.server, client := setClient w.client id (some st3.c),
                 peer := setClient w.peer id run.script },
               { id := id, ret := r, pending := true, registered := some (conn.fd, reg.1) })
      else
        .ok ({ server := run.st.server, client := setClient w.client id (some run.st.c),
               peer := setClient w.peer id run.script },
             { id := id, ret := r, pending := false, registered := none })

/-- The loop `while((ln = listNext(&li)))` of `handleClientsWithPendingWrites`
over the nodes still to visit; `log` holds the passes made so far. -/
def handleLoop (accepts : Nat → Bool) :
    List Nat → World → List FlushRecord → Except WorldFault (World × List FlushRecord)
  | [], w, log => .ok (w, log)
  | id :: rest, w, log =>
    match handleOne accepts w id with
    | .error f => .error f
    | .ok (w1, rec) => handleLoop accepts rest w1 (log ++ [rec])

/-- `handleClientsWithPendingWrites`. -/
def handleClientsWithPendingWrites (accepts : Nat → Bool) (w : World) :
    Except WorldFault (World × List FlushRecord) :=
  if w.server.clients_pending_write.length = 0 then .ok (w, [])
  else handleLoop accepts w.server.clients_pending_write w []

/-- `freeClient` for the record `c` of client `id`: buffers, replies and
arguments are released, the client is unlinked, and the record is freed. -/
def freeClient (connClose : connection → List fileEvent → List fileEvent) (w : World)
    (id : Nat) (c : client) : World :=
  let st1 := unlinkClient connClose
    { server := w.server, c := freeClientArgv { c with querybuf := [], reply := [] },
      dispatched := [], invoked := [] }
  { server := st1.server, client := fun i => if i = id then none else w.client i,
    peer := w.peer }

/-- The loop of `freeClientsInAsyncFreeQueue` over the nodes still to visit,
with the number of clients freed so far. -/
def freeLoop (connClose : connection → List fileEvent → List fileEvent) :
    List Nat → World → Nat → Except WorldFault (World × Nat)
  | [], w, freed => .ok (w, freed)
  | id :: rest, w, freed =>
    match w.client id with
    | none => .error (WorldFault.freed id)
    | some c =>
      let w1 := freeClient connClose w id c
      freeLoop connClose rest
        { w1 with server :=
            { w1.server with clients_to_close := listDelNode w1.server.clients_to_close id } }
        (freed + 1)

/-- `freeClientsInAsyncFreeQueue`. -/
def freeClientsInAsyncFreeQueue (connClose : connection → List fileEvent → List fileEvent)
    (w : World) : Except WorldFault (World × Nat) :=
  freeLoop connClose w.server.clients_to_close w 0

/-- A server with the two connected clients 1 and 2 in the write queue: client
2 has the reply bytes 1, 2, 3 in its slab and a connection that takes one byte
and then no more, client 1 has nothing to send. -/
def exampleWorld : World :=
  { server := { initServerState with clients := [1, 2], clients_pending_write := [2, 1] },
    client := fun i =>
      if i = 1 then
        some { createClient 1 [0, 0, 0] with
                 conn := some ⟨5, ConnState.CONN_STATE_CONNECTED⟩ }
      else if i = 2 then
        some { createClient 2 [1, 2, 3] with
                 conn := some ⟨6, ConnState.CONN_STATE_CONNECTED⟩, bufpos := 3 }
      else none,
    peer := fun i => if i = 2 then [WriteResult.wrote 1] else [] }

@[simp] theorem char_star : '*'.toNat = 42 := rfl
@[simp] theorem char_dollar : '$'.toNat = 36 := rfl
@[simp] theorem char_minus : '-'.toNat = 45 := rfl
@[simp] theorem char_zero : '0'.toNat = 48 := rfl
@[simp] theorem char_one : '1'.toNat = 49 := rfl
@[simp] theorem char_nine : '9'.toNat = 57 := rfl

theorem strchr_append_cons (pre rest : List Nat) (ch : Nat)
    (h : ∀ b ∈ pre, b ≠ ch ∧ b ≠ 0) : strchr (pre ++ ch :: rest) ch = some pre.length := by
  induction pre with
  | nil => simp [strchr]
  | cons b bs ih =>
    have hb := h b (by simp)
    have ih2 := ih (fun x hx => h x (by simp [hx]))
    simp [strchr, hb.1, hb.2, ih2]

theorem strchr_none_of_forall (s : List Nat) (ch : Nat)
    (h : ∀ b ∈ s, b ≠ ch) : strchr s ch = none := by
  induction s with
  | nil => simp [strchr]
  | cons b bs ih =>
    have hb := h b (by simp)
    have ih2 := ih (fun x hx => h x (by simp [hx]))
    simp [strchr, hb, ih2]

theorem natDigits_range (n : Nat) : ∀ b ∈ natDigits n, 48 ≤ b ∧ b ≤ 57 := by
  intro b hb
  unfold natDigits at hb
  split at hb
  · simp at hb; omega
  · simp at hb
    obtain ⟨d, hd, rfl⟩ := hb
    have := Nat.digits_lt_base (by norm_num : 1 < 10) hd
    omega

theorem natDigits_ne_nil (n : Nat) : natDigits n ≠ [] := by
  unfold natDigits
  split
  · simp
  · rename_i h
    simp [Nat.digits_eq_nil_iff_eq_zero, h]

/-- The value a run of decimal digits denotes, continuing from `v`. -/
theorem string2llDigits_map (ds : List Nat) (v : Nat) (hd : ∀ d ∈ ds, d < 10)
    (hv : ds.foldl (fun acc d => acc * 10 + d) v < 2 ^ 64) :
    string2llDigits (ds.map (· + 48)) v = some (ds.foldl (fun acc d => acc * 10 + d) v) := by
  induction ds generalizing v with
  | nil => simp [string2llDigits]
  | cons d ds ih =>
    have hd0 := hd d (by simp)
    have hmono : ∀ (l : List Nat) (w : Nat), w ≤ l.foldl (fun acc d => acc * 10 + d) w := by
      intro l
      induction l with
      | nil => intro w; simp
      | cons x xs ihx =>
        intro w
        simp only [List.foldl_cons]
        have := ihx (w * 10 + x)
        omega
    simp only [List.foldl_cons] at hv ⊢
    have h1 := hmono ds (v * 10 + d)
    have ih2 := ih (v * 10 + d) (fun x hx => hd x (by simp [hx])) hv
    simp only [List.map_cons, string2llDigits, char_zero, char_nine, SIZE_MAX1]
    have e1 : d + 48 - 48 = d := by omega
    rw [e1]
    have c1 : 48 ≤ d + 48 ∧ d + 48 ≤ 57 := by omega
    have c2 : ¬ v > (2 ^ 64 - 1) / 10 := by omega
    have c3 : ¬ v * 10 > 2 ^ 64 - 1 - d := by omega
    simp only [c1, c2, c3, and_self, if_true, if_false]
    exact ih2

theorem foldl_digits (n : Nat) :
    (Nat.digits 10 n).reverse.foldl (fun acc d => acc * 10 + d) 0 = n := by
  rw [List.foldl_reverse]
  have h := Nat.ofDigits_digits 10 n
  rw [Nat.ofDigits_eq_foldr] at h
  simp only [Nat.cast_id, Nat.cast_ofNat] at h
  conv_rhs => rw [← h]
  congr 1
  funext x y
  omega

theorem string2ll_natDigits (n : Nat) (hn : n ≤ LLONG_MAX) :
    string2ll (natDigits n) = some (n : Int) := by
  unfold natDigits
  split
  · rename_i h; subst h; simp [string2ll]
  · rename_i h
    have hne : Nat.digits 10 n ≠ [] := by simp [Nat.digits_eq_nil_iff_eq_zero, h]
    have hlast := Nat.getLast_digit_ne_zero 10 h
    obtain ⟨l, d, hl⟩ : ∃ l d, Nat.digits 10 n = l ++ [d] :=
      ⟨_, _, (List.dropLast_append_getLast hne).symm⟩
    have hd10 : ∀ x ∈ Nat.digits 10 n, x < 10 := fun x hx =>
      Nat.digits_lt_base (by norm_num) hx
    have hfold := foldl_digits n
    rw [hl] at hd10 hfold
    have hlast2 : d ≠ 0 := by
      have e : (Nat.digits 10 n).getLast hne = d := by simp [hl]
      rw [e] at hlast; exact hlast
    rw [hl]
    simp only [List.reverse_append, List.reverse_singleton, List.singleton_append,
      List.map_cons, List.foldl_cons, Nat.zero_mul, Nat.zero_add] at hfold ⊢
    have hd : d < 10 := hd10 d (by simp)
    have hds : ∀ x ∈ l.reverse, x < 10 := fun x hx => hd10 x (by simp at hx; simp [hx])
    have hL : LLONG_MAX = 2 ^ 63 - 1 := rfl
    have hv : l.reverse.foldl (fun acc d => acc * 10 + d) d < 2 ^ 64 := by rw [hfold]; omega
    have key := string2llDigits_map l.reverse d hds hv
    rw [hfold] at key
    have e1 : d + 48 - 48 = d := by omega
    have c0 : ¬ (l.reverse.map (· + 48) = [] ∧ d + 48 = 48) := by omega
    have c1 : ¬ (d + 48 = 45) := by omega
    have c2 : 49 ≤ d + 48 ∧ d + 48 ≤ 57 := by omega
    have c3 : ¬ n > LLONG_MAX := by omega
    simp only [string2ll, char_zero, char_minus, char_one, char_nine, c0, c1, c2, e1,
      decide_False, if_false, and_self, if_true, key, c3, Bool.false_eq_true]

theorem toSizeT_of_nat (n : Nat) (h : n < 2 ^ 64) : toSizeT (n : Int) = n := by
  unfold toSizeT SIZE_MAX1
  have : ((n : Int) % ((2 ^ 64 : Nat) : Int)) = n := by
    apply Int.emod_eq_of_lt <;> omega
  rw [this]; simp

theorem toSizeT_sub (a b : Nat) (hb : b ≤ a) (h : a < 2 ^ 64) :
    toSizeT ((a : Int) - (b : Int)) = a - b := by
  have : ((a : Int) - (b : Int)) = ((a - b : Nat) : Int) := by omega
  rw [this]; exact toSizeT_of_nat _ (by omega)

theorem toSSizeT_small (x : Nat) (h : x < 2 ^ 63) : toSSizeT x = x := by
  unfold toSSizeT SIZE_MAX1
  have : x % 2 ^ 64 = x := Nat.mod_eq_of_lt (by omega)
  rw [this]
  simp; omega

theorem unconsumed_eq (c : client) (h : Sane c) :
    unconsumed c = (c.querybuf.drop c.qb_pos).length := by
  unfold unconsumed
  rw [toSizeT_sub _ _ h.1 (by have := h.2; omega)]
  simp

theorem natDigits_length_le (n : Nat) (h : n < 10 ^ 20) : (natDigits n).length ≤ 20 := by
  unfold natDigits
  split
  · simp
  · simp only [List.length_map, List.length_reverse]
    rename_i hne
    have h1 := Nat.base_pow_length_digits_le 10 n (by norm_num) hne
    by_contra hcon
    have h2 : 10 ^ 21 ≤ 10 ^ (Nat.digits 10 n).length :=
      Nat.pow_le_pow_right (by norm_num) (by omega)
    omega

theorem header_complete (env : Env) (st : State) (t : Nat) (n : Nat) (tail : List Nat)
    (hs : Sane st.c) (hm : st.c.multibulklen = 0) (ha : st.c.argc = 0)
    (hn1 : 1 ≤ n) (hn2 : n ≤ 1048576)
    (hd : st.c.querybuf.drop st.c.qb_pos = t :: natDigits n ++ [CR, LF] ++ tail)
    (ht : t = 42) :
    mbHeader env st = .ok (.next { st with c :=
      { st.c with qb_pos := st.c.qb_pos + ((natDigits n).length + 3), multibulklen := (n : Int),
                  argv := [], argv_alloc := n, argv_len_sum := 0 } }) := by
  subst ht
  have hu := unconsumed_eq st.c hs
  have hlen : (st.c.querybuf.drop st.c.qb_pos).length = (natDigits n).length + 3 + tail.length := by
    rw [hd]; simp; omega
  have hstr : strchr (st.c.querybuf.drop st.c.qb_pos) CR = some ((natDigits n).length + 1) := by
    rw [hd]
    have := strchr_append_cons (42 :: natDigits n) (LF :: tail) CR (by
      intro b hb
      simp at hb
      rcases hb with rfl | hb
      · simp [CR]
      · have := natDigits_range n b hb
        simp [CR]; omega)
    simpa using this
  have hdrop1 : st.c.querybuf.drop (st.c.qb_pos + 1) = natDigits n ++ [CR, LF] ++ tail := by
    have : st.c.querybuf.drop (st.c.qb_pos + 1) = (st.c.querybuf.drop st.c.qb_pos).drop 1 := by
      rw [List.drop_drop, Nat.add_comm]
    rw [this, hd]
    rfl
  have hll := string2ll_natDigits n (by unfold LLONG_MAX; omega)
  have hss : toSSizeT (toSizeT ((unconsumed st.c : Int) - 2)) =
      ((natDigits n).length + 1 + tail.length : Nat) := by
    rw [hu, hlen]
    have h63 := hs.2
    have hl2 : (st.c.querybuf.drop st.c.qb_pos).length ≤ st.c.querybuf.length := by simp
    have e : (((natDigits n).length + 3 + tail.length : Nat) : Int) - 2 =
        (((natDigits n).length + 1 + tail.length : Nat) : Int) := by omega
    rw [e, toSizeT_of_nat _ (by omega), toSSizeT_small _ (by omega)]
  unfold mbHeader
  simp only [hm, ha, hstr, hss]
  simp only [hd, hdrop1]
  have h0 : ¬ ((((natDigits n).length + 1 : Nat) : Int) >
      (((natDigits n).length + 1 + tail.length : Nat) : Int)) := by omega
  have h1 : ¬ ((n : Int) > 1024 * 1024) := by omega
  have h2 : ¬ (n : Int) ≤ 0 := by omega
  have htake : List.take ((natDigits n).length + 1 - 1) (natDigits n ++ [CR, LF] ++ tail) =
      natDigits n := by simp
  simp only [h0, htake, hll, h1, h2]
  simp
  omega

theorem drop_succ_eq (l : List Nat) (p : Nat) : l.drop (p + 1) = (l.drop p).drop 1 := by
  rw [List.drop_drop, Nat.add_comm]

theorem bulkLen_complete (env : Env) (st : State) (L : Nat) (tail : List Nat)
    (hs : Sane st.c) (hb : st.c.bulklen = -1) (hL : (L : Int) ≤ proto_max_bulk_len)
    (hd : st.c.querybuf.drop st.c.qb_pos = 36 :: natDigits L ++ [CR, LF] ++ tail) :
    ∃ q p, mbBulkLen env st = .next { st with c :=
        { st.c with querybuf := q, qb_pos := p, bulklen := (L : Int) } } ∧
      q.drop p = tail ∧ p ≤ q.length ∧ q.length ≤ st.c.querybuf.length := by
  have hu := unconsumed_eq st.c hs
  have hlen : (st.c.querybuf.drop st.c.qb_pos).length = (natDigits L).length + 3 + tail.length := by
    rw [hd]; simp; omega
  have hlen2 : (st.c.querybuf.drop st.c.qb_pos).length = st.c.querybuf.length - st.c.qb_pos := by
    simp
  have hstr : strchr (st.c.querybuf.drop st.c.qb_pos) CR = some ((natDigits L).length + 1) := by
    rw [hd]
    have := strchr_append_cons (36 :: natDigits L) (LF :: tail) CR (by
      intro b hb
      simp at hb
      rcases hb with rfl | hb
      · simp [CR]
      · have := natDigits_range L b hb
        simp [CR]; omega)
    simpa using this
  have hdrop1 : st.c.querybuf.drop (st.c.qb_pos + 1) = natDigits L ++ [CR, LF] ++ tail := by
    rw [drop_succ_eq, hd]
    rfl
  have hP : proto_max_bulk_len = 536870912 := by unfold proto_max_bulk_len; norm_num
  have hll := string2ll_natDigits L (by unfold LLONG_MAX; omega)
  have h63 := hs.2
  have hss : toSSizeT (toSizeT ((unconsumed st.c : Int) - 2)) =
      ((natDigits L).length + 1 + tail.length : Nat) := by
    rw [hu, hlen]
    have e : (((natDigits L).length + 3 + tail.length : Nat) : Int) - 2 =
        (((natDigits L).length + 1 + tail.length : Nat) : Int) := by omega
    rw [e, toSizeT_of_nat _ (by omega), toSSizeT_small _ (by omega)]
  have hdropnew : st.c.querybuf.drop (st.c.qb_pos + ((natDigits L).length + 1) + 2) = tail := by
    have : st.c.qb_pos + ((natDigits L).length + 1) + 2 =
        st.c.qb_pos + ((natDigits L).length + 3) := by omega
    rw [this, ← List.drop_drop, hd]
    have e2 : 36 :: natDigits L ++ [CR, LF] ++ tail = (36 :: natDigits L ++ [CR, LF]) ++ tail := by
      simp
    rw [e2, List.drop_append_of_le_length (by simp)]
    simp
  unfold mbBulkLen
  simp only [hb, hstr, hss]
  simp only [hd, hdrop1]
  have h0 : ¬ ((((natDigits L).length + 1 : Nat) : Int) >
      (((natDigits L).length + 1 + tail.length : Nat) : Int)) := by omega
  have h2 : ¬ ((L : Int) < 0 ∨ (L : Int) > proto_max_bulk_len) := by omega
  have htake : List.take ((natDigits L).length + 1 - 1) (natDigits L ++ [CR, LF] ++ tail) =
      natDigits L := by simp
  simp only [h0, htake, hll, h2]
  simp only [List.cons_append, List.head?_cons, ne_eq, not_true_eq_false, ite_false,
    sdsrange, char_dollar, ↓reduceIte]
  split_ifs with hcomp
  · refine ⟨_, _, rfl, ?_, ?_, ?_⟩
    · simp [hdropnew]
    · simp
    · simp
  · refine ⟨_, _, rfl, ?_, ?_, ?_⟩
    · exact hdropnew
    · omega
    · exact le_refl _

theorem partial_line (u w digits : List Nat) (t : Nat) (hlen : digits.length ≤ 20)
    (hdig : ∀ b ∈ digits, 48 ≤ b ∧ b ≤ 57) (ht : t ≠ 13 ∧ t ≠ 0)
    (h : u ++ w = t :: digits ++ [CR, LF]) (hw : w ≠ []) :
    (strchr u CR = none ∧ u.length ≤ 22) ∨
      (∃ off, strchr u CR = some off ∧ off + 1 = u.length ∧ 1 ≤ off) := by
  have hlenu : u.length + w.length = digits.length + 3 := by
    have := congrArg List.length h
    simpa using this
  have hwl : 1 ≤ w.length := by
    cases w with
    | nil => exact absurd rfl hw
    | cons _ _ => simp
  by_cases hc : u.length ≤ digits.length + 1
  · left
    refine ⟨?_, by omega⟩
    apply strchr_none_of_forall
    intro b hb
    have hpre : u = (t :: digits ++ [CR, LF]).take u.length := by
      rw [← h]; simp
    have hb2 : b ∈ (t :: digits) := by
      rw [hpre] at hb
      have e : t :: digits ++ [CR, LF] = (t :: digits) ++ [CR, LF] := by simp
      rw [e, List.take_append_of_le_length (by simpa using hc)] at hb
      exact List.mem_of_mem_take hb
    simp at hb2
    rcases hb2 with rfl | hb2
    · simpa [CR] using ht.1
    · have := hdig b hb2
      simp [CR]; omega
  · right
    have hul : u.length = digits.length + 2 := by omega
    have hpre : u = (t :: digits ++ [CR, LF]).take u.length := by
      rw [← h]; simp
    have e : t :: digits ++ [CR, LF] = (t :: digits) ++ CR :: [LF] := by simp
    have hu2 : u = (t :: digits) ++ CR :: [] := by
      rw [hpre, e, hul, List.take_append_eq_append_take]
      simp
    refine ⟨digits.length + 1, ?_, by omega, by omega⟩
    rw [hu2]
    have := strchr_append_cons (t :: digits) [] CR (by
      intro b hb
      simp at hb
      rcases hb with rfl | hb
      · simpa [CR] using ht
      · have := hdig b hb
        simp [CR]; omega)
    simpa using this

theorem ssize_check (n off : Nat) (h : off + 1 = n) (hn : n < 2 ^ 63) :
    (off : Int) > toSSizeT (toSizeT ((n : Int) - 2)) := by
  by_cases h2 : 2 ≤ n
  · have e : (n : Int) - 2 = ((n - 2 : Nat) : Int) := by omega
    rw [e, toSizeT_of_nat _ (by omega), toSSizeT_small _ (by omega)]
    omega
  · have hn1 : n = 1 := by omega
    subst hn1
    have : toSizeT (((1 : Nat) : Int) - 2) = 2 ^ 64 - 1 := by rfl
    rw [this]
    unfold toSSizeT SIZE_MAX1
    norm_num
    omega

theorem bulkLen_partial (env : Env) (st : State) (L : Nat) (w : List Nat)
    (hs : Sane st.c) (hb : st.c.bulklen = -1) (hm : st.c.multibulklen ≠ 0)
    (hL : L < 10 ^ 20) (hw : w ≠ [])
    (hd : st.c.querybuf.drop st.c.qb_pos ++ w = 36 :: natDigits L ++ [CR, LF]) :
    mbBulkLen env st = .done Ret.ERROR_FAILED st := by
  have hu := unconsumed_eq st.c hs
  have hl2 : (st.c.querybuf.drop st.c.qb_pos).length ≤ st.c.querybuf.length := by simp
  have h63 := hs.2
  unfold mbBulkLen
  rcases partial_line _ w (natDigits L) 36 (natDigits_length_le L hL) (natDigits_range L)
      (by decide) hd hw with ⟨h1, h2⟩ | ⟨off, h1, h2, _⟩
  · have hc : ¬ unconsumed st.c > PROTO_INLINE_MAX_SIZE := by
      rw [hu]; unfold PROTO_INLINE_MAX_SIZE; omega
    simp only [hb, h1, hc, mbReturn, hm]
    simp
  · have hc := ssize_check _ off h2 (by omega : (st.c.querybuf.drop st.c.qb_pos).length < 2 ^ 63)
    rw [← hu] at hc
    simp only [hb, h1, hc, mbReturn, hm]
    simp

theorem header_partial (env : Env) (st : State) (n : Nat) (w : List Nat)
    (hs : Sane st.c) (hm : st.c.multibulklen = 0) (ha : st.c.argc = 0)
    (hn : n < 10 ^ 20) (hw : w ≠ [])
    (hd : st.c.querybuf.drop st.c.qb_pos ++ w = 42 :: natDigits n ++ [CR, LF]) :
    mbHeader env st = .ok (.done Ret.ERROR_FAILED st) := by
  have hu := unconsumed_eq st.c hs
  have hl2 : (st.c.querybuf.drop st.c.qb_pos).length ≤ st.c.querybuf.length := by simp
  have h63 := hs.2
  unfold mbHeader
  rcases partial_line _ w (natDigits n) 42 (natDigits_length_le n hn) (natDigits_range n)
      (by decide) hd hw with ⟨h1, h2⟩ | ⟨off, h1, h2, _⟩
  · have hc : ¬ unconsumed st.c > PROTO_INLINE_MAX_SIZE := by
      rw [hu]; unfold PROTO_INLINE_MAX_SIZE; omega
    simp only [hm, ha, h1, hc]
    simp
  · have hc := ssize_check _ off h2 (by omega : (st.c.querybuf.drop st.c.qb_pos).length < 2 ^ 63)
    rw [← hu] at hc
    simp only [hm, ha, h1, hc]
    simp

theorem bulkData_partial (st : State) (L : Nat)
    (hs : Sane st.c) (hb : st.c.bulklen = (L : Int)) (hL : L < 2 ^ 62)
    (hd : (st.c.querybuf.drop st.c.qb_pos).length < L + 2) :
    mbBulkData st = .done (mbReturn st) st := by
  have hu := unconsumed_eq st.c hs
  unfold mbBulkData
  have e : toSizeT (st.c.bulklen + 2) = L + 2 := by
    rw [hb]
    have : ((L : Int) + 2) = ((L + 2 : Nat) : Int) := by omega
    rw [this, toSizeT_of_nat _ (by omega)]
  simp only [e, hu, hd, if_true]

theorem bulkData_complete (st : State) (a tail : List Nat)
    (hs : Sane st.c) (hb : st.c.bulklen = (a.length : Int))
    (hd : st.c.querybuf.drop st.c.qb_pos = a ++ [CR, LF] ++ tail) :
    ∃ q p, mbBulkData st = .next { st with c :=
        { st.c with querybuf := q, qb_pos := p,
                    argv := st.c.argv.take st.c.argc ++ [a], argc := st.c.argc + 1,
                    argv_len_sum := (st.c.argv_len_sum + a.length) % SIZE_MAX1,
                    bulklen := -1, multibulklen := st.c.multibulklen - 1 } } ∧
      q.drop p = tail ∧ p ≤ q.length ∧ q.length ≤ st.c.querybuf.length := by
  have hu := unconsumed_eq st.c hs
  have h63 := hs.2
  have hq := hs.1
  have hlen : (st.c.querybuf.drop st.c.qb_pos).length = a.length + 2 + tail.length := by
    rw [hd]; simp; omega
  have hlen2 : (st.c.querybuf.drop st.c.qb_pos).length = st.c.querybuf.length - st.c.qb_pos := by
    simp
  have e : toSizeT (st.c.bulklen + 2) = a.length + 2 := by
    rw [hb]
    have : ((a.length : Int) + 2) = ((a.length + 2 : Nat) : Int) := by omega
    rw [this, toSizeT_of_nat _ (by omega)]
  have e2 : toSizeT st.c.bulklen = a.length := by
    rw [hb, toSizeT_of_nat _ (by omega)]
  have e3 : toSizeT ((st.c.qb_pos : Int) + (st.c.bulklen + 2)) = st.c.qb_pos + (a.length + 2) := by
    rw [hb]
    have : ((st.c.qb_pos : Int) + ((a.length : Int) + 2)) =
        ((st.c.qb_pos + (a.length + 2) : Nat) : Int) := by omega
    rw [this, toSizeT_of_nat _ (by omega)]
  unfold mbBulkData
  have hc : ¬ (unconsumed st.c < a.length + 2) := by
    rw [hu, hlen]; omega
  simp only [e, e2, e3]
  rw [if_neg hc]
  split_ifs with hz
  · obtain ⟨hz1, _, hz3⟩ := hz
    have htail : tail = [] := by
      have hz3b : st.c.querybuf.length = a.length + 2 := hz3
      have : tail.length = 0 := by
        omega
      exact List.eq_nil_of_length_eq_zero this
    have hqb : st.c.querybuf = a ++ [CR, LF] := by
      have := hd
      rw [hz1, htail] at this
      simpa using this
    refine ⟨[], st.c.qb_pos, ?_, ?_, ?_, ?_⟩
    · have : List.take (st.c.querybuf.length - 2) st.c.querybuf = a := by
        rw [hqb]; simp
      rw [this]
    · simp [htail]
    · simp [hz1]
    · simp
  · refine ⟨st.c.querybuf, st.c.qb_pos + (a.length + 2), ?_, ?_, ?_, ?_⟩
    · have : List.take a.length (List.drop st.c.qb_pos st.c.querybuf) = a := by
        rw [hd]; simp
      rw [this]
    · rw [← List.drop_drop, hd]
      have e4 : a ++ [CR, LF] ++ tail = (a ++ [CR, LF]) ++ tail := by simp
      rw [List.drop_append_of_le_length (by simp)]
      simp
    · omega
    · exact le_refl _

theorem split_at (u f x y : List Nat) (h : u ++ f = x ++ y) :
    (∃ t, u = x ++ t ∧ t ++ f = y) ∨ (∃ w, w ≠ [] ∧ u ++ w = x ∧ f = w ++ y) := by
  rcases List.append_eq_append_iff.1 h with ⟨a, h1, h2⟩ | ⟨c, h1, h2⟩
  · cases a with
    | nil => left; exact ⟨[], by simpa using h1.symm, by simpa using h2⟩
    | cons b bs => right; exact ⟨b :: bs, by simp, h1.symm, h2⟩
  · left; exact ⟨c, h1, h2.symm⟩

theorem encodeBulks_cons (a : List Nat) (more : List (List Nat)) :
    encodeBulks (a :: more) =
      (36 :: natDigits a.length ++ [CR, LF]) ++ (a ++ [CR, LF] ++ encodeBulks more) := by
  simp [encodeBulks, encodeBulk]

theorem mbBulkLen_skip (env : Env) (st : State) (h : st.c.bulklen ≠ -1) :
    mbBulkLen env st = .next st := by
  unfold mbBulkLen
  simp [h]

theorem mbLoop_spec (env : Env) (future R : List Nat) :
    ∀ (todo done : List (List Nat)) (st : State) (fuel : Nat), todo.length + 1 ≤ fuel →
      Mid st.c future done todo R →
      ∃ r st1, mbLoop env fuel st = .ok (r, st1) ∧ LoopPost st st1 r future done todo R := by
  intro todo
  induction todo with
  | nil =>
    intro done st fuel hf hmid
    obtain ⟨fuel, rfl⟩ : ∃ k, fuel = k + 1 := ⟨fuel - 1, by simp at hf; omega⟩
    have hm : st.c.multibulklen = 0 := by simpa using hmid.mbl
    refine ⟨Ret.ERROR_SUCCESS, st, ?_, rfl, rfl, rfl, rfl, le_refl _, ?_⟩
    · simp [mbLoop, hm, mbReturn]
    · left
      rcases hmid.input with ⟨hb, hin⟩ | ⟨a, more, h, _⟩
      · refine ⟨rfl, hmid.sane, by simp [hmid.argv], by simp [hmid.argc], hm, hb, ?_⟩
        simpa [encodeBulks] using hin
      · exact absurd h (by simp)
  | cons a more ih =>
    intro done st fuel hf hmid
    obtain ⟨fuel, rfl⟩ : ∃ k, fuel = k + 1 := ⟨fuel - 1, by simp at hf; omega⟩
    have hf2 : more.length + 1 ≤ fuel := by simp at hf; omega
    have hm : st.c.multibulklen ≠ 0 := by
      rw [hmid.mbl]; simp; omega
    have haL : (a.length : Int) ≤ proto_max_bulk_len := hmid.valid a (by simp)
    have hP : proto_max_bulk_len = 536870912 := by unfold proto_max_bulk_len; norm_num
    -- the data phase, from a state whose `bulklen` is the length of `a`
    have data : ∀ st0 : State, Sane st0.c → st0.c.argv = done → st0.c.argc = done.length →
        st0.c.multibulklen = ((a :: more).length : Int) → st0.c.bulklen = (a.length : Int) →
        st0.c.querybuf.drop st0.c.qb_pos ++ future = a ++ [CR, LF] ++ encodeBulks more ++ R →
        ∃ r st1, (match mbBulkData st0 with
            | .done r st2 => (.ok (r, st2) : Except Fault (Ret × State))
            | .next st2 => mbLoop env fuel st2) = .ok (r, st1) ∧
          LoopPost st0 st1 r future done (a :: more) R := by
      intro st0 hs0 hargv hargc hmbl hbl hin
      have hin2 : st0.c.querybuf.drop st0.c.qb_pos ++ future =
          (a ++ [CR, LF]) ++ (encodeBulks more ++ R) := by simpa using hin
      rcases split_at _ _ _ _ hin2 with ⟨tail, ht1, ht2⟩ | ⟨w, hw, hw1, hw2⟩
      · obtain ⟨q, p, hstep, hq1, hq2, hq3⟩ :=
          bulkData_complete st0 a tail hs0 hbl (by simpa using ht1)
        rw [hstep]
        simp only
        have hmid2 : Mid ({ st0 with c :=
            { st0.c with querybuf := q, qb_pos := p,
                         argv := st0.c.argv.take st0.c.argc ++ [a], argc := st0.c.argc + 1,
                         argv_len_sum := (st0.c.argv_len_sum + a.length) % SIZE_MAX1,
                         bulklen := -1, multibulklen := st0.c.multibulklen - 1 } } : State).c
            future (done ++ [a]) more R := by
          refine ⟨⟨hq2, by have := hs0.2; simp only; omega⟩, ?_, ?_, ?_, ?_, ?_⟩
          · simp only [hargv, hargc]; simp
          · simp only [hargc]; simp
          · simp only [hmbl]; simp
          · intro x hx; exact hmid.valid x (by simp [hx])
          · left
            refine ⟨rfl, ?_⟩
            simp only [hq1]; exact ht2
        obtain ⟨r, st1, hrun, hp1, hp2, hp3, hp4, hp5, hp6⟩ := ih (done ++ [a]) _ fuel hf2 hmid2
        refine ⟨r, st1, hrun, hp1, hp2, hp3, hp4, le_trans hp5 hq3, ?_⟩
        rcases hp6 with ⟨h1, h2, h3, h4, h5⟩ | ⟨h1, h2, d1, t1, h3, h4, h5⟩
        · left
          refine ⟨h1, h2, by simpa using h3, by simpa using h4, h5⟩
        · right
          exact ⟨h1, h2, d1, t1, by simpa using h3, h4, h5⟩
      · have hlt : (st0.c.querybuf.drop st0.c.qb_pos).length < a.length + 2 := by
          have := congrArg List.length hw1
          have : 1 ≤ w.length := by
            cases w with
            | nil => exact absurd rfl hw
            | cons _ _ => simp
          simp at *
          omega
        have hstep := bulkData_partial st0 a.length hs0 hbl (by omega) hlt
        rw [hstep]
        have hm0 : st0.c.multibulklen ≠ 0 := by rw [hmbl]; simp; omega
        refine ⟨Ret.ERROR_FAILED, st0, by simp [mbReturn, hm0], rfl, rfl, rfl, rfl, le_refl _, ?_⟩
        right
        refine ⟨rfl, ?_, done, a :: more, rfl, by simp, ?_⟩
        · rw [hw2]; simp [hw]
        · exact ⟨hs0, hargv, hargc, hmbl, hmid.valid, Or.inr ⟨a, more, rfl, hbl, hin⟩⟩
    rcases hmid.input with ⟨hb, hin⟩ | ⟨a1, more1, h, hbl, hin⟩
    · -- the length line is still to be read
      rw [encodeBulks_cons] at hin
      have hin2 : st.c.querybuf.drop st.c.qb_pos ++ future =
          (36 :: natDigits a.length ++ [CR, LF]) ++ ((a ++ [CR, LF] ++ encodeBulks more) ++ R) := by
        simpa using hin
      rcases split_at _ _ _ _ hin2 with ⟨tail, ht1, ht2⟩ | ⟨w, hw, hw1, hw2⟩
      · obtain ⟨q, p, hstep, hq1, hq2, hq3⟩ :=
          bulkLen_complete env st a.length tail hmid.sane hb haL (by simpa using ht1)
        have := data
          ({ st with c := { st.c with querybuf := q, qb_pos := p, bulklen := (a.length : Int) } })
          ⟨hq2, by have := hmid.sane.2; simp only; omega⟩ hmid.argv hmid.argc hmid.mbl rfl
          (by simp only [hq1]; rw [ht2])
        obtain ⟨r, st1, hrun, hp1, hp2, hp3, hp4, hp5, hp6⟩ := this
        refine ⟨r, st1, ?_, hp1, hp2, hp3, hp4, le_trans hp5 hq3, hp6⟩
        simp only [mbLoop, hm, if_false, hstep]
        exact hrun
      · have hstep := bulkLen_partial env st a.length w hmid.sane hb hm (by omega) hw hw1
        refine ⟨Ret.ERROR_FAILED, st, ?_, rfl, rfl, rfl, rfl, le_refl _, ?_⟩
        · simp only [mbLoop, hm, if_false, hstep]
        · right
          refine ⟨rfl, ?_, done, a :: more, rfl, by simp, hmid⟩
          rw [hw2]; simp [hw]
    · -- the length line has been read
      simp only [List.cons.injEq] at h
      obtain ⟨rfl, rfl⟩ := h
      have hne : st.c.bulklen ≠ -1 := by rw [hbl]; omega
      obtain ⟨r, st1, hrun, hp⟩ := data st hmid.sane hmid.argv hmid.argc hmid.mbl hbl hin
      refine ⟨r, st1, ?_, hp⟩
      simp only [mbLoop, hm, if_false, mbBulkLen_skip env st hne]
      exact hrun

theorem drop_line (t : Nat) (d tail : List Nat) :
    List.drop (d.length + 3) (t :: d ++ [CR, LF] ++ tail) = tail := by
  have e : t :: d ++ [CR, LF] ++ tail = (t :: d ++ [CR, LF]) ++ tail := by simp
  have hl : (t :: d ++ [CR, LF]).length = d.length + 3 := by simp
  rw [e, ← hl, List.drop_left]

theorem mbHeader_skip (env : Env) (st : State) (h : st.c.multibulklen ≠ 0) :
    mbHeader env st = .ok (.next st) := by
  unfold mbHeader
  simp [h]

theorem processMultibulkBuffer_spec (env : Env) (st : State) (future R : List Nat)
    (args : List (List Nat)) (hv : ValidArgs args) (hp : Pend st.c future args R) :
    ∃ r st1, processMultibulkBuffer env st = .ok (r, st1) ∧ ParsePost st st1 r future args R := by
  obtain ⟨hv1, hv2, hv3⟩ := hv
  rcases hp with ⟨hs, hm, ha, hb, hin⟩ | ⟨done, todo, hdt, hne, hmid⟩
  · have hin2 : st.c.querybuf.drop st.c.qb_pos ++ future =
        (42 :: natDigits args.length ++ [CR, LF]) ++ (encodeBulks args ++ R) := by
      rw [hin]; simp [encodeCommand]
    rcases split_at _ _ _ _ hin2 with ⟨tail, ht1, ht2⟩ | ⟨w, hw, hw1, hw2⟩
    · have hstep := header_complete env st 42 args.length tail hs hm ha hv1 hv2
        (by simpa using ht1) rfl
      have hmid : Mid ({ st with c :=
          { st.c with qb_pos := st.c.qb_pos + ((natDigits args.length).length + 3),
                      multibulklen := (args.length : Int), argv := [], argv_alloc := args.length,
                      argv_len_sum := 0 } } : State).c future [] args R := by
        refine ⟨⟨?_, hs.2⟩, rfl, ha, rfl, hv3, Or.inl ⟨hb, ?_⟩⟩
        · have := congrArg List.length ht1
          simp at this
          simp only
          omega
        · simp only
          rw [← List.drop_drop, ht1, drop_line]
          exact ht2
      obtain ⟨r, st1, hrun, hp1, hp2, hp3, hp4, hp5, hp6⟩ :=
        mbLoop_spec env future R args [] _ (args.length + 1) (le_refl _) hmid
      refine ⟨r, st1, ?_, hp1, hp2, hp3, hp4, hp5, ?_⟩
      · unfold processMultibulkBuffer
        rw [hstep]
        have hpos : ((args.length : Int) > 0) := by omega
        simp only [hpos, if_true, Int.toNat_ofNat]
        exact hrun
      · rcases hp6 with ⟨h1, h2, h3, h4, h5⟩ | ⟨h1, h2, d1, t1, h3, h4, h5⟩
        · left; exact ⟨h1, h2, by simpa using h3, by simpa using h4, h5⟩
        · right; exact ⟨h1, h2, Or.inr ⟨d1, t1, by simpa using h3, h4, h5⟩⟩
    · have hstep := header_partial env st args.length w hs hm ha (by omega) hw hw1
      refine ⟨Ret.ERROR_FAILED, st, ?_, rfl, rfl, rfl, rfl, le_refl _, ?_⟩
      · unfold processMultibulkBuffer
        simp only [hstep]
      · right
        refine ⟨rfl, ?_, Or.inl ⟨hs, hm, ha, hb, hin⟩⟩
        rw [hw2]; simp [hw]
  · have hm : st.c.multibulklen ≠ 0 := by
      rw [hmid.mbl]
      cases todo with
      | nil => exact absurd rfl hne
      | cons _ _ => simp; omega
    have hpos : st.c.multibulklen > 0 := by
      rw [hmid.mbl]
      cases todo with
      | nil => exact absurd rfl hne
      | cons _ _ => simp
    obtain ⟨r, st1, hrun, hp1, hp2, hp3, hp4, hp5, hp6⟩ :=
      mbLoop_spec env future R todo done st (todo.length + 1) (le_refl _) hmid
    refine ⟨r, st1, ?_, hp1, hp2, hp3, hp4, hp5, ?_⟩
    · unfold processMultibulkBuffer
      rw [mbHeader_skip env st hm]
      simp only [hpos, if_true]
      rw [hmid.mbl]
      simpa using hrun
    · rcases hp6 with ⟨h1, h2, h3, h4, h5⟩ | ⟨h1, h2, d1, t1, h3, h4, h5⟩
      · left; exact ⟨h1, h2, by rw [h3, hdt], by rw [h4, hdt], h5⟩
      · right; exact ⟨h1, h2, Or.inr ⟨d1, t1, by rw [h3, hdt], h4, h5⟩⟩

theorem runCommand_known (env : Env) (st : State) (args : List (List Nat))
    (hk : HandlersKeepInput env) (hargv : st.c.argv = args) (hargc : st.c.argc = args.length)
    (hkn : Known env args) :
    ∃ st3, runCommand env st = .ok st3 ∧
      st3.dispatched = st.dispatched ++ [(args.length, args)] ∧
      st3.invoked = st.invoked ++ [(procOf env args, args)] ∧
      st3.c.querybuf = st.c.querybuf ∧ st3.c.qb_pos = st.c.qb_pos ∧ st3.c.argc = 0 ∧
      st3.c.argv = [] ∧ st3.c.multibulklen = 0 ∧ st3.c.bulklen = -1 ∧
      st3.c.reqtype = ReqType.unset := by
  obtain ⟨name, rest, cmd, hargs, hlook, har⟩ := hkn
  unfold runCommand processCommand
  simp only [hargv, hargs, hlook, hargc]
  rw [← hargs]
  simp only [har, if_false]
  refine ⟨_, rfl, ?_, ?_, ?_, ?_, rfl, rfl, rfl, rfl, rfl⟩
  · simp only
  · simp only [procOf, hargs, hlook]
  · simp only [resetClient, freeClientArgv]
    exact (hk _ _ _).1
  · simp only [resetClient, freeClientArgv]
    exact (hk _ _ _).2

theorem encodeStream_cons (a : List (List Nat)) (P : List (List (List Nat))) :
    encodeStream (a :: P) = encodeCommand a ++ encodeStream P := by
  simp [encodeStream]

theorem encodeCommand_eq (a : List (List Nat)) :
    encodeCommand a = 42 :: (natDigits a.length ++ [CR, LF] ++ encodeBulks a) := by
  simp [encodeCommand]

theorem encodeBulks_ne_nil (todo : List (List Nat)) (h : todo ≠ []) : encodeBulks todo ≠ [] := by
  cases todo with
  | nil => exact absurd rfl h
  | cons a more => rw [encodeBulks_cons]; simp

theorem Mid.pending_pos {c : client} {future : List Nat} {done todo : List (List Nat)}
    {R : List Nat} (h : Mid c future done todo R) (hne : todo ≠ []) :
    R.length < (c.querybuf.drop c.qb_pos ++ future).length := by
  rcases h.input with ⟨_, hin⟩ | ⟨a, more, _, _, hin⟩
  · rw [hin]
    have := encodeBulks_ne_nil todo hne
    have : 0 < (encodeBulks todo).length := List.length_pos.2 this
    simp; omega
  · rw [hin]; simp; omega

theorem trim_drop (st : State) (_h : st.c.qb_pos ≤ st.c.querybuf.length) :
    (trimQuerybuf st).c.querybuf.drop (trimQuerybuf st).c.qb_pos =
      st.c.querybuf.drop st.c.qb_pos ∧ (trimQuerybuf st).c.qb_pos = 0 ∧
    (trimQuerybuf st).c.querybuf.length ≤ st.c.querybuf.length := by
  unfold trimQuerybuf
  split_ifs with h0
  · simp [sdsrange]
  · have : st.c.qb_pos = 0 := by simpa using h0
    simp [this]

theorem trim_PInv (env : Env) (st : State) (future : List Nat) (P : List (List (List Nat)))
    (h : PInv env st future P) : PInv env (trimQuerybuf st) future P := by
  obtain ⟨h1, h2, h3⟩ := h
  have hq : st.c.qb_pos ≤ st.c.querybuf.length := by
    rcases h3 with ⟨_, hq, _⟩ | ⟨_, _, _, _, _, _, _, _, hm⟩
    · exact hq
    · exact hm.sane.1
  obtain ⟨t1, t2, t3⟩ := trim_drop st hq
  have hsame : (trimQuerybuf st).c.reqtype = st.c.reqtype ∧
      (trimQuerybuf st).c.multibulklen = st.c.multibulklen ∧
      (trimQuerybuf st).c.argc = st.c.argc ∧ (trimQuerybuf st).c.bulklen = st.c.bulklen ∧
      (trimQuerybuf st).c.argv = st.c.argv := by
    unfold trimQuerybuf
    split_ifs <;> simp
  obtain ⟨s1, s2, s3, s4, s5⟩ := hsame
  refine ⟨h1, by omega, ?_⟩
  rcases h3 with ⟨a1, a2, a3, a4, a5, a6⟩ | ⟨args, rest, done, todo, b1, b2, b3, b4, hm⟩
  · left
    exact ⟨by rw [s1]; exact a1, by rw [t2]; omega, by rw [s2]; exact a3, by rw [s3]; exact a4,
      by rw [s4]; exact a5, by rw [t1]; exact a6⟩
  · right
    refine ⟨args, rest, done, todo, b1, b2, b3, by rw [s1]; exact b4, ?_⟩
    refine ⟨⟨by rw [t2]; omega, by have := hm.sane.2; omega⟩, by rw [s5]; exact hm.argv,
      by rw [s3]; exact hm.argc, by rw [s2]; exact hm.mbl, hm.valid, ?_⟩
    rw [s4, t1]
    exact hm.input

theorem processInputLoop_spec (env : Env) (future : List Nat) (hk : HandlersKeepInput env) :
    ∀ (fuel : Nat) (st : State) (P : List (List (List Nat))),
      (st.c.querybuf.drop st.c.qb_pos).length < fuel → PInv env st future P →
      ∃ st1 k, processInputLoop env fuel st = .ok st1 ∧
        st1.dispatched = st.dispatched ++ traceOf (P.take k) ∧
        st1.invoked = st.invoked ++ invokedOf env (P.take k) ∧
        PInv env st1 future (P.drop k) ∧ st1.c.qb_pos = 0 ∧
        (future = [] → k = P.length ∧ st1.c.querybuf = []) := by
  intro fuel
  induction fuel with
  | zero => intro st P h; exact absurd h (by omega)
  | succ fuel ih =>
    intro st P hfuel hinv
    have hq : st.c.qb_pos ≤ st.c.querybuf.length := by
      rcases hinv.2.2 with ⟨_, hq, _⟩ | ⟨_, _, _, _, _, _, _, _, hm⟩
      · exact hq
      · exact hm.sane.1
    by_cases hlt : st.c.qb_pos < st.c.querybuf.length
    · -- there is input: one pass of the loop
      have hdne : st.c.querybuf.drop st.c.qb_pos ≠ [] := by
        intro h
        have := congrArg List.length h
        simp at this; omega
      -- the command the parser is at
      have hP : ∃ args rest, P = args :: rest ∧
          (classify st).c.reqtype = ReqType.PROTO_REQ_MULTIBULK ∧
          (classify st).c = { st.c with reqtype := ReqType.PROTO_REQ_MULTIBULK } ∧
          (classify st).server = st.server ∧ (classify st).dispatched = st.dispatched ∧
          (classify st).invoked = st.invoked ∧
          Pend st.c future args (encodeStream rest) := by
        rcases hinv.2.2 with ⟨a1, a2, a3, a4, a5, a6⟩ | ⟨args, rest, done, todo, b1, b2, b3, b4, hm⟩
        · cases P with
          | nil =>
            simp [encodeStream] at a6
            exact absurd a6.1 (by omega)
          | cons args rest =>
            have hhead : (st.c.querybuf.drop st.c.qb_pos).head? = some 42 := by
              rw [encodeStream_cons, encodeCommand_eq] at a6
              cases hd : st.c.querybuf.drop st.c.qb_pos with
              | nil => exact absurd hd hdne
              | cons b bs =>
                rw [hd] at a6
                simp at a6
                simp [a6.1]
            refine ⟨args, rest, rfl, ?_, ?_, ?_, ?_, ?_, ?_⟩
            · unfold classify
              split_ifs with hu h42
              · rfl
              · simp [hhead] at h42
              · cases hr : st.c.reqtype with
                | unset => exact absurd hr hu
                | PROTO_REQ_INLINE => exact absurd hr a1
                | PROTO_REQ_MULTIBULK => rfl
            · unfold classify
              split_ifs with hu h42
              · rfl
              · simp [hhead] at h42
              · cases hr : st.c.reqtype with
                | unset => exact absurd hr hu
                | PROTO_REQ_INLINE => exact absurd hr a1
                | PROTO_REQ_MULTIBULK =>
                  cases hc : st.c
                  rw [hc] at hr
                  simp at hr
                  simp [hr]
            · unfold classify; split_ifs <;> rfl
            · unfold classify; split_ifs <;> rfl
            · unfold classify; split_ifs <;> rfl
            · left
              refine ⟨⟨a2, by have := hinv.2.1; omega⟩, a3, a4, a5, ?_⟩
              rw [a6, encodeStream_cons]
        · have hcl : classify st = st := by
            unfold classify
            simp [b4]
          refine ⟨args, rest, b1, by rw [hcl]; exact b4, ?_, by rw [hcl], by rw [hcl], by rw [hcl],
            Or.inr ⟨done, todo, b2, b3, hm⟩⟩
          rw [hcl]
          cases hc : st.c
          rw [hc] at b4
          simp at b4
          simp [b4]
      obtain ⟨args, rest, hPeq, hcr, hcc, hcs, hcd, hci, hpend⟩ := hP
      have hva := hinv.1 args (by rw [hPeq]; simp)
      have hpend2 : Pend (classify st).c future args (encodeStream rest) := by
        rw [hcc]
        rcases hpend with ⟨p1, p2, p3, p4, p5⟩ | ⟨d, t, p1, p2, hm⟩
        · exact Or.inl ⟨p1, p2, p3, p4, p5⟩
        · exact Or.inr ⟨d, t, p1, p2, ⟨hm.sane, hm.argv, hm.argc, hm.mbl, hm.valid, hm.input⟩⟩
      obtain ⟨r, st2, hrun, q1, q2, q3, q4, q5, q6⟩ :=
        processMultibulkBuffer_spec env (classify st) future (encodeStream rest) args hva.1 hpend2
      have hlen2 : st2.c.querybuf.length ≤ st.c.querybuf.length := by
        rw [hcc] at q5; exact q5
      rcases q6 with ⟨r1, r2, r3, r4, r5, r6, r7⟩ | ⟨r1, r2, r3⟩
      · -- a complete command: dispatch and go on
        subst r1
        obtain ⟨st3, hcmd, c1, c2, c3, c4, c5, c6, c7, c8, c9⟩ :=
          runCommand_known env st2 args hk r3 r4 hva.2
        have hinv3 : PInv env st3 future rest := by
          refine ⟨fun a ha => hinv.1 a (by rw [hPeq]; simp [ha]), by rw [c3]; have := hinv.2.1; omega,
            Or.inl ⟨by rw [c9]; simp, by rw [c3, c4]; exact r2.1, c7, c5, c8, ?_⟩⟩
          rw [c3, c4]; exact r7
        have hshrink : (st3.c.querybuf.drop st3.c.qb_pos).length < fuel := by
          rw [c3, c4]
          have e1 := congrArg List.length r7
          have hpos : (encodeStream rest).length <
              (st.c.querybuf.drop st.c.qb_pos ++ future).length := by
            rcases hpend with ⟨p1, p2, p3, p4, p5⟩ | ⟨d, t, p1, p2, hm⟩
            · rw [p5, encodeCommand_eq]; simp; omega
            · exact hm.pending_pos p2
          simp at e1 hpos hfuel
          simp
          omega
        obtain ⟨st4, k, hrec, t1, t2, t3, t4, t5⟩ := ih st3 rest hshrink hinv3
        refine ⟨st4, k + 1, ?_, ?_, ?_, ?_, t4, ?_⟩
        · simp only [processInputLoop, hlt, if_true, hcr, hrun, hcmd]
          exact hrec
        · rw [t1, c1, q2, hcd, hPeq]
          simp [traceOf]
        · rw [t2, c2, q3, hci, hPeq]
          simp [invokedOf]
        · rw [hPeq]; simpa using t3
        · intro hf
          obtain ⟨u1, u2⟩ := t5 hf
          rw [hPeq]
          exact ⟨by simp [u1], u2⟩
      · -- input ran out inside the command
        subst r1
        refine ⟨trimQuerybuf st2, 0, ?_, ?_, ?_, ?_, ?_, ?_⟩
        · simp only [processInputLoop, hlt, if_true, hcr, hrun]
        · have : (trimQuerybuf st2).dispatched = st2.dispatched := by
            unfold trimQuerybuf; split_ifs <;> rfl
          rw [this, q2, hcd]; simp [traceOf]
        · have : (trimQuerybuf st2).invoked = st2.invoked := by
            unfold trimQuerybuf; split_ifs <;> rfl
          rw [this, q3, hci]; simp [invokedOf]
        · rw [List.drop_zero]
          apply trim_PInv
          refine ⟨hinv.1, by have := hinv.2.1; omega, ?_⟩
          have hrq : st2.c.reqtype = ReqType.PROTO_REQ_MULTIBULK := by rw [q4, hcr]
          rcases r3 with ⟨p1, p2, p3, p4, p5⟩ | ⟨d, t, p1, p2, hm⟩
          · left
            refine ⟨by rw [hrq]; simp, p1.1, p2, p3, p4, ?_⟩
            rw [p5, hPeq, encodeStream_cons]
          · right
            exact ⟨args, rest, d, t, by simpa using hPeq, p1, p2, hrq, hm⟩
        · have hq2 : st2.c.qb_pos ≤ st2.c.querybuf.length := by
            rcases r3 with ⟨p1, _⟩ | ⟨d, t, p1, p2, hm⟩
            · exact p1.1
            · exact hm.sane.1
          exact (trim_drop st2 hq2).2.1
        · intro hf; exact absurd hf r2
    · -- no input left: the loop ends
      have hdnil : st.c.querybuf.drop st.c.qb_pos = [] := by
        apply List.drop_eq_nil_of_le; omega
      refine ⟨trimQuerybuf st, 0, ?_, ?_, ?_, ?_, (trim_drop st hq).2.1, ?_⟩
      · simp only [processInputLoop, hlt, if_false]
      · have : (trimQuerybuf st).dispatched = st.dispatched := by
          unfold trimQuerybuf; split_ifs <;> rfl
        rw [this]; simp [traceOf]
      · have : (trimQuerybuf st).invoked = st.invoked := by
          unfold trimQuerybuf; split_ifs <;> rfl
        rw [this]; simp [invokedOf]
      · apply trim_PInv; simpa using hinv
      · intro hf
        subst hf
        have hqnil : (trimQuerybuf st).c.querybuf = [] := by
          have h1 := (trim_drop st hq).1
          have h2 := (trim_drop st hq).2.1
          rw [h2, hdnil] at h1
          simpa using h1
        refine ⟨?_, hqnil⟩
        rcases hinv.2.2 with ⟨a1, a2, a3, a4, a5, a6⟩ | ⟨args, rest, done, todo, b1, b2, b3, b4, hm⟩
        · rw [hdnil] at a6
          cases P with
          | nil => rfl
          | cons a P =>
            rw [encodeStream_cons, encodeCommand_eq] at a6
            simp at a6
        · have := hm.pending_pos b3
          rw [hdnil] at this
          simp at this

theorem feed_PInv (env : Env) (st : State) (chunk future : List Nat)
    (P : List (List (List Nat))) (h : PInv env st (chunk ++ future) P) :
    PInv env (feed st chunk) future P := by
  obtain ⟨h1, h2, h3⟩ := h
  have hq : st.c.qb_pos ≤ st.c.querybuf.length := by
    rcases h3 with ⟨_, hq, _⟩ | ⟨_, _, _, _, _, _, _, _, hm⟩
    · exact hq
    · exact hm.sane.1
  have hdrop : (feed st chunk).c.querybuf.drop (feed st chunk).c.qb_pos ++ future =
      st.c.querybuf.drop st.c.qb_pos ++ (chunk ++ future) := by
    simp only [feed]
    rw [List.drop_append_of_le_length hq]
    simp
  have hlen : (feed st chunk).c.querybuf.length = st.c.querybuf.length + chunk.length := by
    simp [feed]
  simp only [List.length_append] at h2
  refine ⟨h1, by rw [hlen]; omega, ?_⟩
  rcases h3 with ⟨a1, a2, a3, a4, a5, a6⟩ | ⟨args, rest, done, todo, b1, b2, b3, b4, hm⟩
  · left
    exact ⟨a1, by rw [hlen]; exact le_trans a2 (by omega), a3, a4, a5, by rw [hdrop]; exact a6⟩
  · right
    refine ⟨args, rest, done, todo, b1, b2, b3, b4, ?_⟩
    refine ⟨⟨by rw [hlen]; exact le_trans hq (by omega), by rw [hlen]; omega⟩, hm.argv, hm.argc,
      hm.mbl, hm.valid, ?_⟩
    rw [hdrop]
    exact hm.input

theorem processInputBuffer_spec (env : Env) (future : List Nat) (hk : HandlersKeepInput env)
    (st : State) (P : List (List (List Nat))) (h : PInv env st future P) :
    ∃ st1 k, processInputBuffer env st = .ok st1 ∧
      st1.dispatched = st.dispatched ++ traceOf (P.take k) ∧
      st1.invoked = st.invoked ++ invokedOf env (P.take k) ∧
      PInv env st1 future (P.drop k) ∧ st1.c.qb_pos = 0 ∧
      (future = [] → k = P.length ∧ st1.c.querybuf = []) := by
  unfold processInputBuffer
  exact processInputLoop_spec env future hk _ st P (by simp) h

theorem feedAll_spec (env : Env) (hk : HandlersKeepInput env) :
    ∀ (chunks : List (List Nat)) (st : State) (P : List (List (List Nat))), chunks ≠ [] →
      PInv env st chunks.flatten P →
      ∃ st1, feedAll env st chunks = .ok st1 ∧ st1.dispatched = st.dispatched ++ traceOf P ∧
        st1.invoked = st.invoked ++ invokedOf env P ∧ st1.c.qb_pos = 0 ∧ st1.c.querybuf = [] := by
  intro chunks
  induction chunks with
  | nil => intro st P h; exact absurd rfl h
  | cons chunk rest ih =>
    intro st P _ hinv
    have hfed := feed_PInv env st chunk rest.flatten P (by simpa using hinv)
    obtain ⟨st1, k, hrun, t1, t2, t3, t4, t5⟩ :=
      processInputBuffer_spec env rest.flatten hk (feed st chunk) P hfed
    have hd : (feed st chunk).dispatched = st.dispatched := rfl
    have hi : (feed st chunk).invoked = st.invoked := rfl
    cases rest with
    | nil =>
      obtain ⟨u1, u2⟩ := t5 (by simp)
      refine ⟨st1, ?_, ?_, ?_, t4, u2⟩
      · simp only [feedAll, hrun]
      · rw [t1, hd, u1]; simp
      · rw [t2, hi, u1]; simp
    | cons c2 rest2 =>
      obtain ⟨st2, hrun2, v1, v2, v3, v4⟩ := ih st1 (P.drop k) (by simp) t3
      refine ⟨st2, ?_, ?_, ?_, v3, v4⟩
      · rw [feedAll]
        simp only [hrun]
        exact hrun2
      · rw [v1, t1, hd, List.append_assoc]
        congr 1
        simp only [traceOf]
        rw [← List.map_append, List.take_append_drop]
      · rw [v2, t2, hi, List.append_assoc]
        congr 1
        simp only [invokedOf]
        rw [← List.map_append, List.take_append_drop]

theorem fresh_PInv (env : Env) (srv : respServer) (id : Nat) (buf : List Nat)
    (cmds : List (List (List Nat))) (hv : ∀ a ∈ cmds, ValidArgs a ∧ Known env a)
    (hlen : (encodeStream cmds).length < 2 ^ 63) :
    PInv env (freshState srv id buf) (encodeStream cmds) cmds := by
  refine ⟨hv, by simpa [freshState, createClient] using hlen, Or.inl ?_⟩
  simp [freshState, createClient]

/-- C1. Fragmentation does not change what is dispatched: for a well-formed
request stream (commands of 1 to 1048576 bulks of at most `proto_max_bulk_len`
bytes whose names pass the lookup and arity test, handlers that leave the
input buffer alone) and any way of cutting it into chunks, feeding the chunks
to a fresh client one at a time, `processInputBuffer` after each, makes the
same `processCommand` calls (same `argc`, same `argv`, same order) and the same
handler calls as one `processInputBuffer` on the whole stream, namely one per
command of the stream; and `*2\r\n$3\r\nfo` followed by `o\r\n$3\r\nbar\r\n`
gives the single call with `argv = ["foo","bar"]` and `qb_pos` back at 0. -/
theorem C1_fragmentation_same_dispatch :
    (∀ (env : Env) (srv : respServer) (id : Nat) (buf : List Nat)
        (cmds : List (List (List Nat))) (chunks : List (List Nat)),
        HandlersKeepInput env → (∀ a ∈ cmds, ValidArgs a ∧ Known env a) →
        (encodeStream cmds).length < 2 ^ 63 → chunks.flatten = encodeStream cmds →
        ∃ whole parts,
          processInputBuffer env (feed (freshState srv id buf) (encodeStream cmds)) = .ok whole ∧
          feedAll env (freshState srv id buf) chunks = .ok parts ∧
          parts.dispatched = whole.dispatched ∧ parts.invoked = whole.invoked ∧
          whole.dispatched = cmds.map (fun a => (a.length, a)) ∧
          parts.c.qb_pos = 0 ∧ whole.c.qb_pos = 0) ∧
    (∀ (proc : Nat → respServer → client → respServer × client) (slack : Nat → Nat)
        (srv : respServer) (id : Nat) (buf : List Nat),
        ∃ st, feedAll (staticEnv proc slack) (freshState srv id buf)
            [bytes "*2\r\n$3\r\nfo", bytes "o\r\n$3\r\nbar\r\n"] = .ok st ∧
          st.dispatched = [(2, [bytes "foo", bytes "bar"])] ∧ st.c.qb_pos = 0) := by
  constructor
  · intro env srv id buf cmds chunks hk hv hlen hflat
    have h0 := fresh_PInv env srv id buf cmds hv hlen
    have hw : PInv env (freshState srv id buf) (encodeStream cmds ++ []) cmds := by simpa using h0
    obtain ⟨whole, k, hrun, w1, w2, w3, w4, w5⟩ :=
      processInputBuffer_spec env [] hk _ cmds (feed_PInv env _ _ [] cmds hw)
    obtain ⟨wk, _⟩ := w5 rfl
    have hwd : whole.dispatched = traceOf cmds := by
      rw [w1, wk]; simp [feed, freshState]
    have hwi : whole.invoked = invokedOf env cmds := by
      rw [w2, wk]; simp [feed, freshState]
    cases chunks with
    | nil =>
      have hnil : cmds = [] := by
        cases cmds with
        | nil => rfl
        | cons a P =>
          rw [encodeStream_cons, encodeCommand_eq] at hflat
          simp at hflat
      refine ⟨whole, freshState srv id buf, hrun, rfl, ?_, ?_, hwd, rfl, w4⟩
      · rw [hwd, hnil]; rfl
      · rw [hwi, hnil]; rfl
    | cons ch rest =>
      obtain ⟨parts, hp, p1, p2, p3, _⟩ :=
        feedAll_spec env hk (ch :: rest) (freshState srv id buf) cmds (by simp)
          (by rw [hflat]; exact h0)
      refine ⟨whole, parts, hrun, hp, ?_, ?_, hwd, p3, w4⟩
      · rw [p1, hwd]; simp [freshState]
      · rw [p2, hwi]; simp [freshState]
  · intro proc slack srv id buf
    exact ⟨_, rfl, rfl, rfl⟩

theorem C1_fragmentation_same_dispatch_witness :
    ∃ whole parts,
      processInputBuffer (staticEnv (fun _ s c => (s, c)) (fun _ => 0))
        (feed (freshState initServerState 1 []) (encodeStream [[bytes "test"]])) = .ok whole ∧
      feedAll (staticEnv (fun _ s c => (s, c)) (fun _ => 0)) (freshState initServerState 1 [])
        [bytes "*1\r\n$4\r\nte", bytes "st\r\n"] = .ok parts ∧
      parts.dispatched = whole.dispatched ∧ parts.invoked = whole.invoked ∧
      whole.dispatched = [[bytes "test"]].map (fun a => (a.length, a)) ∧
      parts.c.qb_pos = 0 ∧ whole.c.qb_pos = 0 :=
  C1_fragmentation_same_dispatch.1 (staticEnv (fun _ s c => (s, c)) (fun _ => 0))
    initServerState 1 [] [[bytes "test"]] [bytes "*1\r\n$4\r\nte", bytes "st\r\n"]
    (fun _ _ _ => ⟨rfl, rfl⟩)
    (by
      intro a ha
      simp only [List.mem_singleton] at ha
      subst ha
      refine ⟨⟨by decide, by decide, by decide⟩, bytes "test", [], ⟨bytes "test", 0, 0⟩, rfl,
        by decide, by decide⟩)
    (by norm_num [encodeStream, encodeCommand, encodeBulks, encodeBulk, natDigits, bytes])
    (by
      norm_num [encodeStream, encodeCommand, encodeBulks, encodeBulk, natDigits, bytes, CR, LF]
      decide)

theorem encodeBulks_length_le (l : List (List Nat))
    (h : ∀ a ∈ l, (a.length : Int) ≤ proto_max_bulk_len) :
    (encodeBulks l).length ≤ l.length * 536870937 := by
  have hP : proto_max_bulk_len = 536870912 := by unfold proto_max_bulk_len; norm_num
  induction l with
  | nil => simp [encodeBulks]
  | cons a more ih =>
    have h1 := h a (by simp)
    have h2 := ih (fun x hx => h x (by simp [hx]))
    have h3 := natDigits_length_le a.length (by omega)
    rw [encodeBulks_cons]
    simp only [List.length_append, List.length_cons, List.length_nil]
    omega

theorem encodeCommand_length_lt (args : List (List Nat)) (hv : ValidArgs args) :
    (encodeCommand args).length < 2 ^ 63 := by
  obtain ⟨_, h2, h3⟩ := hv
  have h4 := encodeBulks_length_le args h3
  have h5 := natDigits_length_le args.length (by omega)
  rw [encodeCommand_eq]
  simp only [List.length_append, List.length_cons, List.length_nil]
  omega

/-- C2. Decoding undoes encoding: on a freshly created client whose `querybuf`
is exactly the encoding `*N\r\n` + N x `$L\r\n<bytes>\r\n` of a list of
1 to 1048576 byte strings, each of at most `proto_max_bulk_len` arbitrary
bytes, `processMultibulkBuffer` returns success with `argc = N`, `argv` equal
to the list, `multibulklen = 0`, `bulklen = -1` and no unconsumed input. -/
theorem C2_decode_encode (env : Env) (srv : respServer) (id : Nat) (buf : List Nat)
    (args : List (List Nat)) (hv : ValidArgs args) :
    ∃ st1, processMultibulkBuffer env (feed (freshState srv id buf) (encodeCommand args)) =
        .ok (Ret.ERROR_SUCCESS, st1) ∧
      st1.c.argc = args.length ∧ st1.c.argv = args ∧ st1.c.multibulklen = 0 ∧
      st1.c.bulklen = -1 ∧ st1.c.querybuf.drop st1.c.qb_pos = [] ∧ unconsumed st1.c = 0 := by
  have hlen := encodeCommand_length_lt args hv
  have hp : Pend (feed (freshState srv id buf) (encodeCommand args)).c [] args [] := by
    left
    refine ⟨⟨by simp [feed, freshState, createClient], ?_⟩, rfl, rfl, rfl, ?_⟩
    · simpa [feed, freshState, createClient] using hlen
    · simp [feed, freshState, createClient]
  obtain ⟨r, st1, hrun, _, _, _, _, _, h6⟩ :=
    processMultibulkBuffer_spec env _ [] [] args hv hp
  rcases h6 with ⟨r1, r2, r3, r4, r5, r6, r7⟩ | ⟨_, r2, _⟩
  · subst r1
    have hd : st1.c.querybuf.drop st1.c.qb_pos = [] := by simpa using r7
    refine ⟨st1, hrun, r4, r3, r5, r6, hd, ?_⟩
    rw [unconsumed_eq st1.c r2, hd]
    rfl
  · exact absurd rfl r2

theorem C2_decode_encode_witness :
    ∃ st1, processMultibulkBuffer (staticEnv (fun _ s c => (s, c)) (fun _ => 0))
        (feed (freshState initServerState 1 []) (encodeCommand [[0, 13, 10, 255], []])) =
        .ok (Ret.ERROR_SUCCESS, st1) ∧
      st1.c.argc = [[0, 13, 10, 255], ([] : List Nat)].length ∧
      st1.c.argv = [[0, 13, 10, 255], []] ∧ st1.c.multibulklen = 0 ∧
      st1.c.bulklen = -1 ∧ st1.c.querybuf.drop st1.c.qb_pos = [] ∧ unconsumed st1.c = 0 :=
  C2_decode_encode (staticEnv (fun _ s c => (s, c)) (fun _ => 0)) initServerState 1 []
    [[0, 13, 10, 255], []] ⟨by decide, by decide, by decide⟩

theorem toSizeT_sub_le (a b : Nat) (hb : b ≤ a) : toSizeT ((a : Int) - (b : Int)) ≤ a - b := by
  have e : ((a : Int) - (b : Int)) = ((a - b : Nat) : Int) := by omega
  rw [e]
  unfold toSizeT SIZE_MAX1
  have h2 : (((a - b : Nat) : Int) % ((2 ^ 64 : Nat) : Int)) = (((a - b) % 2 ^ 64 : Nat) : Int) := by
    simp
  rw [h2, Int.toNat_ofNat]
  exact Nat.mod_le _ _

theorem memcpyAt_length (dst : List Nat) (off : Nat) (s : List Nat)
    (h : off + s.length ≤ dst.length) : (memcpyAt dst off s).length = dst.length := by
  simp [memcpyAt]
  omega

theorem memcpyAt_take (dst : List Nat) (off : Nat) (s : List Nat) (h : off ≤ dst.length) :
    (memcpyAt dst off s).take (off + s.length) = dst.take off ++ s := by
  unfold memcpyAt
  have hl : (dst.take off ++ s).length = off + s.length := by simp [h]
  rw [← hl, List.take_left]

/-- The output stream of a reply chain alone. -/
theorem outputStream_eq (c : client) :
    outputStream c = c.buf.take c.bufpos ++ (c.reply.map fun b => b.buf.take b.used).flatten :=
  rfl

theorem fillTail_spec (reply : List clientReplyBlock) (s : List Nat)
    (hwf : ∀ b ∈ reply, b.used ≤ b.size) :
    ((fillTail reply s).1.map fun b => b.buf.take b.used).flatten ++ (fillTail reply s).2 =
        (reply.map fun b => b.buf.take b.used).flatten ++ s ∧
      (∀ b ∈ (fillTail reply s).1, b.used ≤ b.size) ∧
      (fillTail reply s).1.length = reply.length ∧
      ((fillTail reply s).1.map clientReplyBlock.size) = reply.map clientReplyBlock.size := by
  unfold fillTail
  cases hlast : reply.getLast? with
  | none => exact ⟨rfl, hwf, rfl, rfl⟩
  | some tail =>
    have hne : reply ≠ [] := by
      intro h; rw [h] at hlast; simp at hlast
    have hsplit : reply = reply.dropLast ++ [tail] := by
      have h1 := List.dropLast_append_getLast hne
      have h2 : reply.getLast hne = tail := by
        have := List.getLast?_eq_getLast reply hne
        rw [this] at hlast
        exact Option.some.inj hlast
      rw [h2] at h1
      exact h1.symm
    have htwf : tail.used ≤ tail.size := hwf tail (by rw [hsplit]; simp)
    have havail := toSizeT_sub_le tail.size tail.used htwf
    simp only
    generalize hcopy : (if toSizeT ((tail.size : Int) - (tail.used : Int)) ≥ s.length then s.length
      else toSizeT ((tail.size : Int) - (tail.used : Int))) = copy
    have hc1 : copy ≤ s.length := by
      rw [← hcopy]; split_ifs <;> omega
    have hc2 : tail.used + copy ≤ tail.size := by
      rw [← hcopy]; split_ifs <;> omega
    have hsz : tail.size = tail.buf.length := rfl
    have htl : (s.take copy).length = copy := by simp [hc1]
    have hnew : (memcpyAt tail.buf tail.used (List.take copy s)).take (tail.used + copy) =
        tail.buf.take tail.used ++ s.take copy := by
      have := memcpyAt_take tail.buf tail.used (s.take copy) (by omega)
      rw [htl] at this
      exact this
    have hnewlen : (memcpyAt tail.buf tail.used (List.take copy s)).length = tail.buf.length := by
      apply memcpyAt_length
      rw [htl]; omega
    refine ⟨?_, ?_, ?_, ?_⟩
    · conv_rhs => rw [hsplit]
      simp only [List.map_append, List.map_cons, List.map_nil, List.flatten_append,
        List.flatten_cons, List.flatten_nil, List.append_nil, hnew, List.append_assoc]
      rw [List.take_append_drop]
    · intro b hb
      simp only [List.mem_append, List.mem_singleton] at hb
      rcases hb with hb | hb
      · exact hwf b (List.mem_of_mem_dropLast hb)
      · subst hb
        simp only [clientReplyBlock.size, hnewlen]
        omega
    · simp only [List.length_append, List.length_dropLast, List.length_singleton]
      have : 0 < reply.length := List.length_pos.2 hne
      omega
    · conv_rhs => rw [hsplit]
      simp only [List.map_append, List.map_cons, List.map_nil, clientReplyBlock.size, hnewlen]

theorem addReplyProtoToList_spec (env : Env) (c : client) (s : List Nat) (hwf : ReplyWF c) :
    outputStream (_addReplyProtoToList env c s) = outputStream c ++ s ∧
      ReplyWF (_addReplyProtoToList env c s) := by
  obtain ⟨hb, hr⟩ := hwf
  obtain ⟨f1, f2, _, _⟩ := fillTail_spec c.reply s hr
  unfold _addReplyProtoToList
  generalize hft : fillTail c.reply s = ft at f1 f2
  obtain ⟨reply1, s1⟩ := ft
  simp only at f1 f2 ⊢
  by_cases hlen : s1.length ≠ 0
  · rw [if_pos hlen]
    generalize (if s1.length < PROTO_REPLY_CHUNK_BYTES then PROTO_REPLY_CHUNK_BYTES
      else s1.length) = size
    refine ⟨?_, hb, ?_⟩
    · simp only [outputStream_eq, List.map_append, List.map_cons, List.map_nil,
        List.flatten_append, List.flatten_cons, List.flatten_nil, List.append_nil]
      rw [List.take_left, List.append_assoc, f1]
    · intro b hbm
      simp only [List.mem_append, List.mem_singleton] at hbm
      rcases hbm with hbm | hbm
      · exact f2 b hbm
      · subst hbm
        simp [clientReplyBlock.size]
  · rw [if_neg hlen]
    have hs1 : s1 = [] := by
      have : s1.length = 0 := by omega
      exact List.eq_nil_of_length_eq_zero this
    subst hs1
    refine ⟨?_, hb, f2⟩
    simp only [outputStream_eq]
    rw [List.append_assoc, ← f1]
    simp

/-- The placement and the stream effect of `addReplyProto` together. -/
theorem addReplyProto_spec (env : Env) (st : State) (s : List Nat) (hwf : ReplyWF st.c) :
    outputStream (addReplyProto env st s).c = outputStream st.c ++ s ∧
      ReplyWF (addReplyProto env st s).c ∧
      (addReplyProto env st s).dispatched = st.dispatched ∧
      (addReplyProto env st s).invoked = st.invoked := by
  have hpc : (prepareClientToWrite st).c = st.c := by
    unfold prepareClientToWrite; split_ifs <;> rfl
  have hpd : (prepareClientToWrite st).dispatched = st.dispatched := by
    unfold prepareClientToWrite; split_ifs <;> rfl
  have hpi : (prepareClientToWrite st).invoked = st.invoked := by
    unfold prepareClientToWrite; split_ifs <;> rfl
  unfold addReplyProto
  simp only [hpc]
  cases hbuf : _addReplyToBuffer st.c s with
  | none =>
    simp only
    have := addReplyProtoToList_spec env st.c s hwf
    exact ⟨this.1, this.2, hpd, hpi⟩
  | some c1 =>
    simp only
    refine ⟨?_, ?_, hpd, hpi⟩
    all_goals
      unfold _addReplyToBuffer at hbuf
      simp only at hbuf
      split_ifs at hbuf with h1 h2
      have hc1 := (Option.some.inj hbuf).symm
      have hrep : st.c.reply = [] := by
        have : st.c.reply.length = 0 := by omega
        exact List.eq_nil_of_length_eq_zero this
      have hav := toSizeT_sub_le st.c.buf.length st.c.bufpos hwf.1
      have hfit : st.c.bufpos + s.length ≤ st.c.buf.length := by
        have := hwf.1
        omega
    · rw [hc1]
      simp only [outputStream_eq, hrep, List.map_nil, List.flatten_nil, List.append_nil]
      exact memcpyAt_take _ _ _ hwf.1
    · rw [hc1]
      refine ⟨?_, ?_⟩
      · simp only
        rw [memcpyAt_length _ _ _ hfit]
        exact hfit
      · simp only [hrep]
        intro b hb
        exact absurd hb (by simp)

/-- C7. Reply bytes keep append order: for every client state with `bufpos`
within the inline slab and `used ≤ size` in every block, and every byte string
`s`, the output stream (`buf[0..bufpos)` followed by `buf[0..used)` of every
block in chain order) after `addReplyProto(c, s, len)` is the output stream
before followed by `s`, wherever the bytes land. -/
theorem C7_addReplyProto_appends (env : Env) (st : State) (s : List Nat)
    (hbuf : st.c.bufpos ≤ st.c.buf.length) (hblocks : ∀ b ∈ st.c.reply, b.used ≤ b.size) :
    outputStream (addReplyProto env st s).c = outputStream st.c ++ s :=
  (addReplyProto_spec env st s ⟨hbuf, hblocks⟩).1

theorem connWrite_spec (conn : connection) (script : List WriteResult) (data : List Nat)
    (count : Nat) :
    ((connWrite conn script data count).1 ≤ 0 ∧ (connWrite conn script data count).2.2.2 = [] ∧
        (connWrite conn script data count).2.2.1.length ≤ script.length) ∨
      (∃ m : Nat, (connWrite conn script data count).1 = (m : Int) ∧ 0 < m ∧ m ≤ count ∧
        (connWrite conn script data count).2.2.2 = data.take m ∧
        (connWrite conn script data count).2.2.1.length + 1 = script.length) := by
  unfold connWrite
  cases script with
  | nil => left; simp
  | cons r rest =>
    cases r with
    | wrote n =>
      by_cases h : min n count = 0
      · left; simp [h]
      · right
        exact ⟨min n count, rfl, by omega, by omega, rfl, rfl⟩
    | again => left; simp
    | failed => left; simp

theorem take_drop_split (l : List Nat) (b s m : Nat) (h1 : s + m ≤ b) :
    (l.drop s).take m ++ (l.take b).drop (s + m) = (l.take b).drop s := by
  have e1 : (l.take b).drop s = (l.drop s).take (b - s) := List.drop_take _ _ _
  have e2 : (l.drop s).take m = ((l.take b).drop s).take m := by
    rw [e1, List.take_take]
    congr 1
    omega
  have e3 : (l.take b).drop (s + m) = ((l.take b).drop s).drop m := by
    rw [List.drop_drop, Nat.add_comm]
  rw [e2, e3, List.take_append_drop]

theorem unsent_slab (c : client) (h1 : c.sentlen ≤ c.bufpos) (h2 : c.bufpos ≤ c.buf.length) :
    unsentOutput c = (c.buf.take c.bufpos).drop c.sentlen ++ chainStream c.reply := by
  unfold unsentOutput outputStream chainStream
  rw [List.drop_append_of_le_length (by simp; omega)]

theorem unsent_chain (c : client) (o : clientReplyBlock) (rest : List clientReplyBlock)
    (h0 : c.bufpos = 0) (hr : c.reply = o :: rest) (h1 : c.sentlen ≤ o.used)
    (h2 : o.used ≤ o.size) :
    unsentOutput c = (o.buf.take o.used).drop c.sentlen ++ chainStream rest := by
  unfold unsentOutput outputStream chainStream
  rw [h0, hr]
  simp only [List.take_zero, List.nil_append, List.map_cons, List.flatten_cons]
  rw [List.drop_append_of_le_length (by simp [clientReplyBlock.size] at h2 ⊢; omega)]

theorem unsent_idle (c : client) (h0 : c.bufpos = 0) (hr : c.reply = []) :
    unsentOutput c = [] := by
  unfold unsentOutput outputStream
  simp [h0, hr]

theorem reply_bytes_pop (rb osz rest : Nat) (h : rb = (osz + rest) % SIZE_MAX1) :
    toSizeT ((rb : Int) - (osz : Int)) = rest % SIZE_MAX1 := by
  unfold toSizeT
  subst h
  unfold SIZE_MAX1
  have : (((osz + rest) % 2 ^ 64 : Nat) : Int) - (osz : Int) ≡ (rest : Int) [ZMOD ((2 ^ 64 : Nat) : Int)] := by
    have h1 : (((osz + rest) % 2 ^ 64 : Nat) : Int) ≡ ((osz + rest : Nat) : Int)
        [ZMOD ((2 ^ 64 : Nat) : Int)] := by
      rw [Int.natCast_mod]
      exact Int.mod_modEq _ _
    have h2 := Int.ModEq.sub_right (osz : Int) h1
    have e : ((osz + rest : Nat) : Int) - (osz : Int) = (rest : Int) := by omega
    rw [e] at h2
    exact h2
  rw [this.eq]
  have : ((rest : Int) % ((2 ^ 64 : Nat) : Int)) = ((rest % 2 ^ 64 : Nat) : Int) := by simp
  rw [this, Int.toNat_ofNat]

theorem chainStream_cons (o : clientReplyBlock) (rest : List clientReplyBlock) :
    chainStream (o :: rest) = o.buf.take o.used ++ chainStream rest := by
  simp [chainStream]

theorem writeBody_slab (c0 : client) (run : WriteRun) (h : WInv c0 run)
    (hb : run.st.c.bufpos > 0) :
    ∃ step, writeBody run = .ok step ∧ StepPost c0 run step := by
  obtain ⟨hcons, hrwf, hfwf, hchain, hslab⟩ := h
  obtain ⟨hconn, hcur, hrb⟩ := hfwf
  rw [if_pos hb] at hcur
  obtain ⟨conn, hc⟩ : ∃ conn, run.st.c.conn = some conn := by
    cases hx : run.st.c.conn with
    | none => exact absurd hx hconn
    | some conn => exact ⟨conn, rfl⟩
  have hcount := toSizeT_sub_le run.st.c.bufpos run.st.c.sentlen (by omega)
  have hU := unsent_slab run.st.c (by omega) hrwf.1
  -- the chain has not been touched yet
  have hslab1 : run.st.c.bufpos = c0.bufpos ∧ run.st.c.reply = c0.reply ∧
      run.st.c.sentlen = c0.sentlen + run.wire.length := by
    rcases hslab with h1 | ⟨h1, _⟩
    · exact h1
    · omega
  unfold writeBody
  simp only [hb, if_true, hc]
  generalize hcw : connWrite conn run.script (List.drop run.st.c.sentlen run.st.c.buf)
    (toSizeT ((run.st.c.bufpos : Int) - (run.st.c.sentlen : Int))) = cw
  have hspec := connWrite_spec conn run.script (List.drop run.st.c.sentlen run.st.c.buf)
    (toSizeT ((run.st.c.bufpos : Int) - (run.st.c.sentlen : Int)))
  rw [hcw] at hspec
  obtain ⟨n, conn1, script1, acc⟩ := cw
  simp only at hspec ⊢
  rcases hspec with ⟨hn, hacc, _⟩ | ⟨m, hn, hm0, hmc, hacc, hlen⟩
  · rw [if_pos hn]
    refine ⟨_, rfl, ?_⟩
    subst hacc
    exact ⟨by simpa using hcons, hrwf, ⟨by simp, by simpa [hb] using hcur, hrb⟩, hchain,
      Or.inl ⟨hslab1.1, hslab1.2.1, by simpa using hslab1.2.2⟩⟩
  · have hnpos : ¬ n ≤ 0 := by omega
    rw [if_neg hnpos]
    refine ⟨_, rfl, ?_⟩
    have hnm : n.toNat = m := by omega
    have hsplit := take_drop_split run.st.c.buf run.st.c.bufpos run.st.c.sentlen m (by omega)
    by_cases hfull : run.st.c.sentlen + m = run.st.c.bufpos
    · -- the slab is drained
      simp only [StepPost, hnm, hfull, if_true]
      refine ⟨?_, hlen, le_refl _⟩
      refine ⟨?_, ⟨by simp, hrwf.2⟩, ⟨by simp, ?_, hrb⟩, hchain, Or.inr ⟨rfl, ?_, ?_⟩⟩
      · rw [← hcons, hU, hacc, ← hsplit, hfull]
        simp [unsentOutput, outputStream, chainStream]
      · simp only [gt_iff_lt, lt_self_iff_false, if_false]
        split <;> first | trivial | simp
      · simp only [List.length_append, hacc, List.length_take, List.length_drop]
        have := hrwf.1
        omega
      · intro _ _; rfl
    · simp only [StepPost, hnm, hfull, if_false]
      refine ⟨?_, hlen, le_refl _⟩
      refine ⟨?_, hrwf, ⟨by simp, ?_, hrb⟩, hchain, Or.inl ⟨hslab1.1, hslab1.2.1, ?_⟩⟩
      · rw [← hcons, hU, hacc, ← hsplit]
        have hU2 := unsent_slab
          { run.st.c with conn := some conn1, sentlen := run.st.c.sentlen + m }
          (by simp only; omega) hrwf.1
        rw [hU2]
        simp
      · simp only [hb, if_true]
        omega
      · simp only [List.length_append, hacc, List.length_take, List.length_drop]
        have := hrwf.1
        omega

theorem drop_succ_of_drop_cons {α : Type} (l : List α) (k : Nat) (o : α) (rest : List α)
    (h : l.drop k = o :: rest) : l.drop (k + 1) = rest := by
  have : l.drop (k + 1) = (l.drop k).drop 1 := by rw [List.drop_drop, Nat.add_comm]
  rw [this, h]
  rfl

theorem chain_unsent (buf0 : List Nat) (o : clientReplyBlock) (rest : List clientReplyBlock)
    (s : Nat) (hs : s ≤ o.used) (howf : o.used ≤ o.size) :
    List.drop s (List.take 0 buf0 ++
        (List.map (fun b : clientReplyBlock => List.take b.used b.buf) (o :: rest)).flatten) =
      (o.buf.take o.used).drop s ++ chainStream rest := by
  simp only [List.take_zero, List.nil_append, List.map_cons, List.flatten_cons]
  rw [List.drop_append_of_le_length (by simp [clientReplyBlock.size] at howf ⊢; omega)]
  rfl

theorem rest_unsent (buf0 : List Nat) (rest : List clientReplyBlock) :
    List.drop 0 (List.take 0 buf0 ++
        (List.map (fun b : clientReplyBlock => List.take b.used b.buf) rest).flatten) =
      chainStream rest := by
  simp [chainStream]

theorem writeBody_chain (c0 : client) (run : WriteRun) (h : WInv c0 run)
    (hb : ¬ run.st.c.bufpos > 0) (hp : clientHasPendingReplies run.st.c = true) :
    ∃ step, writeBody run = .ok step ∧ StepPost c0 run step := by
  obtain ⟨⟨srv, c, d, i⟩, script, wire, nw, tot⟩ := run
  obtain ⟨id, conn?, querybuf, qb_pos, reqtype, argc, argv, argv_alloc, argv_len_sum, cmd,
    lastcmd, multibulklen, bulklen, buf, bufpos, sentlen, reply, reply_bytes, node⟩ := c
  obtain ⟨hcons, hrwf, hfwf, hchain, hslab⟩ := h
  obtain ⟨hconn, hcur, hrb⟩ := hfwf
  simp only at hb hp hcons hrwf hconn hcur hrb hchain hslab
  have hb0 : bufpos = 0 := by omega
  subst hb0
  obtain ⟨conn, hc⟩ : ∃ conn, conn? = some conn := by
    cases conn? with
    | none => exact absurd rfl hconn
    | some conn => exact ⟨conn, rfl⟩
  subst hc
  obtain ⟨o, rest, hr⟩ : ∃ o rest, reply = o :: rest := by
    cases reply with
    | nil => simp [clientHasPendingReplies] at hp
    | cons o rest => exact ⟨o, rest, rfl⟩
  subst hr
  simp only [gt_iff_lt, lt_self_iff_false, if_false] at hcur
  have howf : o.used ≤ o.size := hrwf.2 o (by simp)
  have hrestwf : ∀ b ∈ rest, b.used ≤ b.size := fun b hbm => hrwf.2 b (by simp [hbm])
  have hsent : sentlen ≤ o.used := by omega
  simp only [unsentOutput, outputStream] at hcons ⊢
  rw [chain_unsent buf o rest sentlen hsent howf] at hcons
  obtain ⟨k, hk⟩ := hchain
  have hk2 : c0.reply.drop (k + 1) = rest := drop_succ_of_drop_cons _ _ _ _ hk.symm
  have hrb2 : toSizeT ((reply_bytes : Int) - (o.size : Int)) =
      (rest.map clientReplyBlock.size).sum % SIZE_MAX1 := by
    apply reply_bytes_pop
    rw [hrb]
    simp
  -- the record of the slab, once the chain is being sent
  have hslab2 : ∀ (w : List Nat) (s : Nat), wire.length ≤ w.length →
      (w.length = wire.length → s = sentlen) →
      (wire.length < w.length → 0 < c0.bufpos → c0.bufpos - c0.sentlen < w.length) →
      ((0 : Nat) = 0 ∧ c0.bufpos - c0.sentlen ≤ w.length ∧
        (0 < c0.bufpos → w.length = c0.bufpos - c0.sentlen → s = 0)) := by
    intro w s hw hs hgt
    rcases hslab with ⟨h1, _, h3⟩ | ⟨_, h2, h3⟩
    · refine ⟨rfl, by omega, fun hpos => by omega⟩
    · refine ⟨rfl, by omega, fun hpos heq => ?_⟩
      by_cases hlt : wire.length < w.length
      · have := hgt hlt hpos
        omega
      · rw [hs (by omega)]
        exact h3 hpos (by omega)
  unfold writeBody
  simp only [gt_iff_lt, lt_self_iff_false, if_false]
  by_cases hu : o.used = 0
  · -- an empty block is dropped
    simp only [hu, if_true]
    refine ⟨_, rfl, ?_⟩
    have hs0 : sentlen = 0 := by omega
    subst hs0
    simp only [StepPost]
    refine ⟨⟨?_, ⟨hrwf.1, hrestwf⟩, ⟨hconn, ?_, hrb2⟩, ⟨k + 1, hk2.symm⟩, Or.inr ?_⟩, trivial, ?_⟩
    · simp only [unsentOutput, outputStream]
      rw [← hcons, hu, rest_unsent]
      simp
    · simp only [gt_iff_lt, lt_self_iff_false, if_false]
      split <;> first | trivial | simp
    · exact hslab2 wire 0 (le_refl _) (fun _ => rfl) (fun hlt => by omega)
    · simp
  · simp only [hu, if_false]
    have hcount := toSizeT_sub_le o.used sentlen hsent
    generalize hcw : connWrite conn script (List.drop sentlen o.buf)
      (toSizeT ((o.used : Int) - (sentlen : Int))) = cw
    have hspec := connWrite_spec conn script (List.drop sentlen o.buf)
      (toSizeT ((o.used : Int) - (sentlen : Int)))
    rw [hcw] at hspec
    obtain ⟨n, conn1, script1, acc⟩ := cw
    simp only at hspec ⊢
    rcases hspec with ⟨hn, hacc, _⟩ | ⟨m, hn, hm0, hmc, hacc, hlen⟩
    · rw [if_pos hn]
      refine ⟨_, rfl, ?_⟩
      subst hacc
      refine ⟨?_, hrwf, ⟨by simp, ?_, hrb⟩, ⟨k, hk⟩, ?_⟩
      · simp only [List.append_nil, unsentOutput, outputStream]
        rw [chain_unsent buf o rest sentlen hsent howf]
        exact hcons
      · simp only [gt_iff_lt, lt_self_iff_false, if_false]
        exact hcur
      · rcases hslab with h1 | h1
        · exact Or.inl ⟨h1.1, h1.2.1, by simpa using h1.2.2⟩
        · exact Or.inr ⟨h1.1, by simpa using h1.2.1, by simpa using h1.2.2⟩
    · have hnpos : ¬ n ≤ 0 := by omega
      rw [if_neg hnpos]
      have hnm : n.toNat = m := by omega
      have hsplit := take_drop_split o.buf o.used sentlen m (by omega)
      have hsz : o.size = o.buf.length := rfl
      have hacclen : acc.length = m := by
        rw [hacc]; simp only [List.length_take, List.length_drop]; omega
      by_cases hfull : sentlen + m = o.used
      · -- the block is sent entirely and removed
        simp only [hnm, hfull, if_true]
        have hassert : ¬ (rest.length = 0 ∧
            toSizeT ((reply_bytes : Int) - (o.size : Int)) ≠ 0) := by
          rintro ⟨r0, rne⟩
          apply rne
          rw [hrb2, List.eq_nil_of_length_eq_zero r0]
          rfl
        rw [if_neg hassert]
        refine ⟨_, rfl, ?_⟩
        simp only [StepPost]
        refine ⟨⟨?_, ⟨hrwf.1, hrestwf⟩, ⟨by simp, ?_, hrb2⟩, ⟨k + 1, hk2.symm⟩, Or.inr ?_⟩,
          hlen, by simp⟩
        · simp only [unsentOutput, outputStream]
          rw [← hcons, rest_unsent, hacc, ← hsplit, hfull]
          simp
        · simp only [gt_iff_lt, lt_self_iff_false, if_false]
          split <;> first | trivial | simp
        · exact hslab2 (wire ++ acc) 0 (by simp)
            (fun e => by simp only [List.length_append, hacclen] at e; omega)
            (fun _ hpos => by
              rcases hslab with ⟨h1, _, _⟩ | ⟨_, h2, _⟩
              · omega
              · simp only [List.length_append, hacclen]; omega)
      · simp only [hnm, hfull, if_false]
        refine ⟨_, rfl, ?_⟩
        simp only [StepPost]
        refine ⟨⟨?_, hrwf, ⟨by simp, ?_, hrb⟩, ⟨k, hk⟩, ?_⟩, hlen, le_refl _⟩
        · simp only [unsentOutput, outputStream]
          rw [← hcons, hacc, ← hsplit, chain_unsent buf o rest (sentlen + m) (by omega) howf]
          simp
        · simp only [gt_iff_lt, lt_self_iff_false, if_false]
          left; omega
        · rcases hslab with ⟨h1, h2, h3⟩ | ⟨h1, h2, h3⟩
          · left
            refine ⟨h1, h2, ?_⟩
            simp only [List.length_append, hacclen]
            omega
          · right
            refine ⟨h1, by simp only [List.length_append]; omega, fun hpos heq => ?_⟩
            simp only [List.length_append, hacclen] at heq
            omega

theorem writeLoop_spec (c0 : client) :
    ∀ (fuel : Nat) (run : WriteRun), run.script.length + run.st.c.reply.length < fuel →
      WInv c0 run → ∃ run1, writeLoop fuel run = .ok run1 ∧ WInv c0 run1 := by
  intro fuel
  induction fuel with
  | zero => intro run h; exact absurd h (by omega)
  | succ fuel ih =>
    intro run hfuel hinv
    by_cases hp : clientHasPendingReplies run.st.c = true
    · have hstep : ∃ step, writeBody run = .ok step ∧ StepPost c0 run step := by
        by_cases hb : run.st.c.bufpos > 0
        · exact writeBody_slab c0 run hinv hb
        · exact writeBody_chain c0 run hinv hb hp
      obtain ⟨step, hbody, hpost⟩ := hstep
      cases step with
      | brk run1 =>
        exact ⟨run1, by simp only [writeLoop, hp, if_true, hbody], hpost⟩
      | cont run1 =>
        obtain ⟨h1, h2, h3⟩ := hpost
        obtain ⟨run2, hrun, hinv2⟩ := ih run1 (by rw [h2]; omega) h1
        exact ⟨run2, by simp only [writeLoop, hp, if_true, hbody]; exact hrun, hinv2⟩
      | budget run1 =>
        obtain ⟨h1, h2, h3⟩ := hpost
        by_cases hbud : run1.totwritten > NET_MAX_WRITES_PER_EVENT
        · exact ⟨run1, by simp only [writeLoop, hp, if_true, hbody, hbud], h1⟩
        · obtain ⟨run2, hrun, hinv2⟩ := ih run1 (by omega) h1
          exact ⟨run2, by simp only [writeLoop, hp, if_true, hbody, hbud, if_false]; exact hrun,
            hinv2⟩
    · exact ⟨run, by simp only [writeLoop, hp]; rfl, hinv⟩

theorem WInv_post (c0 : client) (run : WriteRun) (h : WInv c0 run) :
    FlushPost c0 run.wire run.st.c := by
  obtain ⟨hcons, hrwf, hfwf, hchain, hslab⟩ := h
  obtain ⟨_, hcur, _⟩ := hfwf
  refine ⟨hcons, ?_, ?_, ?_, hchain, ?_⟩
  · intro hne
    rw [if_pos (by omega)] at hcur
    rcases hslab with ⟨h1, h2, h3⟩ | ⟨h1, _⟩
    · exact ⟨h2, by omega⟩
    · exact absurd h1 hne
  · intro hpos hle
    rcases hslab with ⟨h1, h2, h3⟩ | ⟨h1, _⟩
    · rw [if_pos (by omega)] at hcur
      omega
    · exact h1
  · intro hpos heq
    rcases hslab with ⟨h1, h2, h3⟩ | ⟨h1, _, h3⟩
    · rw [if_pos (by omega)] at hcur
      omega
    · exact h3 hpos heq
  · intro hb o rest hr
    rw [if_neg (by omega), hr] at hcur
    simp only at hcur
    omega

theorem FlushPost_idle (c0 : client) (wire : List Nat) (c : client) (h : FlushPost c0 wire c)
    (hp : clientHasPendingReplies c = false) :
    FlushPost c0 wire { c with sentlen := 0 } := by
  have hb : c.bufpos = 0 := by
    simp [clientHasPendingReplies] at hp; exact hp.1
  have hr : c.reply = [] := by
    simp [clientHasPendingReplies] at hp; exact hp.2
  obtain ⟨h1, h2, h3, h4, h5, h6⟩ := h
  refine ⟨?_, h2, h3, fun _ _ => rfl, h5, ?_⟩
  · have e1 := unsent_idle c hb hr
    have e2 : unsentOutput { c with sentlen := 0 } = [] := unsent_idle _ hb hr
    rw [← h1, e1, e2]
  · intro _ o rest hx
    rw [hr] at hx
    exact absurd hx (by simp)

theorem writeFinish_spec (c0 : client) (run : WriteRun) (handler_installed : Bool)
    (hpost : FlushPost c0 run.wire run.st.c) (hconn : run.st.c.conn ≠ none) :
    ∃ r run2, writeFinish run handler_installed = .ok (r, run2) ∧
      FlushPost c0 run2.wire run2.st.c := by
  obtain ⟨conn, hc⟩ : ∃ conn, run.st.c.conn = some conn := by
    cases hx : run.st.c.conn with
    | none => exact absurd hx hconn
    | some conn => exact ⟨conn, rfl⟩
  -- the tail of the function, from a run that differs from `run` in `nwritten` only
  have tail : ∀ nw : Int, ∃ r run2,
      (if (!clientHasPendingReplies run.st.c) = true then
          (if handler_installed = true then
            (match run.st.c.conn with
              | none => (.error Fault.null_deref : Except Fault (Ret × WriteRun))
              | some conn =>
                .ok (Ret.ERROR_SUCCESS,
                  ⟨⟨{ run.st.server with
                        el := deleteFileEvent run.st.server.el conn.fd true false },
                      { run.st.c with sentlen := 0 }, run.st.dispatched, run.st.invoked⟩,
                    run.script, run.wire, nw, run.totwritten⟩))
          else .ok (Ret.ERROR_SUCCESS,
            ⟨⟨run.st.server, { run.st.c with sentlen := 0 }, run.st.dispatched,
                run.st.invoked⟩, run.script, run.wire, nw, run.totwritten⟩))
        else .ok (Ret.ERROR_SUCCESS,
          ⟨run.st, run.script, run.wire, nw, run.totwritten⟩)) = .ok (r, run2) ∧
        FlushPost c0 run2.wire run2.st.c := by
    intro nw
    by_cases hp : clientHasPendingReplies run.st.c = true
    · simp only [hp, Bool.not_true, Bool.false_eq_true, if_false]
      exact ⟨_, _, rfl, hpost⟩
    · have hp2 : clientHasPendingReplies run.st.c = false := by simpa using hp
      have hidle := FlushPost_idle c0 run.wire run.st.c hpost hp2
      simp only [hp2, Bool.not_false, if_true]
      cases handler_installed with
      | false =>
        simp only [Bool.false_eq_true, if_false]
        exact ⟨_, _, rfl, hidle⟩
      | true =>
        simp only [if_true, hc]
        exact ⟨_, _, rfl, hidle⟩
  unfold writeFinish
  by_cases hn : run.nwritten = -1
  · simp only [hn, if_true, hc]
    by_cases hs : conn.state = ConnState.CONN_STATE_CONNECTED
    · simp only [hs, if_true]
      exact tail 0
    · simp only [hs, if_false]
      exact ⟨Ret.ERROR_FAILED, _, rfl, hpost⟩
  · simp only [hn, if_false]
    exact tail run.nwritten

/-- C8. `writeToClient` conserves the output stream: for every client state
that satisfies the invariants of the reply side and every behaviour of the
connection, the call returns, and the bytes the connection accepted during the
call, in order, followed by the unsent output afterwards are the unsent output
before; the chain is untouched while the inline slab is not drained, `bufpos`
and `sentlen` are 0 once it is, blocks are only removed from the head of the
chain, and the block left at the head is empty or has bytes not yet accepted. -/
theorem C8_writeToClient_conserves (st : State) (script : List WriteResult)
    (handler_installed : Bool) (hr : ReplyWF st.c) (hf : FlushWF st.c) :
    ∃ r run, writeToClient st script handler_installed = .ok (r, run) ∧
      run.wire ++ unsentOutput run.st.c = unsentOutput st.c ∧
      (run.st.c.bufpos ≠ 0 →
        run.st.c.reply = st.c.reply ∧ run.wire.length < st.c.bufpos - st.c.sentlen) ∧
      (0 < st.c.bufpos → st.c.bufpos - st.c.sentlen ≤ run.wire.length → run.st.c.bufpos = 0) ∧
      (0 < st.c.bufpos → run.wire.length = st.c.bufpos - st.c.sentlen →
        run.st.c.sentlen = 0) ∧
      (∃ k, run.st.c.reply = st.c.reply.drop k) ∧
      (run.st.c.bufpos = 0 → ∀ o rest, run.st.c.reply = o :: rest →
        run.st.c.sentlen < o.used ∨ o.used = 0) := by
  have hinit : WInv st.c (⟨st, script, [], 0, 0⟩ : WriteRun) :=
    ⟨by simp, hr, hf, ⟨0, by simp⟩, Or.inl ⟨rfl, rfl, by simp⟩⟩
  obtain ⟨run, hloop, hinv⟩ := writeLoop_spec st.c (script.length + st.c.reply.length + 1)
    ⟨st, script, [], 0, 0⟩ (by simp only; omega) hinit
  obtain ⟨r, run2, hfin, hpost⟩ :=
    writeFinish_spec st.c run handler_installed (WInv_post st.c run hinv) hinv.fwf.1
  refine ⟨r, run2, ?_, hpost⟩
  unfold writeToClient
  rw [hloop]
  exact hfin

theorem C7_addReplyProto_appends_witness :
    outputStream (addReplyProto (staticEnv (fun _ s c => (s, c)) (fun _ => 0))
        (freshState initServerState 1 [0, 0, 0, 0]) [1, 2, 3, 4, 5]).c =
      outputStream (freshState initServerState 1 [0, 0, 0, 0]).c ++ [1, 2, 3, 4, 5] :=
  C7_addReplyProto_appends (staticEnv (fun _ s c => (s, c)) (fun _ => 0))
    (freshState initServerState 1 [0, 0, 0, 0]) [1, 2, 3, 4, 5] (by decide)
    (by intro b hb; simp [freshState, createClient] at hb)

theorem C8_writeToClient_conserves_witness :
    ∃ r run, writeToClient exampleFlushState [WriteResult.wrote 1, WriteResult.again] false =
        .ok (r, run) ∧
      run.wire ++ unsentOutput run.st.c = unsentOutput exampleFlushState.c ∧
      (run.st.c.bufpos ≠ 0 →
        run.st.c.reply = exampleFlushState.c.reply ∧
          run.wire.length < exampleFlushState.c.bufpos - exampleFlushState.c.sentlen) ∧
      (0 < exampleFlushState.c.bufpos →
        exampleFlushState.c.bufpos - exampleFlushState.c.sentlen ≤ run.wire.length →
        run.st.c.bufpos = 0) ∧
      (0 < exampleFlushState.c.bufpos →
        run.wire.length = exampleFlushState.c.bufpos - exampleFlushState.c.sentlen →
        run.st.c.sentlen = 0) ∧
      (∃ k, run.st.c.reply = exampleFlushState.c.reply.drop k) ∧
      (run.st.c.bufpos = 0 → ∀ o rest, run.st.c.reply = o :: rest →
        run.st.c.sentlen < o.used ∨ o.used = 0) :=
  C8_writeToClient_conserves exampleFlushState [WriteResult.wrote 1, WriteResult.again] false
    ⟨by decide, by intro b hb; simp [exampleFlushState, createClient] at hb⟩
    ⟨by simp [exampleFlushState], by simp [exampleFlushState],
      by simp [exampleFlushState, createClient, SIZE_MAX1]⟩

/-- What `addReplyErrorLength` appends, by the first byte of the payload. -/
theorem addReplyErrorLength_spec (env : Env) (st : State) (s : List Nat)
    (hwf : ReplyWF st.c) :
    (s.head? ≠ some '-'.toNat →
      outputStream (addReplyErrorLength env st s).c =
        outputStream st.c ++ bytes "-ERR " ++ s ++ bytes "\r\n") ∧
    (s.head? = some '-'.toNat →
      outputStream (addReplyErrorLength env st s).c = outputStream st.c ++ s ++ bytes "\r\n") := by
  have hcrlf : [CR, LF] = bytes "\r\n" := by decide
  constructor
  · intro h
    have hcond : s.length = 0 ∨ s.head? ≠ some '-'.toNat := Or.inr h
    unfold addReplyErrorLength
    simp only [hcond, if_true]
    obtain ⟨a1, a2, _, _⟩ := addReplyProto_spec env st (bytes "-ERR ") hwf
    obtain ⟨b1, b2, _, _⟩ := addReplyProto_spec env _ s a2
    obtain ⟨c1, _, _, _⟩ := addReplyProto_spec env _ [CR, LF] b2
    rw [c1, b1, a1, hcrlf]
  · intro h
    have hcond : ¬ (s.length = 0 ∨ s.head? ≠ some '-'.toNat) := by
      intro hx
      rcases hx with hx | hx
      · have : s = [] := List.eq_nil_of_length_eq_zero hx
        rw [this] at h
        simp at h
      · exact hx h
    unfold addReplyErrorLength
    simp only [hcond, if_false]
    obtain ⟨b1, b2, _, _⟩ := addReplyProto_spec env st s hwf
    obtain ⟨c1, _, _, _⟩ := addReplyProto_spec env _ [CR, LF] b2
    rw [c1, b1, hcrlf]

/-- C9. Error reply formatting: for every client (with `bufpos` within the
inline slab and `used ≤ size` in every block) and every payload `s`,
`addReplyErrorLength(c, s, len)` appends to the output stream exactly
`-ERR ` ++ `s` ++ `\r\n` when `s` is empty or does not start with `-`, and
`s` ++ `\r\n` when `s` starts with `-`. -/
theorem C9_addReplyErrorLength_format (env : Env) (st : State) (s : List Nat)
    (hbuf : st.c.bufpos ≤ st.c.buf.length) (hblocks : ∀ b ∈ st.c.reply, b.used ≤ b.size) :
    (s.head? ≠ some '-'.toNat →
      outputStream (addReplyErrorLength env st s).c =
        outputStream st.c ++ bytes "-ERR " ++ s ++ bytes "\r\n") ∧
    (s.head? = some '-'.toNat →
      outputStream (addReplyErrorLength env st s).c = outputStream st.c ++ s ++ bytes "\r\n") :=
  addReplyErrorLength_spec env st s ⟨hbuf, hblocks⟩

theorem C9_addReplyErrorLength_format_witness :
    outputStream (addReplyErrorLength (staticEnv (fun _ s c => (s, c)) (fun _ => 0))
        (freshState initServerState 1 [0, 0, 0, 0, 0, 0]) (bytes "oops")).c =
      outputStream (freshState initServerState 1 [0, 0, 0, 0, 0, 0]).c ++ bytes "-ERR " ++
        bytes "oops" ++ bytes "\r\n" :=
  (C9_addReplyErrorLength_format (staticEnv (fun _ s c => (s, c)) (fun _ => 0))
    (freshState initServerState 1 [0, 0, 0, 0, 0, 0]) (bytes "oops") (by decide)
    (by intro b hb; simp [freshState, createClient] at hb)).1 (by decide)

/-- A complete framing line `b text \r x ...` at the cursor: where `strchr`
finds the `\r`, that the line passes the length test, and the text between
the type byte and `\r`. -/
theorem line_facts (c : client) (b : Nat) (text : List Nat) (x : Nat) (rest : List Nat)
    (hs : Sane c) (hb : b ≠ 13 ∧ b ≠ 0) (ht : ∀ y ∈ text, y ≠ 13 ∧ y ≠ 0)
    (hd : c.querybuf.drop c.qb_pos = b :: text ++ CR :: x :: rest) :
    strchr (c.querybuf.drop c.qb_pos) CR = some (text.length + 1) ∧
      ¬ (((text.length + 1 : Nat) : Int) > toSSizeT (toSizeT ((unconsumed c : Int) - 2))) ∧
      (c.querybuf.drop c.qb_pos).head? = some b ∧
      (c.querybuf.drop (c.qb_pos + 1)).take (text.length + 1 - 1) = text := by
  have hu := unconsumed_eq c hs
  have hlen : (c.querybuf.drop c.qb_pos).length = text.length + 3 + rest.length := by
    rw [hd]; simp; omega
  have hl2 : (c.querybuf.drop c.qb_pos).length ≤ c.querybuf.length := by simp
  have h63 := hs.2
  refine ⟨?_, ?_, by rw [hd]; rfl, ?_⟩
  · rw [hd]
    have := strchr_append_cons (b :: text) (x :: rest) CR (by
      intro y hy
      simp at hy
      rcases hy with rfl | hy
      · simpa [CR] using hb
      · simpa [CR] using ht y hy)
    simpa using this
  · rw [hu, hlen]
    have e : (((text.length + 3 + rest.length : Nat) : Int) - 2) =
        ((text.length + 1 + rest.length : Nat) : Int) := by omega
    rw [e, toSizeT_of_nat _ (by omega), toSSizeT_small _ (by omega)]
    omega
  · rw [drop_succ_eq, hd]
    simp

theorem header_toobig (env : Env) (st : State) (hm : st.c.multibulklen = 0)
    (ha : st.c.argc = 0) (hstr : strchr (st.c.querybuf.drop st.c.qb_pos) CR = none)
    (hbig : unconsumed st.c > PROTO_INLINE_MAX_SIZE) :
    mbHeader env st = .ok (.done Ret.ERROR_FAILED
      (addReplyError env st "Protocol error: too big mbulk count string")) := by
  unfold mbHeader
  simp only [hm, ha, hstr, hbig]
  simp

theorem header_reject_iff (env : Env) (st : State) (text : List Nat) (x : Nat) (rest : List Nat)
    (hs : Sane st.c) (hm : st.c.multibulklen = 0) (ha : st.c.argc = 0)
    (ht : ∀ y ∈ text, y ≠ 13 ∧ y ≠ 0)
    (hd : st.c.querybuf.drop st.c.qb_pos = 42 :: text ++ CR :: x :: rest) :
    (mbHeader env st = .ok (.done Ret.ERROR_FAILED
        (addReplyError env st "Protocol error: invalid multibulk length")) ↔
      (string2ll text = none ∨ ∃ ll, string2ll text = some ll ∧ ll > 1048576)) ∧
    (∀ ll, string2ll text = some ll → ll ≤ 1048576 →
      mbHeader env st =
        if ll ≤ 0 then
          .ok (.done Ret.ERROR_SUCCESS
            { st with c := { st.c with qb_pos := st.c.qb_pos + (text.length + 1) + 2 } })
        else
          .ok (.next { st with c :=
            { st.c with qb_pos := st.c.qb_pos + (text.length + 1) + 2, multibulklen := ll,
                        argv := [], argv_alloc := ll.toNat, argv_len_sum := 0 } })) := by
  obtain ⟨f1, f2, f3, f4⟩ := line_facts st.c 42 text x rest hs (by decide) ht hd
  have hval : ∀ ll, string2ll text = some ll → ll ≤ 1048576 →
      mbHeader env st =
        if ll ≤ 0 then
          .ok (.done Ret.ERROR_SUCCESS
            { st with c := { st.c with qb_pos := st.c.qb_pos + (text.length + 1) + 2 } })
        else
          .ok (.next { st with c :=
            { st.c with qb_pos := st.c.qb_pos + (text.length + 1) + 2, multibulklen := ll,
                        argv := [], argv_alloc := ll.toNat, argv_len_sum := 0 } }) := by
    intro ll hll hle
    unfold mbHeader
    simp only [hm, ha, f1, f2, f3, f4, hll]
    have h1 : ¬ (ll > 1024 * 1024) := by omega
    simp only [h1, char_star, ne_eq, not_true_eq_false, if_false, if_true]
  refine ⟨⟨?_, ?_⟩, hval⟩
  · intro h
    cases hll : string2ll text with
    | none => exact Or.inl rfl
    | some ll =>
      right
      refine ⟨ll, rfl, ?_⟩
      by_contra hle
      have := hval ll hll (by omega)
      rw [this] at h
      split_ifs at h
      · simp at h
      · simp at h
  · intro h
    unfold mbHeader
    simp only [hm, ha, f1, f2, f3, f4]
    rcases h with h | ⟨ll, h, hgt⟩
    · simp only [h, char_star, ne_eq, not_true_eq_false, if_false, if_true]
    · have h1 : ll > 1024 * 1024 := by omega
      simp only [h, h1, char_star, ne_eq, not_true_eq_false, if_false, if_true]

theorem bulk_toobig (env : Env) (st : State) (hb : st.c.bulklen = -1)
    (hstr : strchr (st.c.querybuf.drop st.c.qb_pos) CR = none)
    (hbig : unconsumed st.c > PROTO_INLINE_MAX_SIZE) :
    mbBulkLen env st = .done Ret.ERROR_FAILED
      (addReplyError env st "Protocol error: too big bulk count string") := by
  unfold mbBulkLen
  simp only [hb, hstr, hbig]
  simp

theorem bulk_not_dollar (env : Env) (st : State) (b : Nat) (text : List Nat) (x : Nat)
    (rest : List Nat) (hs : Sane st.c) (hbl : st.c.bulklen = -1)
    (hb : b ≠ 13 ∧ b ≠ 0) (hb2 : b ≠ 36) (ht : ∀ y ∈ text, y ≠ 13 ∧ y ≠ 0)
    (hd : st.c.querybuf.drop st.c.qb_pos = b :: text ++ CR :: x :: rest) :
    mbBulkLen env st = .done Ret.ERROR_FAILED st := by
  obtain ⟨f1, f2, f3, f4⟩ := line_facts st.c b text x rest hs hb ht hd
  unfold mbBulkLen
  simp only [hbl, f1, f2, f3]
  simp [hb2]

theorem bulk_reject_iff (env : Env) (st : State) (text : List Nat) (x : Nat) (rest : List Nat)
    (hs : Sane st.c) (hbl : st.c.bulklen = -1) (ht : ∀ y ∈ text, y ≠ 13 ∧ y ≠ 0)
    (hd : st.c.querybuf.drop st.c.qb_pos = 36 :: text ++ CR :: x :: rest) :
    (mbBulkLen env st = .done Ret.ERROR_FAILED st ↔
      (string2ll text = none ∨
        ∃ ll, string2ll text = some ll ∧ (ll < 0 ∨ ll > proto_max_bulk_len))) ∧
    (∀ ll, string2ll text = some ll → 0 ≤ ll → ll ≤ proto_max_bulk_len →
      ∃ q p, mbBulkLen env st =
          .next { st with c := { st.c with querybuf := q, qb_pos := p, bulklen := ll } } ∧
        q.drop p = st.c.querybuf.drop (st.c.qb_pos + (text.length + 1) + 2)) := by
  obtain ⟨f1, f2, f3, f4⟩ := line_facts st.c 36 text x rest hs (by decide) ht hd
  have hval : ∀ ll, string2ll text = some ll → 0 ≤ ll → ll ≤ proto_max_bulk_len →
      ∃ q p, mbBulkLen env st =
          .next { st with c := { st.c with querybuf := q, qb_pos := p, bulklen := ll } } ∧
        q.drop p = st.c.querybuf.drop (st.c.qb_pos + (text.length + 1) + 2) := by
    intro ll hll h0 hle
    unfold mbBulkLen
    simp only [hbl, f1, f2, f3, f4, hll]
    have h1 : ¬ (ll < 0 ∨ ll > proto_max_bulk_len) := by omega
    simp only [h1, char_dollar, ne_eq, not_true_eq_false, if_false, if_true, sdsrange]
    split_ifs with hcomp
    · exact ⟨_, _, rfl, by simp⟩
    · exact ⟨_, _, rfl, rfl⟩
  refine ⟨⟨?_, ?_⟩, hval⟩
  · intro h
    cases hll : string2ll text with
    | none => exact Or.inl rfl
    | some ll =>
      right
      refine ⟨ll, rfl, ?_⟩
      by_contra hle
      obtain ⟨q, p, h1, _⟩ := hval ll hll (by omega) (by omega)
      rw [h1] at h
      simp at h
  · intro h
    unfold mbBulkLen
    simp only [hbl, f1, f2, f3, f4]
    rcases h with h | ⟨ll, h, hgt⟩
    · simp only [h, char_dollar, ne_eq, not_true_eq_false, if_false, if_true]
    · simp only [h, hgt, char_dollar, ne_eq, not_true_eq_false, if_false, if_true]

theorem pmb_of_header_done (env : Env) (st st1 : State) (r : Ret)
    (h : mbHeader env st = .ok (.done r st1)) :
    processMultibulkBuffer env st = .ok (r, st1) := by
  unfold processMultibulkBuffer
  rw [h]

theorem pmb_of_bulk_done (env : Env) (st st1 : State) (r : Ret)
    (hm : st.c.multibulklen > 0) (h : mbBulkLen env st = .done r st1) :
    processMultibulkBuffer env st = .ok (r, st1) := by
  unfold processMultibulkBuffer
  rw [mbHeader_skip env st (by omega)]
  simp only [hm, if_true]
  have hne : st.c.multibulklen ≠ 0 := by omega
  simp only [mbLoop, hne, if_false, h]

theorem addReplyProto_trace (env : Env) (st : State) (s : List Nat) :
    (addReplyProto env st s).dispatched = st.dispatched ∧
      (addReplyProto env st s).invoked = st.invoked := by
  have hpd : (prepareClientToWrite st).dispatched = st.dispatched := by
    unfold prepareClientToWrite; split_ifs <;> rfl
  have hpi : (prepareClientToWrite st).invoked = st.invoked := by
    unfold prepareClientToWrite; split_ifs <;> rfl
  unfold addReplyProto
  simp only
  split <;> exact ⟨hpd, hpi⟩

theorem addReplyError_trace (env : Env) (st : State) (msg : String) :
    (addReplyError env st msg).dispatched = st.dispatched ∧
      (addReplyError env st msg).invoked = st.invoked := by
  unfold addReplyError addReplyErrorLength
  simp only
  split_ifs
  · obtain ⟨a1, a2⟩ := addReplyProto_trace env st (bytes "-ERR ")
    obtain ⟨b1, b2⟩ := addReplyProto_trace env (addReplyProto env st (bytes "-ERR ")) (bytes msg)
    obtain ⟨c1, c2⟩ := addReplyProto_trace env
      (addReplyProto env (addReplyProto env st (bytes "-ERR ")) (bytes msg)) [CR, LF]
    exact ⟨by rw [c1, b1, a1], by rw [c2, b2, a2]⟩
  · obtain ⟨b1, b2⟩ := addReplyProto_trace env st (bytes msg)
    obtain ⟨c1, c2⟩ := addReplyProto_trace env (addReplyProto env st (bytes msg)) [CR, LF]
    exact ⟨by rw [c1, b1], by rw [c2, b2]⟩

theorem trace_done (st st1 : State) (r : Ret)
    (h : st1.dispatched = st.dispatched ∧ st1.invoked = st.invoked) :
    (Step.done r st1).state.dispatched = st.dispatched ∧
      (Step.done r st1).state.invoked = st.invoked := h

theorem trace_next (st st1 : State)
    (h : st1.dispatched = st.dispatched ∧ st1.invoked = st.invoked) :
    (Step.next st1).state.dispatched = st.dispatched ∧
      (Step.next st1).state.invoked = st.invoked := h

theorem trace_of_ok (st : State) (step step1 : Step)
    (h : (Except.ok step1 : Except Fault Step) = .ok step)
    (h1 : step1.state.dispatched = st.dispatched ∧ step1.state.invoked = st.invoked) :
    step.state.dispatched = st.dispatched ∧ step.state.invoked = st.invoked := by
  have := Except.ok.inj h
  subst this
  exact h1

theorem trace_of_error (st : State) (step : Step) (f : Fault)
    (h : (Except.error f : Except Fault Step) = .ok step) :
    step.state.dispatched = st.dispatched ∧ step.state.invoked = st.invoked := by
  cases h

theorem mbHeader_trace (env : Env) (st : State) (step : Step)
    (h : mbHeader env st = .ok step) :
    step.state.dispatched = st.dispatched ∧ step.state.invoked = st.invoked := by
  have e1 := addReplyError_trace env st "Protocol error: too big mbulk count string"
  have e2 := addReplyError_trace env st "Protocol error: invalid multibulk length"
  unfold mbHeader at h
  simp only at h
  by_cases hm : st.c.multibulklen = 0
  · rw [if_pos hm] at h
    by_cases ha : st.c.argc ≠ 0
    · rw [if_pos ha] at h
      exact trace_of_error st step _ h
    · rw [if_neg ha] at h
      cases hstr : strchr (st.c.querybuf.drop st.c.qb_pos) CR with
      | none =>
        rw [hstr] at h
        simp only at h
        by_cases h0 : unconsumed st.c > PROTO_INLINE_MAX_SIZE
        · rw [if_pos h0] at h
          exact trace_of_ok st step _ h (trace_done _ _ _ e1)
        · rw [if_neg h0] at h
          exact trace_of_ok st step _ h (trace_done _ _ _ ⟨rfl, rfl⟩)
      | some off =>
        rw [hstr] at h
        simp only at h
        by_cases h1 : (off : Int) > toSSizeT (toSizeT ((unconsumed st.c : Int) - 2))
        · rw [if_pos h1] at h
          exact trace_of_ok st step _ h (trace_done _ _ _ ⟨rfl, rfl⟩)
        · rw [if_neg h1] at h
          by_cases h2 : (st.c.querybuf.drop st.c.qb_pos).head? ≠ some '*'.toNat
          · rw [if_pos h2] at h
            exact trace_of_error st step _ h
          · rw [if_neg h2] at h
            cases hll : string2ll ((st.c.querybuf.drop (st.c.qb_pos + 1)).take (off - 1)) with
            | none =>
              rw [hll] at h
              exact trace_of_ok st step _ h (trace_done _ _ _ e2)
            | some ll =>
              rw [hll] at h
              simp only at h
              by_cases h3 : ll > 1024 * 1024
              · rw [if_pos h3] at h
                exact trace_of_ok st step _ h (trace_done _ _ _ e2)
              · rw [if_neg h3] at h
                by_cases h4 : ll ≤ 0
                · rw [if_pos h4] at h
                  exact trace_of_ok st step _ h (trace_done _ _ _ ⟨rfl, rfl⟩)
                · rw [if_neg h4] at h
                  exact trace_of_ok st step _ h (trace_next _ _ ⟨rfl, rfl⟩)
  · rw [if_neg hm] at h
    exact trace_of_ok st step _ h (trace_next _ _ ⟨rfl, rfl⟩)

theorem mbBulkLen_trace (env : Env) (st : State) :
    (mbBulkLen env st).state.dispatched = st.dispatched ∧
      (mbBulkLen env st).state.invoked = st.invoked := by
  have e1 := addReplyError_trace env st "Protocol error: too big bulk count string"
  unfold mbBulkLen
  simp only
  by_cases hb : st.c.bulklen = -1
  · rw [if_pos hb]
    cases hstr : strchr (st.c.querybuf.drop st.c.qb_pos) CR with
    | none =>
      simp only
      by_cases h0 : unconsumed st.c > PROTO_INLINE_MAX_SIZE
      · rw [if_pos h0]; exact trace_done _ _ _ e1
      · rw [if_neg h0]; exact trace_done _ _ _ ⟨rfl, rfl⟩
    | some off =>
      simp only
      by_cases h1 : (off : Int) > toSSizeT (toSizeT ((unconsumed st.c : Int) - 2))
      · rw [if_pos h1]
        exact trace_done _ _ _ ⟨rfl, rfl⟩
      · rw [if_neg h1]
        by_cases h2 : (st.c.querybuf.drop st.c.qb_pos).head? ≠ some '$'.toNat
        · rw [if_pos h2]
          exact trace_done _ _ _ ⟨rfl, rfl⟩
        · rw [if_neg h2]
          cases hll : string2ll ((st.c.querybuf.drop (st.c.qb_pos + 1)).take (off - 1)) with
          | none => exact trace_done _ _ _ ⟨rfl, rfl⟩
          | some ll =>
            simp only
            by_cases h3 : ll < 0 ∨ ll > proto_max_bulk_len
            · rw [if_pos h3]
              exact trace_done _ _ _ ⟨rfl, rfl⟩
            · rw [if_neg h3]
              split_ifs <;> exact trace_next _ _ ⟨rfl, rfl⟩
  · rw [if_neg hb]
    exact trace_next _ _ ⟨rfl, rfl⟩

theorem mbBulkData_trace (st : State) :
    (mbBulkData st).state.dispatched = st.dispatched ∧
      (mbBulkData st).state.invoked = st.invoked := by
  unfold mbBulkData
  simp only
  split_ifs <;> exact ⟨rfl, rfl⟩

theorem mbLoop_trace (env : Env) :
    ∀ (fuel : Nat) (st st1 : State) (r : Ret), mbLoop env fuel st = .ok (r, st1) →
      st1.dispatched = st.dispatched ∧ st1.invoked = st.invoked := by
  intro fuel
  induction fuel with
  | zero => intro st st1 r h; simp [mbLoop] at h
  | succ fuel ih =>
    intro st st1 r h
    unfold mbLoop at h
    by_cases hm : st.c.multibulklen = 0
    · rw [if_pos hm] at h
      have := Except.ok.inj h
      rw [Prod.mk.injEq] at this
      rw [← this.2]
      exact ⟨rfl, rfl⟩
    · rw [if_neg hm] at h
      have t1 := mbBulkLen_trace env st
      generalize mbBulkLen env st = step1 at h t1
      cases step1 with
      | done r1 s1 =>
        simp only at h
        have := Except.ok.inj h
        rw [Prod.mk.injEq] at this
        rw [← this.2]
        exact t1
      | next s1 =>
        simp only at h
        have t2 := mbBulkData_trace s1
        generalize mbBulkData s1 = step2 at h t2
        cases step2 with
        | done r2 s2 =>
          simp only at h
          have := Except.ok.inj h
          rw [Prod.mk.injEq] at this
          rw [← this.2]
          exact ⟨t2.1.trans t1.1, t2.2.trans t1.2⟩
        | next s2 =>
          simp only at h
          have t3 := ih s2 st1 r h
          exact ⟨t3.1.trans (t2.1.trans t1.1), t3.2.trans (t2.2.trans t1.2)⟩

theorem processMultibulkBuffer_trace (env : Env) (st st1 : State) (r : Ret)
    (h : processMultibulkBuffer env st = .ok (r, st1)) :
    st1.dispatched = st.dispatched ∧ st1.invoked = st.invoked := by
  unfold processMultibulkBuffer at h
  cases hh : mbHeader env st with
  | error f => rw [hh] at h; simp at h
  | ok step =>
    have t1 := mbHeader_trace env st step hh
    rw [hh] at h
    cases step with
    | done r1 s1 =>
      simp only at h
      have := Except.ok.inj h
      rw [Prod.mk.injEq] at this
      rw [← this.2]
      exact t1
    | next s1 =>
      simp only at h
      by_cases hpos : s1.c.multibulklen > 0
      · rw [if_pos hpos] at h
        have t2 := mbLoop_trace env _ s1 st1 r h
        exact ⟨t2.1.trans t1.1, t2.2.trans t1.2⟩
      · rw [if_neg hpos] at h
        simp at h

theorem classify_trace (st : State) :
    (classify st).dispatched = st.dispatched ∧ (classify st).invoked = st.invoked := by
  unfold classify
  split_ifs <;> exact ⟨rfl, rfl⟩

theorem trim_trace (st : State) :
    (trimQuerybuf st).dispatched = st.dispatched ∧ (trimQuerybuf st).invoked = st.invoked := by
  unfold trimQuerybuf
  split_ifs <;> exact ⟨rfl, rfl⟩

/-- A failure of `processMultibulkBuffer` ends `processInputBuffer` without a
call of `processCommand`. -/
theorem processInputLoop_failed (env : Env) (fuel : Nat) (st st2 : State)
    (hlt : st.c.qb_pos < st.c.querybuf.length)
    (hreq : (classify st).c.reqtype = ReqType.PROTO_REQ_MULTIBULK)
    (h : processMultibulkBuffer env (classify st) = .ok (Ret.ERROR_FAILED, st2)) :
    processInputLoop env (fuel + 1) st = .ok (trimQuerybuf st2) ∧
      (trimQuerybuf st2).dispatched = st.dispatched ∧
      (trimQuerybuf st2).invoked = st.invoked := by
  have t1 := processMultibulkBuffer_trace env _ _ _ h
  have t2 := classify_trace st
  have t3 := trim_trace st2
  refine ⟨?_, by rw [t3.1, t1.1, t2.1], by rw [t3.2, t1.2, t2.2]⟩
  simp only [processInputLoop, hlt, if_true, hreq, h]

/-- What `addReplyError` appends for a message that does not start with `-`. -/
theorem addReplyError_output (env : Env) (st : State) (msg : String) (hwf : ReplyWF st.c)
    (hmsg : (bytes msg).head? ≠ some '-'.toNat) :
    outputStream (addReplyError env st msg).c =
      outputStream st.c ++ bytes "-ERR " ++ bytes msg ++ bytes "\r\n" :=
  (addReplyErrorLength_spec env st (bytes msg) hwf).1 hmsg

/-- An input that does not start with `*` on a client between commands: the
loop classifies it as INLINE and still goes on to `processCommand`, which
reads `argv[0]` of a client that holds no argument. -/
theorem inline_reaches_processCommand (env : Env) (st : State) (fuel : Nat)
    (hreq : st.c.reqtype = ReqType.unset) (hargv : st.c.argv = [])
    (hlt : st.c.qb_pos < st.c.querybuf.length)
    (hne : (st.c.querybuf.drop st.c.qb_pos).head? ≠ some '*'.toNat) :
    (classify st).c.reqtype = ReqType.PROTO_REQ_INLINE ∧
      processInputLoop env (fuel + 1) st = .error Fault.argv0_invalid := by
  have hc : classify st =
      { st with c := { st.c with reqtype := ReqType.PROTO_REQ_INLINE } } := by
    unfold classify
    rw [if_pos hreq, if_neg hne]
  have hrun : runCommand env (classify st) = .error Fault.argv0_invalid := by
    rw [hc]
    unfold runCommand processCommand
    simp only [hargv]
  refine ⟨by rw [hc], ?_⟩
  have hr : (classify st).c.reqtype ≠ ReqType.PROTO_REQ_MULTIBULK := by
    rw [hc]; simp
  simp only [processInputLoop, hlt, if_true, hr, if_false, hrun]

/-- C4, the code at the input `PING\r\n` on a fresh client: the request is
classified as INLINE, and `processInputBuffer` then calls `processCommand`,
whose first statement reads `c->argv[0]` although no argument was parsed. -/
theorem C4_inline_reaches_processCommand :
    (classify (received "PING\r\n")).c.reqtype = ReqType.PROTO_REQ_INLINE ∧
    (∀ env : Env, runCommand env (classify (received "PING\r\n")) =
      .error Fault.argv0_invalid) ∧
    (∀ env : Env, processInputBuffer env (received "PING\r\n") =
      .error Fault.argv0_invalid) :=
  ⟨rfl, fun _ => rfl, fun _ => rfl⟩

/-- C5, the code at the input `*0\r\n` on a fresh client:
`processMultibulkBuffer` consumes the four bytes and returns success with no
argument stored, and `processInputBuffer` then calls `processCommand`, whose
first statement reads `c->argv[0]`. -/
theorem C5_empty_multibulk_reaches_processCommand :
    (∀ env : Env, ∃ st1, processMultibulkBuffer env (received "*0\r\n") =
        .ok (Ret.ERROR_SUCCESS, st1) ∧
      st1.c.qb_pos = 4 ∧ st1.c.argc = 0 ∧ st1.c.argv = [] ∧ st1.c.multibulklen = 0 ∧
      st1.c.bulklen = -1 ∧ runCommand env st1 = .error Fault.argv0_invalid) ∧
    (∀ env : Env, processInputBuffer env (received "*0\r\n") =
      .error Fault.argv0_invalid) :=
  ⟨fun _ => ⟨_, rfl, rfl, rfl, rfl, rfl, rfl, rfl⟩, fun _ => rfl⟩

/-- C10, the code at the unknown command `foo` and at an arity mismatch:
`processCommand` returns without `resetClient`, so `argc` stays 1 and
`reqtype` stays MULTIBULK; the next command on the connection then fails
`assert(c->argc == 0)` in `processMultibulkBuffer`. -/
theorem C10_unknown_command_not_reset :
    (∃ st1, processInputBuffer exampleEnv (received "*1\r\n$3\r\nfoo\r\n") = .ok st1 ∧
      st1.c.argc = 1 ∧ st1.c.argv = [bytes "foo"] ∧
      st1.c.reqtype = ReqType.PROTO_REQ_MULTIBULK ∧
      st1.dispatched = [(1, [bytes "foo"])] ∧ st1.invoked = []) ∧
    processInputBuffer exampleEnv (received "*1\r\n$3\r\nfoo\r\n*1\r\n$4\r\ntest\r\n") =
      .error Fault.assert_argc_zero ∧
    (∃ st1, processInputBuffer
        { lookupCommand := fun _ => some { name := bytes "foo", proc := 0, arity := 3 },
          proc := fun _ s c => (s, c), slack := fun _ => 0 }
        (received "*1\r\n$3\r\nfoo\r\n") = .ok st1 ∧
      st1.c.argc = 1 ∧ st1.c.reqtype = ReqType.PROTO_REQ_MULTIBULK ∧ st1.invoked = []) :=
  ⟨⟨_, rfl, rfl, rfl, rfl, rfl, rfl⟩, rfl, ⟨_, rfl, rfl, rfl, rfl⟩⟩

/-! ## Command dispatch -/

/-- What `processCommand` does on a client whose `argv[0]` is there. -/
theorem processCommand_spec (env : Env) (st : State) (name : List Nat) (rest : List (List Nat))
    (h : st.c.argv = name :: rest) :
    (env.lookupCommand name = none →
      processCommand env st = .ok { st with
        c := { st.c with cmd := none, lastcmd := none },
        dispatched := st.dispatched ++ [(st.c.argc, st.c.argv)] }) ∧
    (∀ cmd, env.lookupCommand name = some cmd → ¬ arityOk cmd st.c.argc →
      processCommand env st = .ok { st with
        c := { st.c with cmd := some cmd, lastcmd := some cmd },
        dispatched := st.dispatched ++ [(st.c.argc, st.c.argv)] }) ∧
    (∀ cmd, env.lookupCommand name = some cmd → arityOk cmd st.c.argc →
      processCommand env st = .ok
        { server := (env.proc cmd.proc st.server
              { st.c with cmd := some cmd, lastcmd := some cmd }).1,
          c := resetClient (env.proc cmd.proc st.server
              { st.c with cmd := some cmd, lastcmd := some cmd }).2,
          dispatched := st.dispatched ++ [(st.c.argc, st.c.argv)],
          invoked := st.invoked ++ [(cmd.proc, st.c.argv)] }) := by
  refine ⟨?_, ?_, ?_⟩
  · intro hl
    simp only [processCommand, h, hl]
  · intro cmd hl ha
    unfold arityOk at ha
    simp only [processCommand, h, hl]
    rw [if_pos (not_not.mp ha)]
  · intro cmd hl ha
    unfold arityOk at ha
    simp only [processCommand, h, hl]
    rw [if_neg ha]

/-- The static table finds `test`. -/
theorem lookup_test :
    lookupCommand (bytes "test") = some { name := bytes "test", proc := 0, arity := 0 } := by
  decide

/-- The static table finds `command`. -/
theorem lookup_command :
    lookupCommand (bytes "command") = some { name := bytes "command", proc := 1, arity := -1 } := by
  decide

/-- C11, as stated, fails: for the unknown command `foo` (not in the static
table) `processCommand` returns with the client's reply output still empty, and
so it does for `set` with two arguments against an entry `set` of arity 3: no
error line is appended in either case. -/
theorem C11_counterexample :
    (exampleEnv.lookupCommand (bytes "foo") = none ∧
      ∃ st1, processCommand exampleEnv (parsedState [bytes "foo", bytes "bar"]) = .ok st1 ∧
        outputStream st1.c = [] ∧ st1.c.bufpos = 0 ∧ st1.c.reply = []) ∧
    (arityEnv.lookupCommand (bytes "set") = some { name := bytes "set", proc := 7, arity := 3 } ∧
      ∃ st1, processCommand arityEnv (parsedState [bytes "set", bytes "k"]) = .ok st1 ∧
        outputStream st1.c = [] ∧ st1.c.bufpos = 0 ∧ st1.c.reply = []) := by
  refine ⟨⟨by decide, _, rfl, by decide, rfl, rfl⟩, ⟨by decide, _, rfl, by decide, rfl, rfl⟩⟩

/-- C11, amended: for every client with `argv[0]` there, if `argv[0]` matches no
entry of the command dictionary, or the entry is found and `argc` violates its
arity, `processCommand` returns without invoking a handler and leaves the
client's reply output (inline slab, `bufpos`, reply chain) and the server as
they were; only `cmd` and `lastcmd` are set to the result of the lookup. -/
theorem C11_no_reply_no_handler (env : Env) (st : State) (name : List Nat)
    (rest : List (List Nat)) (h : st.c.argv = name :: rest)
    (hbad : env.lookupCommand name = none ∨
      ∃ cmd, env.lookupCommand name = some cmd ∧ ¬ arityOk cmd st.c.argc) :
    ∃ st1, processCommand env st = .ok st1 ∧
      st1.invoked = st.invoked ∧
      outputStream st1.c = outputStream st.c ∧
      st1.c.buf = st.c.buf ∧ st1.c.bufpos = st.c.bufpos ∧ st1.c.reply = st.c.reply ∧
      st1.server = st.server ∧
      st1.c = { st.c with cmd := env.lookupCommand name, lastcmd := env.lookupCommand name } := by
  rcases hbad with hl | ⟨cmd, hl, ha⟩
  · refine ⟨_, (processCommand_spec env st name rest h).1 hl, rfl, rfl, rfl, rfl, rfl, rfl, ?_⟩
    rw [hl]
  · refine ⟨_, (processCommand_spec env st name rest h).2.1 cmd hl ha, rfl, rfl, rfl, rfl, rfl,
      rfl, ?_⟩
    rw [hl]

/-- Witness of C11 (amended): the unknown command `foo`. -/
theorem C11_no_reply_no_handler_witness :
    ∃ st1, processCommand exampleEnv (parsedState [bytes "foo"]) = .ok st1 ∧
      st1.invoked = (parsedState [bytes "foo"]).invoked ∧
      outputStream st1.c = outputStream (parsedState [bytes "foo"]).c ∧
      st1.c.buf = (parsedState [bytes "foo"]).c.buf ∧
      st1.c.bufpos = (parsedState [bytes "foo"]).c.bufpos ∧
      st1.c.reply = (parsedState [bytes "foo"]).c.reply ∧
      st1.server = (parsedState [bytes "foo"]).server ∧
      st1.c = { (parsedState [bytes "foo"]).c with
        cmd := exampleEnv.lookupCommand (bytes "foo"),
        lastcmd := exampleEnv.lookupCommand (bytes "foo") } :=
  C11_no_reply_no_handler exampleEnv (parsedState [bytes "foo"]) (bytes "foo") [] rfl
    (Or.inl (by decide))

/-- C12: for every client with `argv[0]` there, `processCommand` returns, and it
invokes a handler (exactly one entry is added to the record of handler calls:
the handler of the descriptor, on this client) if and only if `lookupCommand`
finds a descriptor for `argv[0]` and `argc` equals the arity when the arity is
positive and is at least `|arity|` when it is negative; otherwise no handler is
invoked.  With the static table, `test` and `command` are invoked for every
`argc ≥ 1`. -/
theorem C12_handler_iff_found_and_arity :
    (∀ (env : Env) (st : State) (name : List Nat) (rest : List (List Nat)),
      st.c.argv = name :: rest →
      ∃ st1, processCommand env st = .ok st1 ∧
        ((∃ cmd, env.lookupCommand name = some cmd ∧
            (cmd.arity > 0 → (st.c.argc : Int) = cmd.arity) ∧
            (cmd.arity < 0 → (st.c.argc : Int) ≥ |cmd.arity|)) ↔
          st1.invoked.length = st.invoked.length + 1) ∧
        (∀ cmd, env.lookupCommand name = some cmd →
          (cmd.arity > 0 → (st.c.argc : Int) = cmd.arity) →
          (cmd.arity < 0 → (st.c.argc : Int) ≥ |cmd.arity|) →
          st1.invoked = st.invoked ++ [(cmd.proc, st.c.argv)] ∧
          st1.server = (env.proc cmd.proc st.server
              { st.c with cmd := some cmd, lastcmd := some cmd }).1 ∧
          st1.c = resetClient (env.proc cmd.proc st.server
              { st.c with cmd := some cmd, lastcmd := some cmd }).2) ∧
        (¬ (∃ cmd, env.lookupCommand name = some cmd ∧
            (cmd.arity > 0 → (st.c.argc : Int) = cmd.arity) ∧
            (cmd.arity < 0 → (st.c.argc : Int) ≥ |cmd.arity|)) →
          st1.invoked = st.invoked)) ∧
    (∀ (proc : Nat → respServer → client → respServer × client) (slack : Nat → Nat)
        (st : State) (rest : List (List Nat)), 1 ≤ st.c.argc →
      (st.c.argv = bytes "test" :: rest →
        ∃ st1, processCommand (staticEnv proc slack) st = .ok st1 ∧
          st1.invoked = st.invoked ++ [(0, st.c.argv)]) ∧
      (st.c.argv = bytes "command" :: rest →
        ∃ st1, processCommand (staticEnv proc slack) st = .ok st1 ∧
          st1.invoked = st.invoked ++ [(1, st.c.argv)])) := by
  have key : ∀ (cmd : respCommand) (argc : Nat), arityOk cmd argc ↔
      ((cmd.arity > 0 → (argc : Int) = cmd.arity) ∧ (cmd.arity < 0 → (argc : Int) ≥ |cmd.arity|)) := by
    intro cmd argc
    unfold arityOk
    constructor
    · intro h
      refine ⟨fun hp => ?_, fun hn => ?_⟩
      · by_contra hne
        exact h (Or.inl ⟨hp, fun e => hne e.symm⟩)
      · rw [abs_of_neg hn]
        by_contra hlt
        exact h (Or.inr (by omega))
    · rintro ⟨h1, h2⟩ (⟨hp, hne⟩ | hlt)
      · exact hne (h1 hp).symm
      · have hn : cmd.arity < 0 := by omega
        have := h2 hn
        rw [abs_of_neg hn] at this
        omega
  refine ⟨?_, ?_⟩
  · intro env st name rest h
    obtain ⟨s1, s2, s3⟩ := processCommand_spec env st name rest h
    cases hl : env.lookupCommand name with
    | none =>
      refine ⟨_, s1 hl, ⟨?_, ?_⟩, ?_, ?_⟩
      · rintro ⟨cmd, hc, _⟩
        exact absurd hc (by simp)
      · intro hlen
        simp at hlen
      · intro cmd hc
        exact absurd hc (by simp)
      · intro _
        rfl
    | some cmd =>
      by_cases ha : arityOk cmd st.c.argc
      · refine ⟨_, s3 cmd hl ha, ⟨fun _ => ?_, fun _ => ⟨cmd, rfl, (key _ _).mp ha⟩⟩, ?_, ?_⟩
        · simp
        · intro cmd1 hc _ _
          cases hc
          exact ⟨rfl, rfl, rfl⟩
        · intro hno
          exact absurd ⟨cmd, rfl, (key _ _).mp ha⟩ hno
      · refine ⟨_, s2 cmd hl ha, ⟨?_, ?_⟩, ?_, ?_⟩
        · rintro ⟨cmd1, hc, h12⟩
          cases hc
          exact absurd ((key _ _).mpr h12) ha
        · intro hlen
          simp at hlen
        · intro cmd1 hc h1 h2
          cases hc
          exact absurd ((key _ _).mpr ⟨h1, h2⟩) ha
        · intro _
          rfl
  · intro proc slack st rest hargc
    refine ⟨fun h => ?_, fun h => ?_⟩
    · have hl : (staticEnv proc slack).lookupCommand (bytes "test") =
          some { name := bytes "test", proc := 0, arity := 0 } := lookup_test
      have ha : arityOk { name := bytes "test", proc := 0, arity := 0 } st.c.argc := by
        unfold arityOk
        simp
      exact ⟨_, (processCommand_spec _ st _ rest h).2.2 _ hl ha, rfl⟩
    · have hl : (staticEnv proc slack).lookupCommand (bytes "command") =
          some { name := bytes "command", proc := 1, arity := -1 } := lookup_command
      have ha : arityOk { name := bytes "command", proc := 1, arity := -1 } st.c.argc := by
        unfold arityOk
        simp
        omega
      exact ⟨_, (processCommand_spec _ st _ rest h).2.2 _ hl ha, rfl⟩

/-- Witness of C12: `test` with one more argument is invoked once, handler 0. -/
theorem C12_handler_iff_found_and_arity_witness :
    ∃ st1, processCommand exampleEnv (parsedState [bytes "test", bytes "x"]) = .ok st1 ∧
      st1.invoked = [(0, [bytes "test", bytes "x"])] ∧
      st1.invoked.length = (parsedState [bytes "test", bytes "x"]).invoked.length + 1 := by
  obtain ⟨st1, h, hiff, hyes, _⟩ := C12_handler_iff_found_and_arity.1 exampleEnv
    (parsedState [bytes "test", bytes "x"]) (bytes "test") [bytes "x"] rfl
  have h1 := hyes { name := bytes "test", proc := 0, arity := 0 } lookup_test
    (by decide) (by decide)
  exact ⟨st1, h, h1.1, by rw [h1.1]; rfl⟩

/-! ## The event registration after a flush, and unlinking a client -/

/-- C14, evaluated: the client of descriptor 5, registered for readable and
writable readiness, has two unsent reply bytes; `writeToClient(c, 1)` writes
both and returns `C_OK` with no pending replies, and the event loop is left
with the readable registration of descriptor 5 removed and the writable one
still there: `deleteFileEvent` is called with `EVENT_READABLE`. -/
theorem C14_readable_removed_writable_kept :
    exampleHandlerState.server.el = [{ fd := 5, readable := true, writable := true }] ∧
    ∃ run, writeToClient exampleHandlerState [WriteResult.wrote 2] true =
        .ok (Ret.ERROR_SUCCESS, run) ∧
      clientHasPendingReplies run.st.c = false ∧
      run.wire = [2, 3] ∧
      run.st.server.el = [{ fd := 5, readable := false, writable := true }] :=
  ⟨rfl, _, rfl, rfl, rfl, rfl⟩

/-- Erasing an entry that occurs once keeps exactly the other entries. -/
theorem erase_of_count_one (l : List Nat) (a : Nat) (h : l.count a = 1) :
    l.erase a = l.filter (fun x => x ≠ a) := by
  induction l with
  | nil => simp at h
  | cons x xs ih =>
    by_cases hx : x = a
    · subst hx
      have h0 : xs.count x = 0 := by simpa using h
      have hnot : x ∉ xs := List.count_eq_zero.mp h0
      rw [List.erase_cons_head]
      simp only [ne_eq, not_true_eq_false, decide_False, Bool.false_eq_true, not_false_eq_true,
        List.filter_cons_of_neg]
      symm
      rw [List.filter_eq_self]
      intro y hy
      simp only [ne_eq, decide_not, Bool.not_eq_eq_eq_not, Bool.not_true, decide_eq_false_iff_not]
      rintro rfl
      exact hnot hy
    · have hc : xs.count a = 1 := by
        rw [List.count_cons_of_ne (fun e => hx e.symm)] at h
        exact h
      rw [List.erase_cons_tail (by simpa using hx), ih hc]
      simp [hx]

/-- `unlinkClient` applied twice is `unlinkClient` applied once, whatever
`connClose` does. -/
theorem unlinkClient_idem (k1 k2 : connection → List fileEvent → List fileEvent) (st : State) :
    unlinkClient k2 (unlinkClient k1 st) = unlinkClient k1 st := by
  unfold unlinkClient
  cases hc : st.c.conn with
  | none =>
    by_cases hcur : st.server.current_client = some st.c.id
    · simp [hc, hcur]
    · simp [hc, hcur]
  | some conn =>
    cases hn : st.c.client_list_node with
    | none =>
      by_cases hcur : st.server.current_client = some st.c.id
      · simp [hcur]
      · simp [hcur]
    | some node =>
      by_cases hcur : st.server.current_client = some st.c.id
      · simp [hcur]
      · simp [hcur]

/-- What `createClient(conn)` establishes: the new client is linked, provided
its id is not yet in `server.clients`. -/
theorem createClientOn_linked (server : respServer) (conn : connection) (buf : List Nat)
    (hfresh : (server.next_client_id + 1) % 2 ^ 64 ∉ server.clients) :
    Linked (createClientOn server conn buf).1 (createClientOn server conn buf).2 := by
  refine ⟨by simp [createClientOn, linkClient], rfl, ?_⟩
  simp only [createClientOn, linkClient, createClient, List.count_append]
  rw [List.count_eq_zero.mpr hfresh]
  simp

/-- C18: for every server state and linked client `c`, whatever `connClose`
does to the event loop, `unlinkClient` removes exactly `c` from
`server.clients` (the other entries stay, in their order), sets `c.conn` and
`c.client_list_node` to null and leaves the other fields of the client, the
write queue and the close queue as they were, clears `server.current_client`
if it was `c` and leaves it otherwise; and a second call changes nothing. -/
theorem C18_unlinkClient_idempotent
    (connClose : connection → List fileEvent → List fileEvent) (st : State)
    (hl : Linked st.server st.c) :
    (unlinkClient connClose st).server.clients =
        st.server.clients.filter (fun x => x ≠ st.c.id) ∧
      st.c.id ∉ (unlinkClient connClose st).server.clients ∧
      (unlinkClient connClose st).c = { st.c with conn := none, client_list_node := none } ∧
      (st.server.current_client = some st.c.id →
        (unlinkClient connClose st).server.current_client = none) ∧
      (st.server.current_client ≠ some st.c.id →
        (unlinkClient connClose st).server.current_client = st.server.current_client) ∧
      (unlinkClient connClose st).server.clients_pending_write =
        st.server.clients_pending_write ∧
      (unlinkClient connClose st).server.clients_to_close = st.server.clients_to_close ∧
      (∀ k2 : connection → List fileEvent → List fileEvent,
        unlinkClient k2 (unlinkClient connClose st) = unlinkClient connClose st) := by
  obtain ⟨hconn, hnode, hcount⟩ := hl
  obtain ⟨conn, hc⟩ : ∃ conn, st.c.conn = some conn := by
    cases hx : st.c.conn with
    | none => exact absurd hx hconn
    | some conn => exact ⟨conn, rfl⟩
  have hclients : (unlinkClient connClose st).server.clients =
      st.server.clients.filter (fun x => x ≠ st.c.id) := by
    rw [← erase_of_count_one _ _ hcount]
    unfold unlinkClient listDelNode
    simp only [hc, hnode]
    split_ifs <;> rfl
  refine ⟨hclients, ?_, ?_, ?_, ?_, ?_, ?_, fun k2 => unlinkClient_idem connClose k2 st⟩
  · rw [hclients]
    simp
  · unfold unlinkClient
    simp only [hc, hnode]
  · intro hcur
    unfold unlinkClient
    simp only [hc, hnode, hcur, if_true]
  · intro hcur
    unfold unlinkClient
    simp only [hc, hnode, hcur, if_false]
  · unfold unlinkClient
    simp only [hc, hnode]
    split_ifs <;> rfl
  · unfold unlinkClient
    simp only [hc, hnode]
    split_ifs <;> rfl

/-- Witness of C18: the second client of a server, which is the current one. -/
theorem C18_unlinkClient_idempotent_witness :
    (unlinkClient (fun _ el => el) exampleLinkedState).server.clients = [1] ∧
      (unlinkClient (fun _ el => el) exampleLinkedState).c.conn = none ∧
      (unlinkClient (fun _ el => el) exampleLinkedState).server.current_client = none ∧
      unlinkClient (fun _ el => el) (unlinkClient (fun _ el => el) exampleLinkedState) =
        unlinkClient (fun _ el => el) exampleLinkedState := by
  have h := C18_unlinkClient_idempotent (fun _ el => el) exampleLinkedState
    ⟨by decide, by decide, by decide⟩
  refine ⟨h.1.trans (by decide), ?_, h.2.2.2.1 (by decide), h.2.2.2.2.2.2.2 _⟩
  rw [h.2.2.1]

/-! ## Where `addReplyProto` puts the bytes -/

/-- `fillTail` on a chain with tail block `tail`. -/
theorem fillTail_snoc (init : List clientReplyBlock) (tail : clientReplyBlock) (s : List Nat)
    (h : tail.used ≤ tail.size) (hfit : tail.size < SIZE_MAX1) :
    fillTail (init ++ [tail]) s =
      (init ++ [{ tail with
          buf := memcpyAt tail.buf tail.used (s.take (min s.length (tail.size - tail.used))),
          used := tail.used + min s.length (tail.size - tail.used) }],
        s.drop (min s.length (tail.size - tail.used))) := by
  unfold fillTail
  have hav : toSizeT ((tail.size : Int) - (tail.used : Int)) = tail.size - tail.used :=
    toSizeT_sub _ _ h hfit
  have hcopy : (if toSizeT ((tail.size : Int) - (tail.used : Int)) ≥ s.length then s.length
      else toSizeT ((tail.size : Int) - (tail.used : Int))) =
      min s.length (tail.size - tail.used) := by
    rw [hav]
    split_ifs <;> omega
  have hlast : (init ++ [tail]).getLast? = some tail := by simp
  simp only [hlast, List.dropLast_concat, hcopy]

/-- The blocks `_addReplyProtoToList` appends after filling the tail. -/
theorem addReplyProtoToList_blocks (env : Env) (c : client) (s : List Nat) :
    (_addReplyProtoToList env c s).buf = c.buf ∧
      (_addReplyProtoToList env c s).bufpos = c.bufpos ∧
      ∃ extra, (_addReplyProtoToList env c s).reply = (fillTail c.reply s).1 ++ extra ∧
        NewBlocks (fillTail c.reply s).2 extra := by
  unfold _addReplyProtoToList
  simp only
  by_cases hlen : (fillTail c.reply s).2.length ≠ 0
  · rw [if_pos hlen]
    refine ⟨rfl, rfl, _, rfl, Or.inr ⟨fun e => hlen (by rw [e]; rfl), _, rfl, rfl, ?_, ?_⟩⟩
    · simp
    · simp only [clientReplyBlock.size, List.length_append, List.length_replicate]
      split_ifs <;> omega
  · rw [if_neg hlen]
    refine ⟨rfl, rfl, [], by simp, Or.inl ⟨?_, rfl⟩⟩
    exact List.length_eq_zero.mp (not_not.mp hlen)

/-- `prepareClientToWrite` leaves the client as it is. -/
theorem prepareClientToWrite_c (st : State) : (prepareClientToWrite st).c = st.c := by
  unfold prepareClientToWrite
  split_ifs <;> rfl

/-- When `_addReplyToBuffer` returns `C_OK`. -/
theorem addReplyToBuffer_iff (c : client) (s : List Nat) (hb : c.bufpos ≤ c.buf.length)
    (hfit : c.buf.length < SIZE_MAX1) :
    (_addReplyToBuffer c s =
        some { c with buf := memcpyAt c.buf c.bufpos s, bufpos := c.bufpos + s.length } ∧
      c.reply = [] ∧ s.length ≤ c.buf.length - c.bufpos) ∨
    (_addReplyToBuffer c s = none ∧ ¬ (c.reply = [] ∧ s.length ≤ c.buf.length - c.bufpos)) := by
  unfold _addReplyToBuffer
  have hav : toSizeT ((c.buf.length : Int) - (c.bufpos : Int)) = c.buf.length - c.bufpos :=
    toSizeT_sub _ _ hb hfit
  simp only [hav]
  by_cases hr : c.reply.length > 0
  · rw [if_pos hr]
    refine Or.inr ⟨rfl, fun h => ?_⟩
    rw [h.1] at hr
    simp at hr
  · rw [if_neg hr]
    have hnil : c.reply = [] := List.length_eq_zero.mp (by omega)
    by_cases hl : s.length > c.buf.length - c.bufpos
    · rw [if_pos hl]
      exact Or.inr ⟨rfl, fun h => by omega⟩
    · rw [if_neg hl]
      exact Or.inl ⟨rfl, hnil, by omega⟩

/-- C19: for every client whose reply side is well formed (`bufpos` within the
inline slab, `used ≤ size` in every block, capacities of type `size_t`) and
every `s`: `_addReplyToBuffer` takes the bytes (returns `C_OK`) if and only if
the reply chain is empty and `len ≤ sizeof(buf) - bufpos`; then `s` is copied
to `buf[bufpos..]`, `bufpos` grows by `len` and nothing else changes.
Otherwise the inline slab and `bufpos` are unchanged, the tail block (if there
is one) receives the first `min(len, size - used)` bytes at `buf[used..]`, and
only if bytes remain one new block is appended that holds exactly the remaining
bytes and has capacity at least `max(remaining, PROTO_REPLY_CHUNK_BYTES)`.
Every block keeps `used ≤ size`. -/
theorem C19_addReplyProto_placement (env : Env) (st : State) (s : List Nat)
    (hwf : ReplyWF st.c) (hfit : SizesFit st.c) :
    ((_addReplyToBuffer st.c s).isSome ↔
        (st.c.reply = [] ∧ s.length ≤ st.c.buf.length - st.c.bufpos)) ∧
    (st.c.reply = [] ∧ s.length ≤ st.c.buf.length - st.c.bufpos →
      (addReplyProto env st s).c =
          { st.c with buf := memcpyAt st.c.buf st.c.bufpos s,
                      bufpos := st.c.bufpos + s.length } ∧
        ((addReplyProto env st s).c.buf.drop st.c.bufpos).take s.length = s ∧
        (addReplyProto env st s).c.buf.take st.c.bufpos = st.c.buf.take st.c.bufpos ∧
        (addReplyProto env st s).c.buf.length = st.c.buf.length) ∧
    (¬ (st.c.reply = [] ∧ s.length ≤ st.c.buf.length - st.c.bufpos) →
      (addReplyProto env st s).c.buf = st.c.buf ∧
        (addReplyProto env st s).c.bufpos = st.c.bufpos ∧
        (st.c.reply = [] → NewBlocks s (addReplyProto env st s).c.reply) ∧
        (∀ init tail, st.c.reply = init ++ [tail] →
          ∃ tail1 extra, (addReplyProto env st s).c.reply = init ++ [tail1] ++ extra ∧
            tail1.used = tail.used + min s.length (tail.size - tail.used) ∧
            tail1.size = tail.size ∧
            tail1.buf.take tail1.used =
              tail.buf.take tail.used ++ s.take (min s.length (tail.size - tail.used)) ∧
            NewBlocks (s.drop (min s.length (tail.size - tail.used))) extra)) ∧
    (∀ b ∈ (addReplyProto env st s).c.reply, b.used ≤ b.size) := by
  have hdec := addReplyToBuffer_iff st.c s hwf.1 hfit.1
  refine ⟨?_, ?_, ?_, (addReplyProto_spec env st s hwf).2.1.2⟩
  · rcases hdec with ⟨h1, h2⟩ | ⟨h1, h2⟩
    · rw [h1]
      simp [h2]
    · rw [h1]
      simp only [Option.isSome_none, Bool.false_eq_true, false_iff]
      exact h2
  · intro hcond
    rcases hdec with ⟨h1, _⟩ | ⟨_, h2⟩
    · have hres : (addReplyProto env st s).c =
          { st.c with buf := memcpyAt st.c.buf st.c.bufpos s,
                      bufpos := st.c.bufpos + s.length } := by
        unfold addReplyProto
        simp only [prepareClientToWrite_c, h1]
      have hb := hwf.1
      have hs := hcond.2
      refine ⟨hres, ?_, ?_, ?_⟩
      · rw [hres]
        simp only [memcpyAt]
        rw [List.append_assoc, List.drop_append_of_le_length
          (by simp only [List.length_take]; omega)]
        rw [List.drop_of_length_le (by simp only [List.length_take]; omega)]
        simp
      · rw [hres]
        simp only [memcpyAt]
        rw [List.append_assoc, List.take_append_of_le_length
          (by simp only [List.length_take]; omega)]
        simp
      · rw [hres]
        exact memcpyAt_length _ _ _ (by omega)
    · exact absurd hcond h2
  · intro hcond
    rcases hdec with ⟨_, h2⟩ | ⟨h1, _⟩
    · exact absurd h2 hcond
    · have hres : (addReplyProto env st s).c = _addReplyProtoToList env st.c s := by
        unfold addReplyProto
        simp only [prepareClientToWrite_c, h1]
      obtain ⟨hbuf, hpos, extra, hrep, hnew⟩ := addReplyProtoToList_blocks env st.c s
      rw [hres]
      refine ⟨hbuf, hpos, ?_, ?_⟩
      · intro hnil
        have hft : fillTail st.c.reply s = ([], s) := by
          rw [hnil]
          rfl
        rw [hft] at hrep hnew
        rw [hrep]
        simpa using hnew
      · intro init tail hsplit
        have htwf : tail.used ≤ tail.size := hwf.2 tail (by rw [hsplit]; simp)
        have htfit : tail.size < SIZE_MAX1 := hfit.2 tail (by rw [hsplit]; simp)
        have hft := fillTail_snoc init tail s htwf htfit
        rw [hsplit] at hrep hnew
        rw [hft] at hrep hnew
        refine ⟨_, extra, hrep, rfl, ?_, ?_, hnew⟩
        · simp only [clientReplyBlock.size]
          apply memcpyAt_length
          simp only [List.length_take, clientReplyBlock.size] at htwf ⊢
          omega
        · have hlen : (s.take (min s.length (tail.size - tail.used))).length =
              min s.length (tail.size - tail.used) := by simp
          have := memcpyAt_take tail.buf tail.used
            (s.take (min s.length (tail.size - tail.used)))
            (by simp only [clientReplyBlock.size] at htwf; omega)
          rw [hlen] at this
          exact this

/-- Witness of C19: three bytes for a chain whose tail block has room for two. -/
theorem C19_addReplyProto_placement_witness :
    ∃ tail1 extra, (addReplyProto exampleEnv exampleChainState [1, 2, 3]).c.reply =
        [] ++ [tail1] ++ extra ∧
      tail1.used = 4 ∧ tail1.buf.take tail1.used = [7, 8, 1, 2] ∧ NewBlocks [3] extra := by
  obtain ⟨tail1, extra, h1, h2, _, h4, h5⟩ :=
    ((C19_addReplyProto_placement exampleEnv exampleChainState [1, 2, 3]
      ⟨by decide, by intro b hb; simp [exampleChainState, createClient] at hb; subst hb; decide⟩
      ⟨by decide, by intro b hb; simp [exampleChainState, createClient] at hb; subst hb; decide⟩).2.2.1
      (by decide)).2.2.2 [] ⟨2, [7, 8, 0, 0]⟩ rfl
  exact ⟨tail1, extra, h1, h2, h4, h5⟩

/-! ## The calls of `connWrite` made by a flush -/

/-- A call recorded for a pass is made from the client and the `totwritten` of
that pass. -/
theorem writeCallOf_from (run : WriteRun) (call : WriteCall) (h : writeCallOf run = some call) :
    call.c = run.st.c ∧ call.totwritten = run.totwritten := by
  unfold writeCallOf at h
  simp only at h
  split at h
  · split at h
    · exact absurd h (by simp)
    · cases h
      exact ⟨rfl, rfl⟩
  · split at h
    · exact absurd h (by simp)
    · split at h
      · exact absurd h (by simp)
      · split at h
        · exact absurd h (by simp)
        · cases h
          exact ⟨rfl, rfl⟩

/-- Every pass of the loop of `writeToClient` that ends without a fault obeys
`CallFacts`. -/
theorem writeBody_calls (run : WriteRun) (step : WriteStep) (h : writeBody run = .ok step) :
    CallFacts run step := by
  unfold writeBody at h
  simp only at h
  by_cases hb : run.st.c.bufpos > 0
  · rw [if_pos hb] at h
    cases hc : run.st.c.conn with
    | none =>
      rw [hc] at h
      exact absurd h (by simp)
    | some conn =>
      rw [hc] at h
      simp only at h
      have hcall : writeCallOf run = some
          { c := run.st.c, totwritten := run.totwritten,
            data := run.st.c.buf.drop run.st.c.sentlen,
            len := toSizeT ((run.st.c.bufpos : Int) - (run.st.c.sentlen : Int)),
            ret := (connWrite conn run.script (run.st.c.buf.drop run.st.c.sentlen)
                (toSizeT ((run.st.c.bufpos : Int) - (run.st.c.sentlen : Int)))).1 } := by
        unfold writeCallOf
        simp only [hb, if_true, hc]
      have hspec := connWrite_spec conn run.script (List.drop run.st.c.sentlen run.st.c.buf)
        (toSizeT ((run.st.c.bufpos : Int) - (run.st.c.sentlen : Int)))
      generalize connWrite conn run.script (List.drop run.st.c.sentlen run.st.c.buf)
        (toSizeT ((run.st.c.bufpos : Int) - (run.st.c.sentlen : Int))) = cw at h hspec hcall
      obtain ⟨n, conn1, script1, acc⟩ := cw
      simp only at h hspec hcall
      rcases hspec with ⟨hn, hacc, _⟩ | ⟨m, hn, hm0, hmc, hacc, _⟩
      · rw [if_pos hn] at h
        cases h
        subst hacc
        exact ⟨_, hcall, hn, rfl, rfl, by simp, rfl, conn1, rfl⟩
      · have hnpos : ¬ n ≤ 0 := by omega
        rw [if_neg hnpos] at h
        cases h
        have hnm : n.toNat = m := by omega
        refine ⟨_, hcall, by simp only; omega, rfl, rfl, ?_, by simp only; omega, rfl, ?_⟩
        · simp only [hnm, hacc]
        · simp only
          split_ifs <;> rfl
  · rw [if_neg hb] at h
    cases hr : run.st.c.reply with
    | nil =>
      rw [hr] at h
      exact absurd h (by simp)
    | cons o rest =>
      rw [hr] at h
      simp only at h
      by_cases hu : o.used = 0
      · rw [if_pos hu] at h
        cases h
        refine ⟨?_, rfl, rfl, rfl, rfl, rfl⟩
        unfold writeCallOf
        simp only [hb, if_false, hr, hu, if_true]
      · rw [if_neg hu] at h
        cases hc : run.st.c.conn with
        | none =>
          rw [hc] at h
          exact absurd h (by simp)
        | some conn =>
          rw [hc] at h
          simp only at h
          have hcall : writeCallOf run = some
              { c := run.st.c, totwritten := run.totwritten,
                data := o.buf.drop run.st.c.sentlen,
                len := toSizeT ((o.used : Int) - (run.st.c.sentlen : Int)),
                ret := (connWrite conn run.script (o.buf.drop run.st.c.sentlen)
                    (toSizeT ((o.used : Int) - (run.st.c.sentlen : Int)))).1 } := by
            unfold writeCallOf
            simp only [hb, if_false, hr, hu, hc]
          have hspec := connWrite_spec conn run.script (List.drop run.st.c.sentlen o.buf)
            (toSizeT ((o.used : Int) - (run.st.c.sentlen : Int)))
          generalize connWrite conn run.script (List.drop run.st.c.sentlen o.buf)
            (toSizeT ((o.used : Int) - (run.st.c.sentlen : Int))) = cw at h hspec hcall
          obtain ⟨n, conn1, script1, acc⟩ := cw
          simp only at h hspec hcall
          rcases hspec with ⟨hn, hacc, _⟩ | ⟨m, hn, hm0, hmc, hacc, _⟩
          · rw [if_pos hn] at h
            cases h
            subst hacc
            exact ⟨_, hcall, hn, rfl, rfl, by simp, rfl, conn1, by simp only [hr]⟩
          · have hnpos : ¬ n ≤ 0 := by omega
            rw [if_neg hnpos] at h
            have hnm : n.toNat = m := by omega
            by_cases hfull : run.st.c.sentlen + n.toNat = o.used
            · rw [if_pos hfull] at h
              split at h
              · exact absurd h (by simp)
              · cases h
                refine ⟨_, hcall, by simp only; omega, rfl, rfl, ?_, by simp only; omega, rfl,
                  rfl⟩
                simp only [hnm, hacc]
            · rw [if_neg hfull] at h
              cases h
              refine ⟨_, hcall, by simp only; omega, rfl, rfl, ?_, by simp only; omega, rfl,
                rfl⟩
              simp only [hnm, hacc]

/-- A call found in the record of a pass, as a member of its list. -/
theorem mem_writeCallOf (run : WriteRun) (call : WriteCall)
    (h : call ∈ (writeCallOf run).toList) : writeCallOf run = some call := by
  cases hw : writeCallOf run with
  | none => rw [hw] at h; simp at h
  | some w =>
    rw [hw] at h
    simp only [Option.toList_some, List.mem_singleton] at h
    rw [h]

/-- No call of `connWrite` is made once `totwritten` exceeds the budget: every
call of the loop, entered within the budget, is made within the budget. -/
theorem writeCalls_budget : ∀ (fuel : Nat) (run : WriteRun),
    run.totwritten ≤ NET_MAX_WRITES_PER_EVENT →
    ∀ call ∈ writeCalls fuel run, call.totwritten ≤ NET_MAX_WRITES_PER_EVENT := by
  intro fuel
  induction fuel with
  | zero =>
    intro run _ call hmem
    simp [writeCalls] at hmem
  | succ fuel ih =>
    intro run hle call hmem
    unfold writeCalls at hmem
    by_cases hp : clientHasPendingReplies run.st.c = true
    · rw [if_pos hp] at hmem
      have hself : call ∈ (writeCallOf run).toList → call.totwritten ≤ NET_MAX_WRITES_PER_EVENT := by
        intro hm
        rw [(writeCallOf_from run call (mem_writeCallOf run call hm)).2]
        exact hle
      cases hw : writeBody run with
      | error f =>
        rw [hw] at hmem
        exact hself hmem
      | ok step =>
        have hfacts := writeBody_calls run step hw
        rw [hw] at hmem
        cases step with
        | brk run1 => exact hself hmem
        | cont run1 =>
          simp only at hmem
          exact ih run1 (by rw [hfacts.2.2.1]; exact hle) call hmem
        | budget run1 =>
          simp only [List.mem_append] at hmem
          rcases hmem with hm | hm
          · exact hself hm
          · by_cases hover : run1.totwritten > NET_MAX_WRITES_PER_EVENT
            · rw [if_pos hover] at hm
              simp at hm
            · rw [if_neg hover] at hm
              exact ih run1 (by omega) call hm
    · rw [if_neg hp] at hmem
      simp at hmem

/-- The locals at the end of the loop of `writeToClient` against the last call
of `connWrite` the loop made. -/
theorem writeLoop_last : ∀ (fuel : Nat) (run run1 : WriteRun), writeLoop fuel run = .ok run1 →
    run1.st.server = run.st.server ∧ run1.st.c.id = run.st.c.id ∧
    ((writeCalls fuel run = [] ∧ run1.nwritten = run.nwritten ∧
        run1.totwritten = run.totwritten) ∨
     (∃ last, (writeCalls fuel run).getLast? = some last ∧ run1.nwritten = last.ret ∧
        (last.ret ≤ 0 → run1.totwritten = last.totwritten ∧
          ∃ conn1, run1.st.c = { last.c with conn := some conn1 }) ∧
        (0 < last.ret → run1.totwritten = last.totwritten + last.ret.toNat ∧
          last.ret.toNat ≤ last.len))) := by
  intro fuel
  induction fuel with
  | zero =>
    intro run run1 h
    simp [writeLoop] at h
  | succ fuel ih =>
    intro run run1 h
    unfold writeLoop at h
    unfold writeCalls
    by_cases hp : clientHasPendingReplies run.st.c = true
    · rw [if_pos hp] at h
      rw [if_pos hp]
      cases hw : writeBody run with
      | error f =>
        rw [hw] at h
        exact absurd h (by simp)
      | ok step =>
        have hfacts := writeBody_calls run step hw
        rw [hw] at h
        cases step with
        | brk run2 =>
          simp only at h
          cases h
          obtain ⟨call, hcall, hret, hnw, htot, _, hsrv, conn1, hc⟩ := hfacts
          obtain ⟨hcc, hct⟩ := writeCallOf_from run call hcall
          refine ⟨hsrv, by rw [hc], Or.inr ⟨call, by simp [hcall], hnw, fun _ => ⟨?_, conn1, ?_⟩,
            fun hpos => absurd hpos (by omega)⟩⟩
          · rw [htot, hct]
          · rw [hc, hcc]
        | cont run2 =>
          simp only at h ⊢
          obtain ⟨_, hnw, htot, _, hsrv, hid⟩ := hfacts
          obtain ⟨h1, h2, h3⟩ := ih run2 run1 h
          refine ⟨h1.trans hsrv, h2.trans hid, ?_⟩
          rcases h3 with ⟨e1, e2, e3⟩ | h3
          · exact Or.inl ⟨e1, e2.trans hnw, e3.trans htot⟩
          · exact Or.inr h3
        | budget run2 =>
          simp only at h ⊢
          obtain ⟨call, hcall, hret, hnw, htot, _, hlen, hsrv, hid⟩ := hfacts
          obtain ⟨hcc, hct⟩ := writeCallOf_from run call hcall
          by_cases hover : run2.totwritten > NET_MAX_WRITES_PER_EVENT
          · rw [if_pos hover] at h
            rw [if_pos hover]
            cases h
            refine ⟨hsrv, hid, Or.inr ⟨call, by simp [hcall], hnw,
              fun hneg => absurd hneg (by omega), fun _ => ⟨?_, hlen⟩⟩⟩
            rw [htot, hct]
          · rw [if_neg hover] at h
            rw [if_neg hover]
            obtain ⟨h1, h2, h3⟩ := ih run2 run1 h
            refine ⟨h1.trans hsrv, h2.trans hid, Or.inr ?_⟩
            rcases h3 with ⟨e1, e2, e3⟩ | ⟨last, hl, h4⟩
            · refine ⟨call, by simp [hcall, e1], e2.trans hnw,
                fun hneg => absurd hneg (by omega), fun _ => ⟨?_, hlen⟩⟩
              rw [e3, htot, hct]
            · refine ⟨last, ?_, h4⟩
              rw [List.getLast?_append, hl]
              rfl
    · rw [if_neg hp] at h
      rw [if_neg hp]
      cases h
      exact ⟨rfl, rfl, Or.inl ⟨rfl, rfl, rfl⟩⟩

/-- A call made from a client that satisfies the invariants of the reply side
offers no more than what is left of its chunk, and the bytes are there. -/
theorem call_bounds (run : WriteRun) (call : WriteCall) (hcall : writeCallOf run = some call)
    (hr : ReplyWF run.st.c) (hf : FlushWF run.st.c) :
    call.len ≤ call.chunk ∧ call.len ≤ call.data.length := by
  obtain ⟨_, hcur, _⟩ := hf
  unfold writeCallOf at hcall
  simp only at hcall
  by_cases hb : run.st.c.bufpos > 0
  · rw [if_pos hb] at hcall hcur
    cases hc : run.st.c.conn with
    | none => rw [hc] at hcall; exact absurd hcall (by simp)
    | some conn =>
      rw [hc] at hcall
      cases hcall
      have hsub := toSizeT_sub_le run.st.c.bufpos run.st.c.sentlen (by omega)
      have hbl := hr.1
      simp only [WriteCall.chunk, hb, if_true, List.length_drop]
      omega
  · rw [if_neg hb] at hcall hcur
    cases hrp : run.st.c.reply with
    | nil => rw [hrp] at hcall; exact absurd hcall (by simp)
    | cons o rest =>
      rw [hrp] at hcall hcur
      simp only at hcall hcur
      by_cases hu : o.used = 0
      · rw [if_pos hu] at hcall
        exact absurd hcall (by simp)
      · rw [if_neg hu] at hcall
        cases hc : run.st.c.conn with
        | none => rw [hc] at hcall; exact absurd hcall (by simp)
        | some conn =>
          rw [hc] at hcall
          cases hcall
          have hs : run.st.c.sentlen ≤ o.used := by omega
          have hsub := toSizeT_sub_le o.used run.st.c.sentlen hs
          have hwf : o.used ≤ o.size := hr.2 o (by rw [hrp]; simp)
          simp only [clientReplyBlock.size] at hwf
          simp only [WriteCall.chunk, hb, if_false, hrp, List.length_drop]
          omega

/-- Under the invariants of the reply side every call of the loop offers at
most its chunk, and `totwritten` counts the bytes put on the connection. -/
theorem writeLoop_wire (c0 : client) : ∀ (fuel : Nat) (run : WriteRun), WInv c0 run →
    run.wire.length = run.totwritten →
    (∀ call ∈ writeCalls fuel run, call.len ≤ call.chunk) ∧
    (∀ run1, writeLoop fuel run = .ok run1 → run1.wire.length = run1.totwritten) := by
  intro fuel
  induction fuel with
  | zero =>
    intro run _ _
    exact ⟨fun call hmem => by simp [writeCalls] at hmem, fun run1 h => by simp [writeLoop] at h⟩
  | succ fuel ih =>
    intro run hinv hwire
    unfold writeCalls writeLoop
    by_cases hp : clientHasPendingReplies run.st.c = true
    · rw [if_pos hp, if_pos hp]
      obtain ⟨step, hw, hpost⟩ : ∃ step, writeBody run = .ok step ∧ StepPost c0 run step := by
        by_cases hb : run.st.c.bufpos > 0
        · exact writeBody_slab c0 run hinv hb
        · exact writeBody_chain c0 run hinv hb hp
      have hfacts := writeBody_calls run step hw
      have hself : ∀ call, call ∈ (writeCallOf run).toList → call.len ≤ call.chunk := by
        intro call hm
        exact (call_bounds run call (mem_writeCallOf run call hm) hinv.rwf hinv.fwf).1
      rw [hw]
      cases step with
      | brk run2 =>
        simp only
        obtain ⟨call, hcall, _, _, htot, hwr, _⟩ := hfacts
        refine ⟨hself, fun run1 h => ?_⟩
        cases h
        rw [hwr, htot]
        exact hwire
      | cont run2 =>
        simp only
        obtain ⟨_, _, htot, hwr, _⟩ := hfacts
        exact ih run2 hpost.1 (by rw [hwr, htot]; exact hwire)
      | budget run2 =>
        simp only
        obtain ⟨call, hcall, hret, _, htot, hwr, hlen, _⟩ := hfacts
        have hb2 := (call_bounds run call hcall hinv.rwf hinv.fwf).2
        have hwire2 : run2.wire.length = run2.totwritten := by
          rw [hwr, htot, List.length_append, List.length_take]
          omega
        by_cases hover : run2.totwritten > NET_MAX_WRITES_PER_EVENT
        · rw [if_pos hover, if_pos hover]
          refine ⟨fun c hm => ?_, fun run1 h => ?_⟩
          · simp only [List.append_nil] at hm
            exact hself c hm
          · cases h
            exact hwire2
        · rw [if_neg hover, if_neg hover]
          obtain ⟨i1, i2⟩ := ih run2 hpost.1 hwire2
          refine ⟨fun c hm => ?_, i2⟩
          simp only [List.mem_append] at hm
          rcases hm with hm | hm
          · exact hself c hm
          · exact i1 c hm
    · rw [if_neg hp, if_neg hp]
      refine ⟨fun call hmem => by simp at hmem, fun run1 h => ?_⟩
      cases h
      exact hwire

/-- The statements of `writeToClient` after the loop, case by case, for a
client that has its connection. -/
theorem writeFinish_cases (run : WriteRun) (handler_installed : Bool) (conn : connection)
    (hc : run.st.c.conn = some conn) :
    (run.nwritten = -1 ∧ conn.state ≠ ConnState.CONN_STATE_CONNECTED ∧
      writeFinish run handler_installed =
        .ok (Ret.ERROR_FAILED, { run with st := freeClientAsync run.st })) ∨
    (¬ (run.nwritten = -1 ∧ conn.state ≠ ConnState.CONN_STATE_CONNECTED) ∧
      ∃ run2, writeFinish run handler_installed = .ok (Ret.ERROR_SUCCESS, run2) ∧
        run2.totwritten = run.totwritten ∧ run2.wire = run.wire ∧
        run2.nwritten = (if run.nwritten = -1 then 0 else run.nwritten) ∧
        run2.st.server.clients_to_close = run.st.server.clients_to_close ∧
        (clientHasPendingReplies run.st.c = true → run2.st = run.st) ∧
        (clientHasPendingReplies run.st.c = false →
          run2.st.c = { run.st.c with sentlen := 0 } ∧
          run2.st.server.el =
            (if handler_installed then deleteFileEvent run.st.server.el conn.fd true false
             else run.st.server.el))) := by
  have tail : ∀ nw : Int, ∃ run2,
      (if (!clientHasPendingReplies run.st.c) = true then
          (if handler_installed = true then
            (match run.st.c.conn with
              | none => (.error Fault.null_deref : Except Fault (Ret × WriteRun))
              | some conn =>
                .ok (Ret.ERROR_SUCCESS,
                  ⟨⟨{ run.st.server with
                        el := deleteFileEvent run.st.server.el conn.fd true false },
                      { run.st.c with sentlen := 0 }, run.st.dispatched, run.st.invoked⟩,
                    run.script, run.wire, nw, run.totwritten⟩))
          else .ok (Ret.ERROR_SUCCESS,
            ⟨⟨run.st.server, { run.st.c with sentlen := 0 }, run.st.dispatched,
                run.st.invoked⟩, run.script, run.wire, nw, run.totwritten⟩))
        else .ok (Ret.ERROR_SUCCESS,
          ⟨run.st, run.script, run.wire, nw, run.totwritten⟩)) = .ok (Ret.ERROR_SUCCESS, run2) ∧
        run2.totwritten = run.totwritten ∧ run2.wire = run.wire ∧ run2.nwritten = nw ∧
        run2.st.server.clients_to_close = run.st.server.clients_to_close ∧
        (clientHasPendingReplies run.st.c = true → run2.st = run.st) ∧
        (clientHasPendingReplies run.st.c = false →
          run2.st.c = { run.st.c with sentlen := 0 } ∧
          run2.st.server.el =
            (if handler_installed then deleteFileEvent run.st.server.el conn.fd true false
             else run.st.server.el)) := by
    intro nw
    by_cases hp : clientHasPendingReplies run.st.c = true
    · simp only [hp, Bool.not_true, Bool.false_eq_true, if_false]
      exact ⟨_, rfl, rfl, rfl, rfl, rfl, fun _ => rfl, fun h => absurd h (by simp)⟩
    · have hp2 : clientHasPendingReplies run.st.c = false := by simpa using hp
      simp only [hp2, Bool.not_false, if_true]
      cases handler_installed with
      | false =>
        simp only [Bool.false_eq_true, if_false]
        exact ⟨_, rfl, rfl, rfl, rfl, rfl, fun h => absurd h (by simp), fun _ => ⟨rfl, rfl⟩⟩
      | true =>
        simp only [if_true, hc]
        exact ⟨_, rfl, rfl, rfl, rfl, rfl, fun h => absurd h (by simp), fun _ => ⟨rfl, rfl⟩⟩
  by_cases hn : run.nwritten = -1
  · by_cases hs : conn.state = ConnState.CONN_STATE_CONNECTED
    · obtain ⟨run2, h, hrest⟩ := tail 0
      rw [if_pos hn]
      refine Or.inr ⟨fun hx => hx.2 hs, run2, ?_, hrest⟩
      unfold writeFinish
      simp only [hn, if_true, hc]
      simp only [hs, if_true]
      exact h
    · refine Or.inl ⟨hn, hs, ?_⟩
      unfold writeFinish
      simp only [hn, if_true, hc, hs, if_false]
  · obtain ⟨run2, h, hrest⟩ := tail run.nwritten
    rw [if_neg hn]
    refine Or.inr ⟨fun hx => hn hx.1, run2, ?_, hrest⟩
    unfold writeFinish
    simp only [hn, if_false]
    exact h

/-! ## The write budget and the error paths of `writeToClient` -/

/-- The loop of `writeToClient` under the invariants of the reply side: it
ends, and the run it ends with is tied to the last call of `connWrite`. -/
theorem writeToClient_loop (st : State) (script : List WriteResult) (hr : ReplyWF st.c)
    (hf : FlushWF st.c) :
    ∃ run1 conn, writeLoop (script.length + st.c.reply.length + 1)
        { st := st, script := script, wire := [], nwritten := 0, totwritten := 0 } = .ok run1 ∧
      WInv st.c run1 ∧ run1.st.c.conn = some conn ∧
      run1.wire.length = run1.totwritten ∧
      run1.st.server = st.server ∧ run1.st.c.id = st.c.id ∧
      (∀ call ∈ writeToClientCalls st script, call.len ≤ call.chunk) ∧
      ((writeToClientCalls st script = [] ∧ run1.nwritten = 0 ∧ run1.totwritten = 0) ∨
       (∃ last, (writeToClientCalls st script).getLast? = some last ∧ run1.nwritten = last.ret ∧
          (last.ret ≤ 0 → run1.totwritten = last.totwritten ∧
            ∃ conn1, run1.st.c = { last.c with conn := some conn1 }) ∧
          (0 < last.ret → run1.totwritten = last.totwritten + last.ret.toNat ∧
            last.ret.toNat ≤ last.len))) := by
  have hinit : WInv st.c (⟨st, script, [], 0, 0⟩ : WriteRun) :=
    ⟨by simp, hr, hf, ⟨0, by simp⟩, Or.inl ⟨rfl, rfl, by simp⟩⟩
  obtain ⟨run1, hloop, hinv⟩ := writeLoop_spec st.c (script.length + st.c.reply.length + 1)
    ⟨st, script, [], 0, 0⟩ (by simp only; omega) hinit
  obtain ⟨conn, hc⟩ : ∃ conn, run1.st.c.conn = some conn := by
    cases hx : run1.st.c.conn with
    | none => exact absurd hx hinv.fwf.1
    | some conn => exact ⟨conn, rfl⟩
  obtain ⟨hsrv, hid, hrel⟩ := writeLoop_last _ _ run1 hloop
  obtain ⟨hchunk, hwire⟩ := writeLoop_wire st.c (script.length + st.c.reply.length + 1)
    ⟨st, script, [], 0, 0⟩ hinit rfl
  exact ⟨run1, conn, hloop, hinv, hc, hwire run1 hloop, hsrv, hid, hchunk, hrel⟩

/-- C13: within one call of `writeToClient`, for every client state and every
behaviour of the connection, every call of `connWrite` is made while the bytes
written so far in the call do not exceed `NET_MAX_WRITES_PER_EVENT`; and for a
client that satisfies the invariants of the reply side the call returns with a
total (the bytes put on the connection) that is within the budget, or that is
the total before the last write, which was within the budget, plus what that
write took out of its chunk. -/
theorem C13_write_budget (st : State) (script : List WriteResult) (handler_installed : Bool) :
    (∀ call ∈ writeToClientCalls st script, call.totwritten ≤ NET_MAX_WRITES_PER_EVENT) ∧
    (ReplyWF st.c → FlushWF st.c →
      ∃ r run, writeToClient st script handler_installed = .ok (r, run) ∧
        run.wire.length = run.totwritten ∧
        (run.totwritten ≤ NET_MAX_WRITES_PER_EVENT ∨
          ∃ last, (writeToClientCalls st script).getLast? = some last ∧
            last.totwritten ≤ NET_MAX_WRITES_PER_EVENT ∧
            run.totwritten = last.totwritten + last.ret.toNat ∧
            last.ret.toNat ≤ last.chunk ∧
            run.totwritten ≤ NET_MAX_WRITES_PER_EVENT + last.chunk)) := by
  have hbudget : ∀ call ∈ writeToClientCalls st script,
      call.totwritten ≤ NET_MAX_WRITES_PER_EVENT :=
    writeCalls_budget _ _ (Nat.zero_le _)
  refine ⟨hbudget, fun hr hf => ?_⟩
  obtain ⟨run1, conn, hloop, _, hc, hwire, _, _, hchunk, hrel⟩ :=
    writeToClient_loop st script hr hf
  have hbound : run1.totwritten ≤ NET_MAX_WRITES_PER_EVENT ∨
      ∃ last, (writeToClientCalls st script).getLast? = some last ∧
        last.totwritten ≤ NET_MAX_WRITES_PER_EVENT ∧
        run1.totwritten = last.totwritten + last.ret.toNat ∧
        last.ret.toNat ≤ last.chunk ∧
        run1.totwritten ≤ NET_MAX_WRITES_PER_EVENT + last.chunk := by
    rcases hrel with ⟨_, _, h0⟩ | ⟨last, hl, _, hneg, hpos⟩
    · exact Or.inl (by omega)
    · have hmem := List.mem_of_getLast?_eq_some hl
      have hb := hbudget last hmem
      have hch := hchunk last hmem
      by_cases hret : last.ret ≤ 0
      · exact Or.inl (by rw [(hneg hret).1]; exact hb)
      · obtain ⟨h1, h2⟩ := hpos (by omega)
        exact Or.inr ⟨last, hl, hb, h1, by omega, by omega⟩
  have hto : writeToClient st script handler_installed = writeFinish run1 handler_installed := by
    unfold writeToClient
    rw [hloop]
  rcases writeFinish_cases run1 handler_installed conn hc with ⟨_, _, hfin⟩ | ⟨_, run2, hfin, h1, h2, _⟩
  · exact ⟨_, _, hto.trans hfin, hwire, hbound⟩
  · refine ⟨_, run2, hto.trans hfin, by rw [h1, h2]; exact hwire, ?_⟩
    rw [h1]
    exact hbound

/-- Witness of C13: two unsent bytes, of which the connection takes one. -/
theorem C13_write_budget_witness :
    ∃ r run, writeToClient exampleFlushState [WriteResult.wrote 1, WriteResult.again] false =
        .ok (r, run) ∧
      run.wire.length = run.totwritten ∧
      (run.totwritten ≤ NET_MAX_WRITES_PER_EVENT ∨
        ∃ last, (writeToClientCalls exampleFlushState
            [WriteResult.wrote 1, WriteResult.again]).getLast? = some last ∧
          last.totwritten ≤ NET_MAX_WRITES_PER_EVENT ∧
          run.totwritten = last.totwritten + last.ret.toNat ∧
          last.ret.toNat ≤ last.chunk ∧
          run.totwritten ≤ NET_MAX_WRITES_PER_EVENT + last.chunk) :=
  (C13_write_budget exampleFlushState [WriteResult.wrote 1, WriteResult.again] false).2
    ⟨by decide, by intro b hb; simp [exampleFlushState, createClient] at hb⟩
    ⟨by simp [exampleFlushState], by simp [exampleFlushState],
      by simp [exampleFlushState, createClient, SIZE_MAX1]⟩

/-- The unsent output does not depend on the connection. -/
theorem unsentOutput_conn (c : client) (conn : Option connection) :
    unsentOutput { c with conn := conn } = unsentOutput c := rfl

/-- A client without pending replies has no unsent output, whatever `sentlen` is. -/
theorem unsentOutput_idle (c : client) (hp : clientHasPendingReplies c = false) :
    unsentOutput c = [] ∧ unsentOutput { c with sentlen := 0 } = [] := by
  unfold clientHasPendingReplies at hp
  simp only [Bool.or_eq_false_iff, bne_eq_false_iff_eq, List.length_eq_zero] at hp
  exact ⟨unsent_idle c hp.1 hp.2, unsent_idle { c with sentlen := 0 } hp.1 hp.2⟩

/-- C15: for every client that satisfies the invariants of the reply side and
every behaviour of the connection, `writeToClient` returns `C_ERR` if and only
if its last `connWrite` returned -1 and the connection is then not in the state
`CONNECTED`; in that case the client is appended to `server.clients_to_close`
and its unsent output is what it was when that write was called.  When the
last `connWrite` returned -1 and the connection is still `CONNECTED`,
`writeToClient` returns `C_OK` with `nwritten` set to 0, the client is not
added to `clients_to_close`, and the unsent output and `totwritten` are what
they were when that write was called. -/
theorem C15_write_error_paths (st : State) (script : List WriteResult)
    (handler_installed : Bool) (hr : ReplyWF st.c) (hf : FlushWF st.c) :
    ∃ r run conn, writeToClient st script handler_installed = .ok (r, run) ∧
      run.st.c.conn = some conn ∧
      (r = Ret.ERROR_FAILED ↔
        ∃ last, (writeToClientCalls st script).getLast? = some last ∧ last.ret = -1 ∧
          conn.state ≠ ConnState.CONN_STATE_CONNECTED) ∧
      (r = Ret.ERROR_FAILED →
        run.st.server.clients_to_close = st.server.clients_to_close ++ [st.c.id] ∧
        ∀ last, (writeToClientCalls st script).getLast? = some last →
          unsentOutput run.st.c = unsentOutput last.c) ∧
      (∀ last, (writeToClientCalls st script).getLast? = some last → last.ret = -1 →
        conn.state = ConnState.CONN_STATE_CONNECTED →
        r = Ret.ERROR_SUCCESS ∧
          run.st.server.clients_to_close = st.server.clients_to_close ∧
          unsentOutput run.st.c = unsentOutput last.c ∧
          run.nwritten = 0 ∧ run.totwritten = last.totwritten) := by
  obtain ⟨run1, conn, hloop, _, hc, _, hsrv, hid, _, hrel⟩ :=
    writeToClient_loop st script hr hf
  have hto : writeToClient st script handler_installed = writeFinish run1 handler_installed := by
    unfold writeToClient
    rw [hloop]
  -- what the last call says about the locals at the end of the loop
  have hlast : ∀ last, (writeToClientCalls st script).getLast? = some last →
      run1.nwritten = last.ret ∧
      (last.ret ≤ 0 → run1.totwritten = last.totwritten ∧
        unsentOutput run1.st.c = unsentOutput last.c) := by
    intro last hl
    rcases hrel with ⟨hnil, _, _⟩ | ⟨last1, hl1, hnw, hneg, _⟩
    · rw [hnil] at hl
      simp at hl
    · rw [hl] at hl1
      cases hl1
      refine ⟨hnw, fun hret => ?_⟩
      obtain ⟨ht, conn1, hcc⟩ := hneg hret
      exact ⟨ht, by rw [hcc]; rfl⟩
  rcases writeFinish_cases run1 handler_installed conn hc with
    ⟨hn, hs, hfin⟩ | ⟨hnot, run2, hfin, h1, _, h3, h4, h5, h6⟩
  · refine ⟨_, _, conn, hto.trans hfin, hc, ⟨fun _ => ?_, fun _ => rfl⟩, fun _ => ⟨?_, ?_⟩, ?_⟩
    · rcases hrel with ⟨_, h0, _⟩ | ⟨last, hl, hnw, _⟩
      · rw [h0] at hn
        exact absurd hn (by decide)
      · exact ⟨last, hl, by rw [← hnw]; exact hn, hs⟩
    · simp only [freeClientAsync, hsrv, hid]
    · intro last hl
      obtain ⟨hnw, hneg⟩ := hlast last hl
      exact (hneg (by rw [← hnw, hn]; decide)).2
    · intro last _ _ hconn
      exact absurd hconn hs
  · refine ⟨_, run2, conn, hto.trans hfin, ?_, ⟨fun hr => absurd hr (by decide), ?_⟩,
      fun hr => absurd hr (by decide), ?_⟩
    · by_cases hp : clientHasPendingReplies run1.st.c = true
      · rw [h5 hp]
        exact hc
      · rw [(h6 (by simpa using hp)).1]
        exact hc
    · rintro ⟨last, hl, hret, hs⟩
      exact absurd ⟨by rw [(hlast last hl).1]; exact hret, hs⟩ hnot
    · intro last hl hret _
      obtain ⟨hnw, hneg⟩ := hlast last hl
      obtain ⟨ht, hu⟩ := hneg (by rw [hret]; decide)
      have hn : run1.nwritten = -1 := by rw [hnw]; exact hret
      refine ⟨rfl, by rw [h4, hsrv], ?_, by rw [h3, if_pos hn], by rw [h1, ht]⟩
      by_cases hp : clientHasPendingReplies run1.st.c = true
      · rw [h5 hp]
        exact hu
      · have hp2 : clientHasPendingReplies run1.st.c = false := by simpa using hp
        rw [(h6 hp2).1, (unsentOutput_idle run1.st.c hp2).2, ← hu,
          (unsentOutput_idle run1.st.c hp2).1]

/-- Witness of C15: the connection takes one byte and then fails. -/
theorem C15_write_error_paths_witness :
    ∃ r run conn, writeToClient exampleFlushState [WriteResult.wrote 1, WriteResult.failed] false = .ok (r, run) ∧
      run.st.c.conn = some conn ∧
      (r = Ret.ERROR_FAILED ↔
        ∃ last, (writeToClientCalls exampleFlushState [WriteResult.wrote 1, WriteResult.failed]).getLast? = some last ∧ last.ret = -1 ∧
          conn.state ≠ ConnState.CONN_STATE_CONNECTED) ∧
      (r = Ret.ERROR_FAILED →
        run.st.server.clients_to_close = exampleFlushState.server.clients_to_close ++ [exampleFlushState.c.id] ∧
        ∀ last, (writeToClientCalls exampleFlushState [WriteResult.wrote 1, WriteResult.failed]).getLast? = some last →
          unsentOutput run.st.c = unsentOutput last.c) ∧
      (∀ last, (writeToClientCalls exampleFlushState [WriteResult.wrote 1, WriteResult.failed]).getLast? = some last → last.ret = -1 →
        conn.state = ConnState.CONN_STATE_CONNECTED →
        r = Ret.ERROR_SUCCESS ∧
          run.st.server.clients_to_close = exampleFlushState.server.clients_to_close ∧
          unsentOutput run.st.c = unsentOutput last.c ∧
          run.nwritten = 0 ∧ run.totwritten = last.totwritten) :=
  C15_write_error_paths exampleFlushState [WriteResult.wrote 1, WriteResult.failed] false
    ⟨by decide, by intro b hb; simp [exampleFlushState, createClient] at hb⟩
    ⟨by simp [exampleFlushState], by simp [exampleFlushState],
      by simp [exampleFlushState, createClient, SIZE_MAX1]⟩

/-! ## The accounting of the reply chain -/

/-- The two ways `addReplyProto` goes. -/
theorem addReplyProto_shape (env : Env) (st : State) (s : List Nat) :
    (st.c.reply = [] ∧ (addReplyProto env st s).c =
        { st.c with buf := memcpyAt st.c.buf st.c.bufpos s, bufpos := st.c.bufpos + s.length }) ∨
    (addReplyProto env st s).c = _addReplyProtoToList env st.c s := by
  unfold addReplyProto
  simp only [prepareClientToWrite_c]
  cases hb : _addReplyToBuffer st.c s with
  | none => exact Or.inr rfl
  | some c1 =>
    left
    unfold _addReplyToBuffer at hb
    simp only at hb
    by_cases hr : st.c.reply.length > 0
    · rw [if_pos hr] at hb
      exact absurd hb (by simp)
    · rw [if_neg hr] at hb
      have hnil : st.c.reply = [] := List.length_eq_zero.mp (by omega)
      split at hb
      · exact absurd hb (by simp)
      · cases hb
        exact ⟨hnil, rfl⟩

/-- The head block after `fillTail` holds at least what it held. -/
theorem fillTail_head (o : clientReplyBlock) (rest : List clientReplyBlock) (s : List Nat) :
    ∃ o1 rest1, (fillTail (o :: rest) s).1 = o1 :: rest1 ∧ o.used ≤ o1.used := by
  unfold fillTail
  cases hlast : (o :: rest).getLast? with
  | none => exact ⟨o, rest, rfl, le_refl _⟩
  | some tail =>
    simp only
    cases rest with
    | nil =>
      simp only [List.getLast?_singleton, Option.some.injEq] at hlast
      subst hlast
      exact ⟨_, [], rfl, Nat.le_add_right _ _⟩
    | cons r rs =>
      exact ⟨o, _, rfl, le_refl _⟩

/-- What `_addReplyProtoToList` does to the accounting. -/
theorem addReplyProtoToList_acct (env : Env) (c : client) (s : List Nat)
    (hwf : ∀ b ∈ c.reply, b.used ≤ b.size) :
    (_addReplyProtoToList env c s).conn = c.conn ∧
    (_addReplyProtoToList env c s).sentlen = c.sentlen ∧
    (∃ k, ((_addReplyProtoToList env c s).reply.map clientReplyBlock.size).sum =
        (c.reply.map clientReplyBlock.size).sum + k ∧
      ((k = 0 ∧ (_addReplyProtoToList env c s).reply_bytes = c.reply_bytes) ∨
        (_addReplyProtoToList env c s).reply_bytes = (c.reply_bytes + k) % SIZE_MAX1)) ∧
    ((∀ b ∈ c.reply, 0 < b.size) → ∀ b ∈ (_addReplyProtoToList env c s).reply, 0 < b.size) ∧
    ((_addReplyProtoToList env c s).reply = [] → c.reply = []) ∧
    (∀ o rest, c.reply = o :: rest →
      ∃ o1 rest1, (_addReplyProtoToList env c s).reply = o1 :: rest1 ∧ o.used ≤ o1.used) := by
  obtain ⟨_, _, hlen, hsizes⟩ := fillTail_spec c.reply s hwf
  have hmem : (∀ b ∈ c.reply, 0 < b.size) → ∀ b ∈ (fillTail c.reply s).1, 0 < b.size := by
    intro hpos b hb
    have h1 : b.size ∈ (fillTail c.reply s).1.map clientReplyBlock.size := List.mem_map_of_mem _ hb
    rw [hsizes] at h1
    obtain ⟨b0, hb0, he⟩ := List.mem_map.mp h1
    rw [← he]
    exact hpos b0 hb0
  unfold _addReplyProtoToList
  simp only
  by_cases hl : (fillTail c.reply s).2.length ≠ 0
  · rw [if_pos hl]
    refine ⟨rfl, rfl, ⟨_, ?_, Or.inr rfl⟩, ?_, ?_, ?_⟩
    · simp only [List.map_append, List.sum_append, hsizes, List.map_cons, List.map_nil,
        List.sum_cons, List.sum_nil, Nat.add_zero]
    · intro hpos b hb
      simp only [List.mem_append, List.mem_singleton] at hb
      rcases hb with hb | hb
      · exact hmem hpos b hb
      · subst hb
        simp only [clientReplyBlock.size, List.length_append, List.length_replicate]
        have : 0 < PROTO_REPLY_CHUNK_BYTES := by decide
        split_ifs <;> omega
    · intro h
      simp at h
    · intro o rest hr
      obtain ⟨o1, rest1, h1, h2⟩ := fillTail_head o rest s
      rw [hr, h1]
      exact ⟨o1, _, rfl, h2⟩
  · rw [if_neg hl]
    refine ⟨rfl, rfl, ⟨0, by simp only [hsizes, Nat.add_zero], Or.inl ⟨rfl, rfl⟩⟩, ?_, ?_, ?_⟩
    · exact hmem
    · intro h
      simp only at h
      have := hlen
      rw [h] at this
      exact List.length_eq_zero.mp this.symm
    · intro o rest hr
      obtain ⟨o1, rest1, h1, h2⟩ := fillTail_head o rest s
      rw [hr, h1]
      exact ⟨o1, _, rfl, h2⟩

/-- `addReplyProto` never shrinks the chain. -/
theorem addReplyProto_sizes (env : Env) (st : State) (s : List Nat) (hwf : ReplyWF st.c) :
    (st.c.reply.map clientReplyBlock.size).sum ≤
      ((addReplyProto env st s).c.reply.map clientReplyBlock.size).sum := by
  rcases addReplyProto_shape env st s with ⟨_, h⟩ | h
  · rw [h]
  · rw [h]
    obtain ⟨_, _, ⟨k, hk, _⟩, _⟩ := addReplyProtoToList_acct env st.c s hwf.2
    omega

/-- `addReplyProto` keeps the invariant of the reply side. -/
theorem addReplyProto_acct (env : Env) (st : State) (s : List Nat) (h : AcctInv st.c)
    (hfit : ChainFits (addReplyProto env st s).c) : AcctInv (addReplyProto env st s).c := by
  obtain ⟨hwf, ⟨hconn, hcur, hrb⟩, hidle, hfit0, hpos⟩ := h
  have hwf1 := (addReplyProto_spec env st s hwf).2.1
  refine ⟨hwf1, ?_⟩
  unfold ChainFits at hfit hfit0
  rcases addReplyProto_shape env st s with ⟨hnil, hres⟩ | hres
  · rw [hres] at hfit ⊢
    have hidle0 : st.c.bufpos = 0 → st.c.sentlen = 0 := by
      intro hb
      apply hidle
      simp [clientHasPendingReplies, hb, hnil]
    refine ⟨⟨hconn, ?_, hrb⟩, ?_, hfit, hpos⟩
    · simp only [hnil]
      by_cases hb : st.c.bufpos > 0
      · rw [if_pos hb] at hcur
        rw [if_pos (by omega)]
        omega
      · have := hidle0 (by omega)
        split_ifs
        omega
    · intro hp
      simp only [clientHasPendingReplies, Bool.or_eq_false_iff, bne_eq_false_iff_eq] at hp
      exact hidle0 (by omega)
  · rw [hres] at hfit ⊢
    obtain ⟨hc, hs, ⟨k, hk, hbytes⟩, hp, hnil, hhead⟩ := addReplyProtoToList_acct env st.c s hwf.2
    obtain ⟨hbuf, hbp, _⟩ := addReplyProtoToList_blocks env st.c s
    have hrb0 : st.c.reply_bytes = (st.c.reply.map clientReplyBlock.size).sum := by
      rw [hrb]
      exact Nat.mod_eq_of_lt hfit0
    refine ⟨⟨by rw [hc]; exact hconn, ?_, ?_⟩, ?_, hfit, hp hpos⟩
    · rw [hbp, hs]
      by_cases hb : st.c.bufpos > 0
      · rw [if_pos hb] at hcur ⊢
        exact hcur
      · rw [if_neg hb] at hcur ⊢
        cases hr : st.c.reply with
        | nil =>
          have h0 : st.c.sentlen = 0 := by
            apply hidle
            simp only [clientHasPendingReplies, Bool.or_eq_false_iff, bne_eq_false_iff_eq, hr,
              List.length_nil, and_true]
            omega
          cases (_addReplyProtoToList env st.c s).reply with
          | nil => trivial
          | cons o1 rest1 => exact Or.inr h0
        | cons o rest =>
          rw [hr] at hcur
          simp only at hcur
          obtain ⟨o1, rest1, h1, h2⟩ := hhead o rest hr
          rw [h1]
          simp only
          omega
    · rw [hk]
      rcases hbytes with ⟨h0, hb⟩ | hb
      · rw [hb, h0, Nat.add_zero]
        exact hrb
      · rw [hb, hrb0]
    · intro hp2
      simp only [clientHasPendingReplies, Bool.or_eq_false_iff, bne_eq_false_iff_eq,
        List.length_eq_zero] at hp2
      rw [hs]
      apply hidle
      simp only [clientHasPendingReplies, Bool.or_eq_false_iff, bne_eq_false_iff_eq,
        List.length_eq_zero]
      exact ⟨by rw [← hbp]; exact hp2.1, hnil hp2.2⟩

/-- `addReplyErrorLength` keeps the invariant of the reply side. -/
theorem addReplyErrorLength_acct (env : Env) (st : State) (s : List Nat) (h : AcctInv st.c)
    (hfit : ChainFits (addReplyErrorLength env st s).c) :
    AcctInv (addReplyErrorLength env st s).c := by
  unfold addReplyErrorLength at hfit ⊢
  simp only at hfit ⊢
  generalize hst1 : (if s.length = 0 ∨ s.head? ≠ some '-'.toNat then
    addReplyProto env st (bytes "-ERR ") else st) = st1 at hfit ⊢
  unfold ChainFits at hfit
  -- the chain after the last append bounds the chain after each of the steps
  have step : ∀ (x : State) (t : List Nat), AcctInv x.c →
      ((addReplyProto env x t).c.reply.map clientReplyBlock.size).sum < SIZE_MAX1 →
      AcctInv (addReplyProto env x t).c := fun x t hx hb => addReplyProto_acct env x t hx hb
  have mono : ∀ (x : State) (t : List Nat), ReplyWF x.c →
      (x.c.reply.map clientReplyBlock.size).sum ≤
        ((addReplyProto env x t).c.reply.map clientReplyBlock.size).sum :=
    fun x t hx => addReplyProto_sizes env x t hx
  have h1 : AcctInv st1.c ∧ ReplyWF st1.c := by
    by_cases hc : s.length = 0 ∨ s.head? ≠ some '-'.toNat
    · rw [if_pos hc] at hst1
      subst hst1
      have hw1 := (addReplyProto_spec env st (bytes "-ERR ") h.1).2.1
      have hw2 := (addReplyProto_spec env _ s hw1).2.1
      have m2 := mono _ s hw1
      have m3 := mono _ [CR, LF] hw2
      exact ⟨step st _ h (by omega), hw1⟩
    · rw [if_neg hc] at hst1
      subst hst1
      exact ⟨h, h.1⟩
  have hw2 := (addReplyProto_spec env st1 s h1.2).2.1
  have m3 := mono _ [CR, LF] hw2
  have h2 := step st1 s h1.1 (by omega)
  exact step _ [CR, LF] h2 hfit

/-- Every call of `connWrite` is made from a client that has pending replies. -/
theorem writeCalls_pending : ∀ (fuel : Nat) (run : WriteRun),
    ∀ call ∈ writeCalls fuel run, clientHasPendingReplies call.c = true := by
  intro fuel
  induction fuel with
  | zero =>
    intro run call hmem
    simp [writeCalls] at hmem
  | succ fuel ih =>
    intro run call hmem
    unfold writeCalls at hmem
    by_cases hp : clientHasPendingReplies run.st.c = true
    · rw [if_pos hp] at hmem
      have hself : call ∈ (writeCallOf run).toList → clientHasPendingReplies call.c = true := by
        intro hm
        rw [(writeCallOf_from run call (mem_writeCallOf run call hm)).1]
        exact hp
      cases hw : writeBody run with
      | error f =>
        rw [hw] at hmem
        exact hself hmem
      | ok step =>
        rw [hw] at hmem
        cases step with
        | brk run1 => exact hself hmem
        | cont run1 => exact ih run1 call hmem
        | budget run1 =>
          simp only [List.mem_append] at hmem
          rcases hmem with hm | hm
          · exact hself hm
          · by_cases hover : run1.totwritten > NET_MAX_WRITES_PER_EVENT
            · rw [if_pos hover] at hm
              simp at hm
            · rw [if_neg hover] at hm
              exact ih run1 call hm
    · rw [if_neg hp] at hmem
      simp at hmem

/-- Dropping blocks from the head does not enlarge the chain. -/
theorem sum_drop_le (l : List Nat) (k : Nat) : (l.drop k).sum ≤ l.sum := by
  induction l generalizing k with
  | nil => simp
  | cons x xs ih =>
    cases k with
    | zero => simp
    | succ k =>
      simp only [List.drop_succ_cons, List.sum_cons]
      have := ih k
      omega

/-- `writeToClient` keeps the invariant of the reply side, and returns. -/
theorem writeToClient_acct (st : State) (script : List WriteResult) (handler_installed : Bool)
    (h : AcctInv st.c) :
    ∃ r run, writeToClient st script handler_installed = .ok (r, run) ∧ AcctInv run.st.c := by
  obtain ⟨hwf, hfwf, _, hfit0, hpos⟩ := h
  obtain ⟨run1, conn, hloop, hinv, hc, _, _, _, _, hrel⟩ := writeToClient_loop st script hwf hfwf
  have hto : writeToClient st script handler_installed = writeFinish run1 handler_installed := by
    unfold writeToClient
    rw [hloop]
  obtain ⟨k, hk⟩ := hinv.chain
  have hfit1 : ChainFits run1.st.c := by
    unfold ChainFits at hfit0 ⊢
    rw [hk, List.map_drop]
    exact lt_of_le_of_lt (sum_drop_le _ _) hfit0
  have hpos1 : ∀ b ∈ run1.st.c.reply, 0 < b.size := by
    intro b hb
    rw [hk] at hb
    exact hpos b (List.mem_of_mem_drop hb)
  rcases writeFinish_cases run1 handler_installed conn hc with
    ⟨hn, _, hfin⟩ | ⟨_, run2, hfin, _, _, _, _, h5, h6⟩
  · refine ⟨_, _, hto.trans hfin, hinv.rwf, hinv.fwf, ?_, hfit1, hpos1⟩
    intro hp
    rcases hrel with ⟨_, h0, _⟩ | ⟨last, hl, hnw, hneg, _⟩
    · rw [h0] at hn
      exact absurd hn (by decide)
    · obtain ⟨_, conn1, hcc⟩ := hneg (by rw [← hnw, hn]; decide)
      have hpl := writeCalls_pending _ _ last (List.mem_of_getLast?_eq_some hl)
      have : clientHasPendingReplies run1.st.c = true := by
        rw [hcc]
        exact hpl
      simp only [freeClientAsync] at hp
      rw [this] at hp
      exact absurd hp (by decide)
  · refine ⟨_, run2, hto.trans hfin, ?_⟩
    by_cases hp : clientHasPendingReplies run1.st.c = true
    · rw [h5 hp]
      exact ⟨hinv.rwf, hinv.fwf, fun hp2 => absurd (hp.symm.trans hp2) (by decide), hfit1, hpos1⟩
    · have hp2 : clientHasPendingReplies run1.st.c = false := by simpa using hp
      rw [(h6 hp2).1]
      have hidle := hp2
      simp only [clientHasPendingReplies, Bool.or_eq_false_iff, bne_eq_false_iff_eq,
        List.length_eq_zero] at hidle
      refine ⟨hinv.rwf, ⟨hinv.fwf.1, ?_, hinv.fwf.2.2⟩, fun _ => rfl, hfit1, hpos1⟩
      simp only [hidle.1, hidle.2, gt_iff_lt, lt_self_iff_false, if_false]

/-- A client made by `createClient(conn)` satisfies the invariant of the reply
side. -/
theorem createClientOn_acct (server : respServer) (conn : connection) (buf : List Nat) :
    AcctInv (createClientOn server conn buf).2 := by
  refine ⟨⟨Nat.zero_le _, ?_⟩, ⟨?_, ?_, ?_⟩, fun _ => rfl, ?_, ?_⟩
  · intro b hb
    simp [createClientOn, linkClient, createClient] at hb
  · simp [createClientOn, linkClient]
  · simp [createClientOn, linkClient, createClient]
  · simp [createClientOn, linkClient, createClient]
  · simp [ChainFits, createClientOn, linkClient, createClient, SIZE_MAX1]
  · intro b hb
    simp [createClientOn, linkClient, createClient] at hb

/-- Every reachable state of the reply side satisfies its invariant. -/
theorem reach_acct (env : Env) (st : State) (h : ReplyReach env st) : AcctInv st.c := by
  induction h with
  | created server conn buf dispatched invoked => exact createClientOn_acct server conn buf
  | proto st s _ hfit ih => exact addReplyProto_acct env st s ih hfit
  | error st s _ hfit ih => exact addReplyErrorLength_acct env st s ih hfit
  | flush st script handler_installed r run _ heq ih =>
    obtain ⟨r1, run1, h1, hinv⟩ := writeToClient_acct st script handler_installed ih
    rw [heq] at h1
    cases h1
    exact hinv

/-- C17: in every client state reachable from `createClient(conn)` by calls of
`addReplyProto`, `addReplyErrorLength` and `writeToClient`, `reply_bytes` is the
sum of `size` over the blocks of the reply chain, `reply_bytes` is 0 if and only
if the chain is empty, and every call of `writeToClient` returns: in
particular its assertion `reply_bytes == 0` does not fail. -/
theorem C17_reply_accounting (env : Env) (st : State) (h : ReplyReach env st) :
    st.c.reply_bytes = (st.c.reply.map clientReplyBlock.size).sum ∧
      (st.c.reply_bytes = 0 ↔ st.c.reply = []) ∧
      (∀ (script : List WriteResult) (handler_installed : Bool),
        (∃ r run, writeToClient st script handler_installed = .ok (r, run)) ∧
        writeToClient st script handler_installed ≠ .error Fault.assert_reply_bytes_zero) := by
  have hinv := reach_acct env st h
  obtain ⟨_, ⟨_, _, hrb⟩, _, hfit, hpos⟩ := hinv
  have hsum : st.c.reply_bytes = (st.c.reply.map clientReplyBlock.size).sum := by
    rw [hrb]
    exact Nat.mod_eq_of_lt hfit
  refine ⟨hsum, ⟨fun h0 => ?_, fun hnil => ?_⟩, fun script handler_installed => ?_⟩
  · cases hr : st.c.reply with
    | nil => rfl
    | cons o rest =>
      have ho := hpos o (by rw [hr]; simp)
      rw [hsum, hr] at h0
      simp only [List.map_cons, List.sum_cons] at h0
      omega
  · rw [hsum, hnil]
    rfl
  · obtain ⟨r, run, heq, _⟩ := writeToClient_acct st script handler_installed (reach_acct env st h)
    exact ⟨⟨r, run, heq⟩, by rw [heq]; simp⟩

/-- The chain of the example of C17: one block of 16384 bytes. -/
theorem example_chain :
    (addReplyProto exampleEnv
        { server := (createClientOn initServerState ⟨5, ConnState.CONN_STATE_CONNECTED⟩
            [0, 0, 0, 0]).1,
          c := (createClientOn initServerState ⟨5, ConnState.CONN_STATE_CONNECTED⟩
            [0, 0, 0, 0]).2,
          dispatched := [], invoked := [] } [1, 2, 3, 4, 5]).c.reply =
      [{ used := 5, buf := [1, 2, 3, 4, 5] ++ List.replicate 16379 0 }] := rfl

/-- Witness of C17: a new client that is sent a reply of five bytes, one more
than its inline slab holds, so that a block is allocated. -/
theorem C17_reply_accounting_witness :
    (addReplyProto exampleEnv
        { server := (createClientOn initServerState ⟨5, ConnState.CONN_STATE_CONNECTED⟩
            [0, 0, 0, 0]).1,
          c := (createClientOn initServerState ⟨5, ConnState.CONN_STATE_CONNECTED⟩
            [0, 0, 0, 0]).2,
          dispatched := [], invoked := [] } [1, 2, 3, 4, 5]).c.reply_bytes = 16384 := by
  have h := (C17_reply_accounting exampleEnv _
    (ReplyReach.proto _ [1, 2, 3, 4, 5]
      (ReplyReach.created initServerState ⟨5, ConnState.CONN_STATE_CONNECTED⟩ [0, 0, 0, 0] [] [])
      (by
        unfold ChainFits
        rw [example_chain]
        simp only [List.map_cons, List.map_nil, clientReplyBlock.size, List.length_append,
          List.length_cons, List.length_nil, List.length_replicate, List.sum_cons, List.sum_nil,
          SIZE_MAX1]
        decide))).1
  rw [h, example_chain]
  simp only [List.map_cons, List.map_nil, clientReplyBlock.size, List.length_append,
    List.length_cons, List.length_nil, List.length_replicate, List.sum_cons, List.sum_nil]
  decide

/-! ## The parse cursor stays inside the buffer -/

/-- `addReplyProto` leaves the input side of the client alone. -/
theorem addReplyProto_input (env : Env) (st : State) (s : List Nat) :
    (addReplyProto env st s).c.querybuf = st.c.querybuf ∧
      (addReplyProto env st s).c.qb_pos = st.c.qb_pos ∧
      (addReplyProto env st s).c.bulklen = st.c.bulklen := by
  rcases addReplyProto_shape env st s with ⟨_, h⟩ | h
  · rw [h]
    exact ⟨rfl, rfl, rfl⟩
  · rw [h]
    unfold _addReplyProtoToList
    simp only
    split_ifs <;> exact ⟨rfl, rfl, rfl⟩

/-- `addReplyError` leaves the input side of the client alone. -/
theorem addReplyError_input (env : Env) (st : State) (msg : String) :
    (addReplyError env st msg).c.querybuf = st.c.querybuf ∧
      (addReplyError env st msg).c.qb_pos = st.c.qb_pos ∧
      (addReplyError env st msg).c.bulklen = st.c.bulklen := by
  unfold addReplyError addReplyErrorLength
  simp only
  split_ifs
  · obtain ⟨a1, a2, a3⟩ := addReplyProto_input env st (bytes "-ERR ")
    obtain ⟨b1, b2, b3⟩ := addReplyProto_input env (addReplyProto env st (bytes "-ERR "))
      (bytes msg)
    obtain ⟨c1, c2, c3⟩ := addReplyProto_input env
      (addReplyProto env (addReplyProto env st (bytes "-ERR ")) (bytes msg)) [CR, LF]
    exact ⟨by rw [c1, b1, a1], by rw [c2, b2, a2], by rw [c3, b3, a3]⟩
  · obtain ⟨b1, b2, b3⟩ := addReplyProto_input env st (bytes msg)
    obtain ⟨c1, c2, c3⟩ := addReplyProto_input env (addReplyProto env st (bytes msg)) [CR, LF]
    exact ⟨by rw [c1, b1], by rw [c2, b2], by rw [c3, b3]⟩

/-- A client with the same input side keeps the cursor invariant and has
consumed nothing. -/
theorem cursor_same (c c1 : client) (h : CursorInv c)
    (hs : c1.querybuf = c.querybuf ∧ c1.qb_pos = c.qb_pos ∧ c1.bulklen = c.bulklen) :
    CursorInv c1 ∧ Consumes c c1 := by
  obtain ⟨h1, h2, h3⟩ := hs
  refine ⟨?_, c.qb_pos, le_refl _, h.1.1, by rw [h1, h2]⟩
  unfold CursorInv Sane at h ⊢
  rw [h1, h2, h3]
  exact h

/-- Moving the cursor forward inside the buffer. -/
theorem cursor_advance (c c1 : client) (d : Nat) (h : CursorInv c)
    (hd : c.qb_pos + d ≤ c.querybuf.length)
    (hq : c1.querybuf = c.querybuf) (hp : c1.qb_pos = c.qb_pos + d)
    (hb : c1.bulklen = -1 ∨ (0 ≤ c1.bulklen ∧ c1.bulklen ≤ proto_max_bulk_len)) :
    CursorInv c1 ∧ Consumes c c1 := by
  refine ⟨⟨⟨by rw [hq, hp]; exact hd, by rw [hq]; exact h.1.2⟩, hb⟩,
    c.qb_pos + d, Nat.le_add_right _ _, hd, by rw [hq, hp]⟩

/-- Dropping the consumed bytes and resetting the cursor. -/
theorem cursor_compact (c c1 : client) (d : Nat) (h : CursorInv c)
    (hd : c.qb_pos + d ≤ c.querybuf.length)
    (hq : c1.querybuf = c.querybuf.drop (c.qb_pos + d)) (hp : c1.qb_pos = 0)
    (hb : c1.bulklen = -1 ∨ (0 ≤ c1.bulklen ∧ c1.bulklen ≤ proto_max_bulk_len)) :
    CursorInv c1 ∧ Consumes c c1 := by
  have h2 := h.1.2
  refine ⟨⟨⟨by rw [hp]; exact Nat.zero_le _, ?_⟩, hb⟩,
    c.qb_pos + d, Nat.le_add_right _ _, hd, by rw [hq, hp]; rfl⟩
  rw [hq, List.length_drop]
  omega

/-- The test `newline-(c->querybuf+c->qb_pos) > (ssize_t)(sdslen(c->querybuf)-c->qb_pos-2)`
lets only complete lines through. -/
theorem ssize_guard (u off : Nat) (hu : u < 2 ^ 63)
    (h : ¬ ((off : Int) > toSSizeT (toSizeT ((u : Int) - 2)))) : off + 2 ≤ u := by
  by_contra hlt
  apply h
  by_cases h2 : 2 ≤ u
  · have e1 : toSizeT ((u : Int) - 2) = u - 2 := by
      have := toSizeT_sub u 2 h2 (by omega)
      simpa using this
    rw [e1, toSSizeT_small _ (by omega)]
    omega
  · have e1 : toSizeT ((u : Int) - 2) = 2 ^ 64 + u - 2 := by
      unfold toSizeT SIZE_MAX1
      have : ((u : Int) - 2) % ((2 ^ 64 : Nat) : Int) = ((2 ^ 64 + u - 2 : Nat) : Int) := by
        omega
      rw [this]
      simp
    rw [e1]
    unfold toSSizeT SIZE_MAX1
    have hmod : (2 ^ 64 + u - 2) % 2 ^ 64 = 2 ^ 64 + u - 2 := Nat.mod_eq_of_lt (by omega)
    rw [hmod, if_pos (by omega)]
    omega

/-- The cursor facts of a pass that returns. -/
theorem cur_done (st st1 : State) (r : Ret) (h : CursorInv st1.c ∧ Consumes st.c st1.c) :
    CursorStep st (Step.done r st1).state := h

/-- The cursor facts of a pass that goes on. -/
theorem cur_next (st st1 : State) (h : CursorInv st1.c ∧ Consumes st.c st1.c) :
    CursorStep st (Step.next st1).state := h

/-- Transport along the equation of a pass that ended without a fault. -/
theorem cur_of_ok (st : State) (step step1 : Step)
    (h : (Except.ok step1 : Except Fault Step) = .ok step) (h1 : CursorStep st step1.state) :
    CursorStep st step.state := by
  have := Except.ok.inj h
  subst this
  exact h1

/-- The header block keeps the cursor inside the buffer. -/
theorem mbHeader_cursor (env : Env) (st : State) (step : Step) (hi : CursorInv st.c)
    (h : mbHeader env st = .ok step) :
    CursorStep st step.state := by
  have e0 := cursor_same st.c st.c hi ⟨rfl, rfl, rfl⟩
  have e1 := cursor_same st.c _ hi
    (addReplyError_input env st "Protocol error: too big mbulk count string")
  have e2 := cursor_same st.c _ hi
    (addReplyError_input env st "Protocol error: invalid multibulk length")
  have hu := unconsumed_eq st.c hi.1
  have hs := hi.1
  unfold Sane at hs
  unfold mbHeader at h
  simp only at h
  by_cases hm : st.c.multibulklen = 0
  · rw [if_pos hm] at h
    by_cases ha : st.c.argc ≠ 0
    · rw [if_pos ha] at h
      cases h
    · rw [if_neg ha] at h
      cases hstr : strchr (st.c.querybuf.drop st.c.qb_pos) CR with
      | none =>
        rw [hstr] at h
        simp only at h
        by_cases h0 : unconsumed st.c > PROTO_INLINE_MAX_SIZE
        · rw [if_pos h0] at h
          exact cur_of_ok st step _ h
            (cur_done _ _ _ e1)
        · rw [if_neg h0] at h
          exact cur_of_ok st step _ h
            (cur_done _ _ _ e0)
      | some off =>
        rw [hstr] at h
        simp only at h
        by_cases h1 : (off : Int) > toSSizeT (toSizeT ((unconsumed st.c : Int) - 2))
        · rw [if_pos h1] at h
          exact cur_of_ok st step _ h
            (cur_done _ _ _ e0)
        · rw [if_neg h1] at h
          have hoff : off + 2 ≤ unconsumed st.c := by
            apply ssize_guard _ _ _ h1
            rw [hu, List.length_drop]
            omega
          rw [hu, List.length_drop] at hoff
          have hadv : st.c.qb_pos + (off + 2) ≤ st.c.querybuf.length := by omega
          by_cases h2 : (st.c.querybuf.drop st.c.qb_pos).head? ≠ some '*'.toNat
          · rw [if_pos h2] at h
            cases h
          · rw [if_neg h2] at h
            cases hll : string2ll ((st.c.querybuf.drop (st.c.qb_pos + 1)).take (off - 1)) with
            | none =>
              rw [hll] at h
              exact cur_of_ok st step _ h
                (cur_done _ _ _ e2)
            | some ll =>
              rw [hll] at h
              simp only at h
              by_cases h3 : ll > 1024 * 1024
              · rw [if_pos h3] at h
                exact cur_of_ok st step _ h
                  (cur_done _ _ _ e2)
              · rw [if_neg h3] at h
                by_cases h4 : ll ≤ 0
                · rw [if_pos h4] at h
                  exact cur_of_ok st step _ h
                    (cur_done _ _ _
                      (cursor_advance st.c _ (off + 2) hi hadv rfl (by simp only; omega) hi.2))
                · rw [if_neg h4] at h
                  exact cur_of_ok st step _ h
                    (cur_next _ _
                      (cursor_advance st.c _ (off + 2) hi hadv rfl (by simp only; omega) hi.2))
  · rw [if_neg hm] at h
    exact cur_of_ok st step _ h (cur_next _ _ e0)

/-- A pass that returns is not a pass that goes on. -/
theorem done_not_next (r : Ret) (s : State) (P : State → Prop) :
    ∀ st1, Step.done r s = Step.next st1 → P st1 := by
  intro st1 h
  cases h

/-- The bulk length block keeps the cursor inside the buffer, and leaves a
length in `bulklen` when the loop goes on. -/
theorem mbBulkLen_cursor (env : Env) (st : State) (hi : CursorInv st.c) :
    CursorStep st (mbBulkLen env st).state ∧
      (∀ st1, mbBulkLen env st = .next st1 → 0 ≤ st1.c.bulklen) := by
  have e0 := cursor_same st.c st.c hi ⟨rfl, rfl, rfl⟩
  have e1 := cursor_same st.c _ hi
    (addReplyError_input env st "Protocol error: too big bulk count string")
  have hu := unconsumed_eq st.c hi.1
  have hs := hi.1
  unfold Sane at hs
  unfold mbBulkLen
  simp only
  by_cases hb : st.c.bulklen = -1
  · rw [if_pos hb]
    cases hstr : strchr (st.c.querybuf.drop st.c.qb_pos) CR with
    | none =>
      simp only
      by_cases h0 : unconsumed st.c > PROTO_INLINE_MAX_SIZE
      · rw [if_pos h0]
        exact ⟨cur_done _ _ _ e1, done_not_next _ _ _⟩
      · rw [if_neg h0]
        exact ⟨cur_done _ _ _ e0, done_not_next _ _ _⟩
    | some off =>
      simp only
      by_cases h1 : (off : Int) > toSSizeT (toSizeT ((unconsumed st.c : Int) - 2))
      · rw [if_pos h1]
        exact ⟨cur_done _ _ _ e0, done_not_next _ _ _⟩
      · rw [if_neg h1]
        have hoff : off + 2 ≤ unconsumed st.c := by
          apply ssize_guard _ _ _ h1
          rw [hu, List.length_drop]
          omega
        rw [hu, List.length_drop] at hoff
        have hadv : st.c.qb_pos + (off + 2) ≤ st.c.querybuf.length := by omega
        by_cases h2 : (st.c.querybuf.drop st.c.qb_pos).head? ≠ some '$'.toNat
        · rw [if_pos h2]
          exact ⟨cur_done _ _ _ e0, done_not_next _ _ _⟩
        · rw [if_neg h2]
          cases hll : string2ll ((st.c.querybuf.drop (st.c.qb_pos + 1)).take (off - 1)) with
          | none => exact ⟨cur_done _ _ _ e0, done_not_next _ _ _⟩
          | some ll =>
            simp only
            by_cases h3 : ll < 0 ∨ ll > proto_max_bulk_len
            · rw [if_pos h3]
              exact ⟨cur_done _ _ _ e0, done_not_next _ _ _⟩
            · rw [if_neg h3]
              have hll0 : 0 ≤ ll ∧ ll ≤ proto_max_bulk_len := by
                constructor
                · by_contra hc
                  exact h3 (Or.inl (by omega))
                · by_contra hc
                  exact h3 (Or.inr (by omega))
              split_ifs
              · refine ⟨cur_next _ _ (cursor_compact st.c _ (off + 2) hi hadv
                  (by simp only [sdsrange, Nat.add_assoc]) rfl (Or.inr hll0)), ?_⟩
                intro st1 h
                cases h
                exact hll0.1
              · refine ⟨cur_next _ _ (cursor_advance st.c _ (off + 2) hi hadv rfl
                  (by simp only [Nat.add_assoc]) (Or.inr hll0)), ?_⟩
                intro st1 h
                cases h
                exact hll0.1
  · rw [if_neg hb]
    refine ⟨cur_next _ _ e0, ?_⟩
    intro st1 h
    cases h
    rcases hi.2 with h | h
    · exact absurd h hb
    · exact h.1

/-- Storing an argument keeps the cursor inside the buffer. -/
theorem mbBulkData_cursor (st : State) (hi : CursorInv st.c) (hb : 0 ≤ st.c.bulklen) :
    CursorStep st (mbBulkData st).state := by
  have e0 := cursor_same st.c st.c hi ⟨rfl, rfl, rfl⟩
  have hu := unconsumed_eq st.c hi.1
  have hs := hi.1
  unfold Sane at hs
  have hmax : st.c.bulklen ≤ proto_max_bulk_len := by
    rcases hi.2 with h | h
    · omega
    · exact h.2
  unfold proto_max_bulk_len at hmax
  obtain ⟨L, hL⟩ : ∃ L : Nat, st.c.bulklen = (L : Int) := ⟨st.c.bulklen.toNat, by omega⟩
  have hsz : toSizeT (st.c.bulklen + 2) = L + 2 := by
    rw [hL]
    have := toSizeT_of_nat (L + 2) (by omega)
    simpa using this
  unfold mbBulkData
  simp only
  by_cases h1 : unconsumed st.c < toSizeT (st.c.bulklen + 2)
  · rw [if_pos h1]
    exact cur_done _ _ _ e0
  · rw [if_neg h1]
    rw [hsz, hu, List.length_drop] at h1
    split_ifs with hz
    · refine cur_next _ _ ⟨⟨⟨by simp only [hz.1, List.length_nil, le_refl], by simp⟩,
        Or.inl rfl⟩, st.c.querybuf.length, hs.1, le_refl _, ?_⟩
      simp
    · have hq : toSizeT ((st.c.qb_pos : Int) + (st.c.bulklen + 2)) = st.c.qb_pos + (L + 2) := by
        rw [hL]
        have := toSizeT_of_nat (st.c.qb_pos + (L + 2)) (by omega)
        simpa using this
      exact cur_next _ _ (cursor_advance st.c _ (L + 2) hi (by omega) rfl hq (Or.inl rfl))

/-- Consuming twice is consuming. -/
theorem consumes_trans (c0 c1 c2 : client) (h1 : Consumes c0 c1) (h2 : Consumes c1 c2) :
    Consumes c0 c2 := by
  obtain ⟨k1, a1, a2, a3⟩ := h1
  obtain ⟨k2, b1, b2, b3⟩ := h2
  have hlen : c1.querybuf.length - c1.qb_pos = c0.querybuf.length - k1 := by
    have := congrArg List.length a3
    simpa [List.length_drop] using this
  refine ⟨k1 + (k2 - c1.qb_pos), by omega, by omega, ?_⟩
  rw [b3]
  have : c1.querybuf.drop k2 = (c1.querybuf.drop c1.qb_pos).drop (k2 - c1.qb_pos) := by
    rw [List.drop_drop]
    congr 1
    omega
  rw [this, a3, List.drop_drop, Nat.add_comm]

/-- Two steps of the parser, one after the other. -/
theorem cursorStep_trans (s0 s1 s2 : State) (h1 : CursorStep s0 s1) (h2 : CursorStep s1 s2) :
    CursorStep s0 s2 :=
  ⟨h2.1, consumes_trans _ _ _ h1.2 h2.2⟩

/-- The argument loop keeps the cursor inside the buffer. -/
theorem mbLoop_cursor (env : Env) :
    ∀ (fuel : Nat) (st st1 : State) (r : Ret), CursorInv st.c →
      mbLoop env fuel st = .ok (r, st1) → CursorStep st st1 := by
  intro fuel
  induction fuel with
  | zero => intro st st1 r _ h; simp [mbLoop] at h
  | succ fuel ih =>
    intro st st1 r hi h
    unfold mbLoop at h
    by_cases hm : st.c.multibulklen = 0
    · rw [if_pos hm] at h
      have := Except.ok.inj h
      rw [Prod.mk.injEq] at this
      rw [← this.2]
      exact cursor_same st.c st.c hi ⟨rfl, rfl, rfl⟩
    · rw [if_neg hm] at h
      obtain ⟨t1, tb⟩ := mbBulkLen_cursor env st hi
      generalize mbBulkLen env st = step1 at h t1 tb
      cases step1 with
      | done r1 s1 =>
        simp only at h
        have := Except.ok.inj h
        rw [Prod.mk.injEq] at this
        rw [← this.2]
        exact t1
      | next s1 =>
        simp only at h
        have t1' : CursorStep st s1 := t1
        have t2 := mbBulkData_cursor s1 t1'.1 (tb s1 rfl)
        generalize mbBulkData s1 = step2 at h t2
        cases step2 with
        | done r2 s2 =>
          simp only at h
          have := Except.ok.inj h
          rw [Prod.mk.injEq] at this
          rw [← this.2]
          exact cursorStep_trans _ _ _ t1' t2
        | next s2 =>
          simp only at h
          have t2' : CursorStep s1 s2 := t2
          exact cursorStep_trans _ _ _ (cursorStep_trans _ _ _ t1' t2') (ih s2 st1 r t2'.1 h)

/-- `processMultibulkBuffer` keeps the cursor inside the buffer. -/
theorem processMultibulkBuffer_cursor (env : Env) (st st1 : State) (r : Ret)
    (hi : CursorInv st.c) (h : processMultibulkBuffer env st = .ok (r, st1)) :
    CursorStep st st1 := by
  unfold processMultibulkBuffer at h
  cases hh : mbHeader env st with
  | error f => rw [hh] at h; simp at h
  | ok step =>
    have t1 := mbHeader_cursor env st step hi hh
    rw [hh] at h
    cases step with
    | done r1 s1 =>
      simp only at h
      have := Except.ok.inj h
      rw [Prod.mk.injEq] at this
      rw [← this.2]
      exact t1
    | next s1 =>
      simp only at h
      have t1' : CursorStep st s1 := t1
      by_cases hpos : s1.c.multibulklen > 0
      · rw [if_pos hpos] at h
        exact cursorStep_trans _ _ _ t1' (mbLoop_cursor env _ s1 st1 r t1'.1 h)
      · rw [if_neg hpos] at h
        cases h

/-- `server.current_client = c; processCommand(c);` keeps the cursor inside the
buffer when the handlers leave the input side alone. -/
theorem runCommand_cursor (env : Env) (st st1 : State) (hk : HandlersKeepInput env)
    (hi : CursorInv st.c) (h : runCommand env st = .ok st1) : CursorStep st st1 := by
  unfold runCommand at h
  cases hargv : st.c.argv with
  | nil =>
    unfold processCommand at h
    simp only [hargv] at h
    cases h
  | cons name rest =>
    obtain ⟨s1, s2, s3⟩ := processCommand_spec env
      { st with server := { st.server with current_client := some st.c.id } } name rest hargv
    cases hl : env.lookupCommand name with
    | none =>
      rw [s1 hl] at h
      cases h
      exact cursor_same st.c _ hi ⟨rfl, rfl, rfl⟩
    | some cmd =>
      by_cases ha : arityOk cmd st.c.argc
      · rw [s3 cmd hl ha] at h
        cases h
        obtain ⟨k1, k2⟩ := hk cmd.proc { st.server with current_client := some st.c.id }
          { st.c with cmd := some cmd, lastcmd := some cmd }
        exact cursor_advance st.c _ 0 hi hi.1.1 k1 k2 (Or.inl rfl)
      · rw [s2 cmd hl ha] at h
        cases h
        exact cursor_same st.c _ hi ⟨rfl, rfl, rfl⟩

/-- The classification leaves the input side alone. -/
theorem classify_cursor (st : State) (hi : CursorInv st.c) : CursorStep st (classify st) := by
  unfold classify
  split_ifs <;> exact cursor_same st.c _ hi ⟨rfl, rfl, rfl⟩

/-- The trim drops exactly the consumed bytes. -/
theorem trimQuerybuf_spec (st : State) :
    (trimQuerybuf st).c.qb_pos = 0 ∧
      (trimQuerybuf st).c.querybuf = st.c.querybuf.drop st.c.qb_pos ∧
      (trimQuerybuf st).c.bulklen = st.c.bulklen := by
  unfold trimQuerybuf
  by_cases h : st.c.qb_pos ≠ 0
  · rw [if_pos h]
    exact ⟨rfl, rfl, rfl⟩
  · rw [if_neg h]
    have h0 : st.c.qb_pos = 0 := not_not.mp h
    exact ⟨h0, by rw [h0]; rfl, rfl⟩

/-- The loop of `processInputBuffer` keeps the cursor inside the buffer; what it
returns is the trim of the state the loop ended with. -/
theorem processInputLoop_cursor (env : Env) (hk : HandlersKeepInput env) :
    ∀ (fuel : Nat) (st st1 : State), CursorInv st.c →
      processInputLoop env fuel st = .ok st1 →
      ∃ st2, st1 = trimQuerybuf st2 ∧ CursorStep st st2 := by
  intro fuel
  induction fuel with
  | zero => intro st st1 _ h; simp [processInputLoop] at h
  | succ fuel ih =>
    intro st st1 hi h
    unfold processInputLoop at h
    by_cases hlt : st.c.qb_pos < st.c.querybuf.length
    · rw [if_pos hlt] at h
      simp only at h
      have tc := classify_cursor st hi
      generalize classify st = sc at h tc
      by_cases hq : sc.c.reqtype = ReqType.PROTO_REQ_MULTIBULK
      · rw [if_pos hq] at h
        cases hp : processMultibulkBuffer env sc with
        | error f => rw [hp] at h; cases h
        | ok val =>
          obtain ⟨r, s2⟩ := val
          have t2 := processMultibulkBuffer_cursor env sc s2 r tc.1 hp
          rw [hp] at h
          cases r with
          | ERROR_FAILED =>
            simp only at h
            cases h
            exact ⟨s2, rfl, cursorStep_trans _ _ _ tc t2⟩
          | ERROR_SUCCESS =>
            simp only at h
            cases hr : runCommand env s2 with
            | error f => rw [hr] at h; cases h
            | ok s3 =>
              rw [hr] at h
              simp only at h
              have t3 := runCommand_cursor env s2 s3 hk t2.1 hr
              obtain ⟨s4, e4, t4⟩ := ih s3 st1 t3.1 h
              exact ⟨s4, e4, cursorStep_trans _ _ _ (cursorStep_trans _ _ _
                (cursorStep_trans _ _ _ tc t2) t3) t4⟩
      · rw [if_neg hq] at h
        cases hr : runCommand env sc with
        | error f => rw [hr] at h; cases h
        | ok s3 =>
          rw [hr] at h
          simp only at h
          have t3 := runCommand_cursor env sc s3 hk tc.1 hr
          obtain ⟨s4, e4, t4⟩ := ih s3 st1 t3.1 h
          exact ⟨s4, e4, cursorStep_trans _ _ _ (cursorStep_trans _ _ _ tc t3) t4⟩
    · rw [if_neg hlt] at h
      cases h
      exact ⟨st, rfl, cursor_same st.c st.c hi ⟨rfl, rfl, rfl⟩⟩

/-- What `processInputBuffer` leaves, when it returns: the cursor at 0 and a
buffer that holds exactly the unconsumed bytes. -/
theorem processInputBuffer_cursor (env : Env) (hk : HandlersKeepInput env) (st st1 : State)
    (hi : CursorInv st.c) (h : processInputBuffer env st = .ok st1) :
    st1.c.qb_pos = 0 ∧ CursorInv st1.c ∧
      (∃ st2, CursorInv st2.c ∧ st1 = trimQuerybuf st2 ∧
        st1.c.querybuf = st2.c.querybuf.drop st2.c.qb_pos) ∧
      (∃ k, st.c.qb_pos ≤ k ∧ k ≤ st.c.querybuf.length ∧ st1.c.querybuf = st.c.querybuf.drop k) := by
  obtain ⟨st2, e, hc, k, k1, k2, k3⟩ := processInputLoop_cursor env hk _ st st1 hi h
  obtain ⟨t1, t2, t3⟩ := trimQuerybuf_spec st2
  rw [← e] at t1 t2 t3
  have hs2 := hc.1
  unfold Sane at hs2
  refine ⟨t1, ⟨⟨by rw [t1]; exact Nat.zero_le _, ?_⟩, by rw [t3]; exact hc.2⟩,
    ⟨st2, hc, e, t2⟩, k, k1, k2, by rw [t2, k3]⟩
  rw [t2, List.length_drop]
  omega

/-- Chunks fed one after the other keep the cursor invariant. -/
theorem feedAll_cursor (env : Env) (hk : HandlersKeepInput env) :
    ∀ (chunks : List (List Nat)) (st st1 : State), CursorInv st.c →
      st.c.qb_pos = 0 →
      st.c.querybuf.length + chunks.flatten.length < 2 ^ 63 →
      feedAll env st chunks = .ok st1 → st1.c.qb_pos = 0 ∧ CursorInv st1.c := by
  intro chunks
  induction chunks with
  | nil =>
    intro st st1 hi h0 _ h
    simp only [feedAll] at h
    cases h
    exact ⟨h0, hi⟩
  | cons chunk chunks ih =>
    intro st st1 hi h0 hlen h
    simp only [List.flatten_cons, List.length_append] at hlen
    unfold feedAll at h
    have hfed : CursorInv (feed st chunk).c := by
      refine ⟨⟨?_, ?_⟩, hi.2⟩
      · simp only [feed, List.length_append]
        have := hi.1.1
        omega
      · simp only [feed, List.length_append]
        omega
    cases hp : processInputBuffer env (feed st chunk) with
    | error f => rw [hp] at h; cases h
    | ok s1 =>
      rw [hp] at h
      simp only at h
      obtain ⟨q0, qi, _, k, _, _, hq⟩ := processInputBuffer_cursor env hk _ s1 hfed hp
      refine ih s1 st1 qi q0 ?_ h
      rw [hq, List.length_drop]
      simp only [feed, List.length_append]
      omega

/-- C16: the parse cursor stays inside the buffer.  A client made by
`createClient` satisfies the cursor invariant (`qb_pos ≤ len(querybuf)`, with
`bulklen` -1 or an accepted length); appending the bytes read keeps it; with
handlers that leave the input side alone, every step of
`processMultibulkBuffer` (the header block, the bulk length block, storing an
argument, the whole function) and of `processInputBuffer` (the command
dispatch, the whole function) that ends without a fault keeps it and leaves as
unconsumed input a rest of the unconsumed input it started from; whenever
`processInputBuffer` returns, `qb_pos = 0` and `querybuf` is exactly the
unconsumed bytes `querybuf[qb_pos..]` of the state its loop ended with; and so
it is after any sequence of reads on a new client. -/
theorem C16_parse_cursor (env : Env) (hk : HandlersKeepInput env) :
    (∀ c, CursorInv c → c.qb_pos ≤ c.querybuf.length) ∧
    (∀ id buf, CursorInv (createClient id buf)) ∧
    (∀ st chunk, CursorInv st.c → st.c.querybuf.length + chunk.length < 2 ^ 63 →
      CursorInv (feed st chunk).c) ∧
    (∀ st, CursorInv st.c →
      (∀ step, mbHeader env st = .ok step → CursorStep st step.state) ∧
      CursorStep st (mbBulkLen env st).state ∧
      (0 ≤ st.c.bulklen → CursorStep st (mbBulkData st).state) ∧
      (∀ r st1, processMultibulkBuffer env st = .ok (r, st1) → CursorStep st st1) ∧
      (∀ st1, runCommand env st = .ok st1 → CursorStep st st1) ∧
      (∀ st1, processInputBuffer env st = .ok st1 →
        st1.c.qb_pos = 0 ∧ CursorInv st1.c ∧
        (∃ st2, CursorInv st2.c ∧ st1 = trimQuerybuf st2 ∧
          st1.c.querybuf = st2.c.querybuf.drop st2.c.qb_pos) ∧
        (∃ k, st.c.qb_pos ≤ k ∧ k ≤ st.c.querybuf.length ∧
          st1.c.querybuf = st.c.querybuf.drop k))) ∧
    (∀ st, (trimQuerybuf st).c.qb_pos = 0 ∧
      (trimQuerybuf st).c.querybuf = st.c.querybuf.drop st.c.qb_pos) ∧
    (∀ server id buf chunks st1, chunks.flatten.length < 2 ^ 63 →
      feedAll env (freshState server id buf) chunks = .ok st1 →
      st1.c.qb_pos = 0 ∧ CursorInv st1.c) := by
  have hfresh : ∀ id buf, CursorInv (createClient id buf) := by
    intro id buf
    exact ⟨⟨Nat.zero_le _, by simp [createClient]⟩, Or.inl rfl⟩
  refine ⟨fun c h => h.1.1, hfresh, ?_, ?_, ?_, ?_⟩
  · intro st chunk hi hlen
    refine ⟨⟨?_, ?_⟩, hi.2⟩
    · simp only [feed, List.length_append]
      have := hi.1.1
      omega
    · simp only [feed, List.length_append]
      exact hlen
  · intro st hi
    exact ⟨fun step h => mbHeader_cursor env st step hi h, (mbBulkLen_cursor env st hi).1,
      fun hb => mbBulkData_cursor st hi hb,
      fun r st1 h => processMultibulkBuffer_cursor env st st1 r hi h,
      fun st1 h => runCommand_cursor env st st1 hk hi h,
      fun st1 h => processInputBuffer_cursor env hk st st1 hi h⟩
  · intro st
    exact ⟨(trimQuerybuf_spec st).1, (trimQuerybuf_spec st).2.1⟩
  · intro server id buf chunks st1 hlen h
    exact feedAll_cursor env hk chunks _ st1 (hfresh id buf) rfl
      (by simpa [freshState, createClient] using hlen) h

/-- Witness of C16: a command in two reads, followed by the start of the next. -/
theorem C16_parse_cursor_witness :
    ∃ st1, feedAll exampleEnv (freshState initServerState 1 [])
        [bytes "*1\r\n$4\r\nte", bytes "st\r\n*1"] = .ok st1 ∧
      st1.c.querybuf = bytes "*1" ∧ st1.c.qb_pos = 0 ∧ CursorInv st1.c :=
  ⟨_, rfl, rfl,
    (C16_parse_cursor exampleEnv (fun _ _ _ => ⟨rfl, rfl⟩)).2.2.2.2.2 initServerState 1 []
      [bytes "*1\r\n$4\r\nte", bytes "st\r\n*1"] _ (by decide) rfl⟩

/-! ## Receiving a big argument -/

theorem mbBulkData_steal (st : State)
    (hw : ¬ unconsumed st.c < toSizeT (st.c.bulklen + 2)) (hz : zeroCopy st.c) :
    mbBulkData st = .next (stolen st) := by
  unfold zeroCopy at hz
  unfold mbBulkData stolen
  simp only
  rw [if_neg hw, if_pos hz]

theorem mbBulkData_copy (st : State)
    (hw : ¬ unconsumed st.c < toSizeT (st.c.bulklen + 2)) (hz : ¬ zeroCopy st.c) :
    mbBulkData st = .next (copied st) := by
  unfold zeroCopy at hz
  unfold mbBulkData copied
  simp only
  rw [if_neg hw, if_neg hz]

theorem zeroCopy_sizes (c : client) (hz : zeroCopy c) (hll : c.bulklen ≤ (LLONG_MAX : Int)) :
    toSizeT c.bulklen = c.bulklen.toNat ∧ c.querybuf.length = c.bulklen.toNat + 2 ∧
      toSizeT ((c.qb_pos : Int) + (c.bulklen + 2)) = c.querybuf.length ∧
      unconsumed c = c.querybuf.length := by
  obtain ⟨h0, hb, hl⟩ := hz
  have hbig : (0 : Int) ≤ c.bulklen := by
    have : (0 : Int) ≤ (PROTO_MBULK_BIG_ARG : Int) := by unfold PROTO_MBULK_BIG_ARG; norm_num
    omega
  have hmax : c.bulklen.toNat + 2 < 2 ^ 64 := by
    unfold LLONG_MAX at hll
    omega
  have e1 : c.bulklen = ((c.bulklen.toNat : Nat) : Int) := (Int.toNat_of_nonneg hbig).symm
  have e2 : c.bulklen + 2 = ((c.bulklen.toNat + 2 : Nat) : Int) := by omega
  have s1 : toSizeT c.bulklen = c.bulklen.toNat := by
    conv_lhs => rw [e1]
    exact toSizeT_of_nat _ (by omega)
  have s2 : toSizeT (c.bulklen + 2) = c.bulklen.toNat + 2 := by
    rw [e2]; exact toSizeT_of_nat _ hmax
  have hlen : c.querybuf.length = c.bulklen.toNat + 2 := by rw [hl, s2]
  refine ⟨s1, hlen, ?_, ?_⟩
  · rw [h0]
    have : ((0 : Nat) : Int) + (c.bulklen + 2) = c.bulklen + 2 := by omega
    rw [this, s2, hlen]
  · unfold unconsumed
    rw [h0]
    have : (c.querybuf.length : Int) - ((0 : Nat) : Int) = ((c.querybuf.length : Nat) : Int) := by
      omega
    rw [this]
    exact toSizeT_of_nat _ (by omega)

/-- C24: in a parser state that meets the zero-copy condition (`qb_pos = 0`,
`bulklen >= PROTO_MBULK_BIG_ARG`, `len(querybuf) = bulklen + 2`, `bulklen` a
`long long`), `processMultibulkBuffer` takes the buffer-steal branch, and the
state it produces agrees with the state the copy branch produces from the same
state on the stored arguments (the last of them the first `bulklen` bytes of
`querybuf`), on `argc`, `argv_len_sum`, `multibulklen` and `bulklen`, and on the
unconsumed input, which is empty on both sides.  The state of the copy branch
is the one `processMultibulkBuffer` produces whenever the argument is complete
and the zero-copy condition does not hold. -/
theorem C24_zero_copy_equals_copy (st : State) (hz : zeroCopy st.c)
    (hll : st.c.bulklen ≤ (LLONG_MAX : Int)) :
    mbBulkData st = .next (stolen st) ∧
    (stolen st).c.argv = (copied st).c.argv ∧
    (stolen st).c.argv = st.c.argv.take st.c.argc ++ [st.c.querybuf.take st.c.bulklen.toNat] ∧
    (stolen st).c.argc = (copied st).c.argc ∧
    (stolen st).c.argv_len_sum = (copied st).c.argv_len_sum ∧
    (stolen st).c.multibulklen = (copied st).c.multibulklen ∧
    (stolen st).c.bulklen = (copied st).c.bulklen ∧
    (stolen st).c.querybuf.drop (stolen st).c.qb_pos = [] ∧
    (copied st).c.querybuf.drop (copied st).c.qb_pos = [] ∧
    unconsumed (stolen st).c = 0 ∧ unconsumed (copied st).c = 0 ∧
    (∀ st1 : State, ¬ unconsumed st1.c < toSizeT (st1.c.bulklen + 2) → ¬ zeroCopy st1.c →
      mbBulkData st1 = .next (copied st1)) := by
  obtain ⟨s1, hlen, s3, hun⟩ := zeroCopy_sizes st.c hz hll
  have h0 : st.c.qb_pos = 0 := hz.1
  have hw : ¬ unconsumed st.c < toSizeT (st.c.bulklen + 2) := by
    rw [hun, ← hz.2.2]; omega
  have hlt : st.c.querybuf.length < 2 ^ 64 := by
    have : st.c.bulklen.toNat + 2 < 2 ^ 64 := by
      unfold LLONG_MAX at hll
      omega
    omega
  have ha : (stolen st).c.argv
      = st.c.argv.take st.c.argc ++ [st.c.querybuf.take st.c.bulklen.toNat] := by
    show st.c.argv.take st.c.argc ++ [st.c.querybuf.take (st.c.querybuf.length - 2)] = _
    rw [hlen, Nat.add_sub_cancel]
  have hb : (copied st).c.argv
      = st.c.argv.take st.c.argc ++ [st.c.querybuf.take st.c.bulklen.toNat] := by
    show st.c.argv.take st.c.argc
      ++ [(st.c.querybuf.drop st.c.qb_pos).take (toSizeT st.c.bulklen)] = _
    rw [h0, s1, List.drop_zero]
  have hq : (copied st).c.qb_pos = st.c.querybuf.length := s3
  have hqb : (copied st).c.querybuf = st.c.querybuf := rfl
  refine ⟨mbBulkData_steal st hw hz, by rw [ha, hb], ha, rfl, rfl, rfl, rfl, ?_, ?_, ?_, ?_,
    fun st1 h1 h2 => mbBulkData_copy st1 h1 h2⟩
  · show ([] : List Nat).drop _ = []
    exact List.drop_nil
  · rw [hq, hqb]; exact List.drop_length _
  · show toSizeT (((([] : List Nat).length : Nat) : Int) - (st.c.qb_pos : Int)) = 0
    rw [h0]; rfl
  · unfold unconsumed
    rw [hq, hqb, toSizeT_sub _ _ (le_refl _) hlt]
    omega

theorem wholeArg_zeroCopy : zeroCopy wholeArgState.c := by
  refine ⟨rfl, ?_, ?_⟩
  · show (32768 : Int) ≥ (PROTO_MBULK_BIG_ARG : Int)
    unfold PROTO_MBULK_BIG_ARG
    norm_num
  · show (List.replicate 32768 7 ++ [CR, LF]).length = toSizeT ((32768 : Int) + 2)
    rw [List.length_append, List.length_replicate]
    have : ((32768 : Int) + 2) = ((32770 : Nat) : Int) := by norm_num
    rw [this, toSizeT_of_nat _ (by norm_num)]
    rfl

theorem C24_zero_copy_equals_copy_witness :
    zeroCopy wholeArgState.c ∧
    (stolen wholeArgState).c.argv = (copied wholeArgState).c.argv ∧
    unconsumed (copied wholeArgState).c = 0 :=
  have h := C24_zero_copy_equals_copy wholeArgState wholeArg_zeroCopy
    (by show (32768 : Int) ≤ (LLONG_MAX : Int); unfold LLONG_MAX; norm_num)
  ⟨wholeArg_zeroCopy, h.2.1, h.2.2.2.2.2.2.2.2.2.2.1⟩

/-! ## The assertions of the parser after a command that was not executed -/

/-- C22, the code at the unknown command `foo` followed by the command `test`
in a later read: after the first read `processCommand` has returned without
`resetClient`, so the client is left with `multibulklen = 0`, `argc = 1` and
request type MULTIBULK; `processMultibulkBuffer` then begins the next command
with `argc = 1`, and `assert(c->argc == 0)` fails in the second
`processInputBuffer` call. -/
theorem C22_assertion_fails_after_unknown_command :
    (∃ st1, feedAll exampleEnv (freshState initServerState 1 [0, 0, 0, 0, 0, 0, 0, 0])
        [bytes "*1\r\n$3\r\nfoo\r\n"] = .ok st1 ∧
      st1.c.multibulklen = 0 ∧ st1.c.argc = 1 ∧ st1.c.argv = [bytes "foo"] ∧
      st1.c.reqtype = ReqType.PROTO_REQ_MULTIBULK ∧ st1.c.querybuf = [] ∧ st1.c.qb_pos = 0 ∧
      mbHeader exampleEnv (feed st1 (bytes "*1\r\n$4\r\ntest\r\n")) =
        .error Fault.assert_argc_zero ∧
      processMultibulkBuffer exampleEnv (feed st1 (bytes "*1\r\n$4\r\ntest\r\n")) =
        .error Fault.assert_argc_zero) ∧
    feedAll exampleEnv (freshState initServerState 1 [0, 0, 0, 0, 0, 0, 0, 0])
      [bytes "*1\r\n$3\r\nfoo\r\n", bytes "*1\r\n$4\r\ntest\r\n"] =
      .error Fault.assert_argc_zero :=
  ⟨⟨_, rfl, rfl, rfl, rfl, rfl, rfl, rfl, rfl, rfl⟩, rfl⟩

/-! ## The inline pass of the input loop -/

theorem inline_pass (env : Env) (st : State) (name : List Nat) (rest : List (List Nat))
    (hr : st.c.reqtype = ReqType.PROTO_REQ_INLINE) (ha : st.c.argv = name :: rest)
    (hl : env.lookupCommand name = none) :
    classify st = st ∧
    ∃ st1, runCommand env st = .ok st1 ∧ st1.c.reqtype = ReqType.PROTO_REQ_INLINE ∧
      st1.c.argv = name :: rest ∧ st1.c.qb_pos = st.c.qb_pos ∧
      st1.c.querybuf = st.c.querybuf := by
  refine ⟨?_, ?_⟩
  · unfold classify
    rw [if_neg (by rw [hr]; simp)]
  · unfold runCommand processCommand
    simp only [ha, hl]
    exact ⟨_, rfl, hr, rfl, rfl, rfl⟩

theorem inline_spins (env : Env) (name : List Nat) (rest : List (List Nat))
    (hl : env.lookupCommand name = none) :
    ∀ (fuel : Nat) (st : State), st.c.reqtype = ReqType.PROTO_REQ_INLINE →
      st.c.argv = name :: rest → st.c.qb_pos < st.c.querybuf.length →
      processInputLoop env fuel st = .error Fault.out_of_fuel := by
  intro fuel
  induction fuel with
  | zero => intro st _ _ _; rfl
  | succ n ih =>
    intro st hr ha hlt
    obtain ⟨hc, st1, hrun, hr1, ha1, hq1, hb1⟩ := inline_pass env st name rest hr ha hl
    have hne : ¬ st.c.reqtype = ReqType.PROTO_REQ_MULTIBULK := by rw [hr]; simp
    unfold processInputLoop
    simp only [hlt, if_true, hc, hne, if_false, hrun]
    exact ih st1 hr1 ha1 (by rw [hq1, hb1]; exact hlt)

/-- C23, the code at a first byte other than `*`: the pass of the loop of
`processInputBuffer` classifies the request as INLINE, consumes no byte and does
not leave the loop, but calls `processCommand`.  On a fresh client that has
received `PING\r\n` this call reads `c->argv[0]` with no argument stored; on a
client that holds the argument `foo` of an earlier command the call returns
with `qb_pos` and `querybuf` unchanged, and the loop does not end within any
number of passes. -/
theorem C23_inline_pass_consumes_nothing :
    (classify (received "PING\r\n")).c.reqtype = ReqType.PROTO_REQ_INLINE ∧
    processInputBuffer exampleEnv (received "PING\r\n") = .error Fault.argv0_invalid ∧
    (∃ st1, runCommand exampleEnv (classify inlineState) = .ok st1 ∧
      st1.c.qb_pos = inlineState.c.qb_pos ∧ st1.c.querybuf = inlineState.c.querybuf ∧
      unconsumed st1.c = unconsumed inlineState.c ∧ unconsumed st1.c = 1 ∧
      st1.c.qb_pos < st1.c.querybuf.length) ∧
    processInputBuffer exampleEnv inlineState = .error Fault.out_of_fuel ∧
    ∀ fuel : Nat, processInputLoop exampleEnv fuel inlineState = .error Fault.out_of_fuel :=
  ⟨rfl, rfl, ⟨_, rfl, rfl, rfl, rfl, rfl, by decide⟩, rfl,
   fun fuel => inline_spins exampleEnv (bytes "foo") [] rfl fuel inlineState rfl rfl (by decide)⟩

/-! ## The write queue -/

/-- The passes over the example queue, where the connection of client 2 takes
one byte and then no more: client 2 keeps pending replies, with one byte sent,
and gets the write handler on its descriptor 6; client 1 has nothing to send. -/
theorem example_passes :
    (handleClientsWithPendingWrites (fun _ => true) exampleWorld).toOption.map (fun p =>
          (p.2, p.1.server.clients_pending_write, p.1.server.clients_to_close,
            p.1.server.el, (p.1.client 2).map (fun c => (c.bufpos, c.sentlen)), p.1.peer 2)) =
      some ([{ id := 2, ret := Ret.ERROR_SUCCESS, pending := true,
               registered := some (6, Ret.ERROR_SUCCESS) },
             { id := 1, ret := Ret.ERROR_SUCCESS, pending := false, registered := none }],
            [], [], [{ fd := 6, readable := false, writable := true }], some (3, 1), []) := by
  rfl

/-- The passes over the example queue when the connection of client 2 fails and
the free queue is handled next, as in `ProcessEvents`: the flush of client 2
returns `C_ERR`, no handler is installed, and client 2 is freed while the write
queue is empty. -/
theorem example_free :
    ((handleClientsWithPendingWrites (fun _ => true)
        { exampleWorld with peer := fun _ => [WriteResult.failed] }).toOption.bind fun p =>
      (freeClientsInAsyncFreeQueue (fun _ el => el) p.1).toOption.map fun q =>
        (p.2, p.1.server.clients_pending_write, p.1.server.clients_to_close, q.2,
          q.1.server.clients_pending_write, q.1.server.clients_to_close,
          (q.1.client 2).isSome, (q.1.client 1).isSome)) =
      some ([{ id := 2, ret := Ret.ERROR_FAILED, pending := true, registered := none },
             { id := 1, ret := Ret.ERROR_SUCCESS, pending := false, registered := none }],
            [], [2], 1, [], [], false, true) := by
  rfl

/-- The search of `strchr` for `\r` ends at a NUL byte that comes first. -/
theorem strchr_of_nul : ∀ (l rest : List Nat), (∀ y ∈ l, y ≠ 13) → 0 ∈ l →
    strchr (l ++ rest) CR = none := by
  intro l
  induction l with
  | nil => intro rest _ h; simp at h
  | cons b bs ih =>
    intro rest hcr h0
    have hb : b ≠ 13 := hcr b (by simp)
    by_cases hz : b = 0
    · simp [strchr, CR, hz]
    · have h0' : 0 ∈ bs := by
        rcases List.mem_cons.mp h0 with e | e
        · exact absurd e.symm hz
        · exact e
      have := ih rest (fun y hy => hcr y (by simp [hy])) h0'
      simp [strchr, CR, hb, hz] at this ⊢
      exact this

theorem string2llDigits_digits : ∀ (bs : List Nat) (v w : Nat),
    string2llDigits bs v = some w → ∀ y ∈ bs, 48 ≤ y ∧ y ≤ 57 := by
  intro bs
  induction bs with
  | nil => intro v w _ y hy; simp at hy
  | cons b rest ih =>
    intro v w h y hy
    unfold string2llDigits at h
    simp only [char_zero, char_nine] at h
    by_cases hb : 48 ≤ b ∧ b ≤ 57
    · rw [if_pos hb] at h
      rcases List.mem_cons.mp hy with e | e
      · rw [e]; exact hb
      · split_ifs at h
        exact ih _ w h y e
    · rw [if_neg hb] at h
      cases h

/-- A text `string2ll` accepts holds a sign and digits only: no NUL byte and no
`\r`. -/
theorem string2ll_bytes (s : List Nat) (v : Int) (h : string2ll s = some v) :
    ∀ y ∈ s, y ≠ 0 ∧ y ≠ 13 := by
  have key : ∀ y ∈ s, y = 45 ∨ (48 ≤ y ∧ y ≤ 57) := by
    unfold string2ll at h
    cases s with
    | nil => cases h
    | cons b rest =>
      simp only [char_zero, char_minus, char_one, char_nine] at h
      by_cases h0 : rest = [] ∧ b = 48
      · intro y hy
        rw [h0.1] at hy
        simp at hy
        right; omega
      · rw [if_neg h0] at h
        by_cases hneg : b = 45
        · simp only [hneg, decide_True, if_true] at h
          cases rest with
          | nil => cases h
          | cons d ds =>
            simp only at h
            by_cases hd : 49 ≤ d ∧ d ≤ 57
            · rw [if_pos hd] at h
              cases hx : string2llDigits ds (d - 48) with
              | none => rw [hx] at h; cases h
              | some u =>
                have hds := string2llDigits_digits ds _ u hx
                intro y hy
                rcases List.mem_cons.mp hy with e | e
                · left; rw [e, hneg]
                · rcases List.mem_cons.mp e with e1 | e1
                  · right; rw [e1]; omega
                  · right; exact hds y e1
            · rw [if_neg hd] at h
              cases h
        · simp only [hneg, decide_False, Bool.false_eq_true, if_false] at h
          by_cases hd : 49 ≤ b ∧ b ≤ 57
          · rw [if_pos hd] at h
            cases hx : string2llDigits rest (b - 48) with
            | none => rw [hx] at h; cases h
            | some u =>
              have hds := string2llDigits_digits rest _ u hx
              intro y hy
              rcases List.mem_cons.mp hy with e | e
              · right; rw [e]; omega
              · right; exact hds y e
          · rw [if_neg hd] at h
            cases h
  intro y hy
  rcases key y hy with e | e
  · rw [e]; omega
  · omega

/-- A line in which a NUL byte comes before the `\r`: `strchr` finds no `\r`. -/
theorem line_nul (c : client) (b : Nat) (text : List Nat) (x : Nat) (rest : List Nat)
    (hb : b ≠ 13) (ht : ∀ y ∈ text, y ≠ 13) (h0 : b = 0 ∨ 0 ∈ text)
    (hd : c.querybuf.drop c.qb_pos = b :: text ++ CR :: x :: rest) :
    strchr (c.querybuf.drop c.qb_pos) CR = none := by
  rw [hd]
  have := strchr_of_nul (b :: text) (CR :: x :: rest)
    (by
      intro y hy
      rcases List.mem_cons.mp hy with e | e
      · rw [e]; exact hb
      · exact ht y e)
    (by
      rcases h0 with e | e
      · rw [e]; simp
      · simp [e])
  simpa using this

/-- The header block on a line in which no `\r` is found: failure, with the
error reply only when more than `PROTO_INLINE_MAX_SIZE` bytes are unconsumed. -/
theorem header_no_cr (env : Env) (st : State) (hm : st.c.multibulklen = 0)
    (ha : st.c.argc = 0) (hstr : strchr (st.c.querybuf.drop st.c.qb_pos) CR = none)
    (hsmall : ¬ unconsumed st.c > PROTO_INLINE_MAX_SIZE) :
    mbHeader env st = .ok (.done Ret.ERROR_FAILED st) := by
  unfold mbHeader
  simp only [hm, ha, hstr, hsmall]
  simp

/-- The length block on a line in which no `\r` is found: failure, with the
error reply only when more than `PROTO_INLINE_MAX_SIZE` bytes are unconsumed. -/
theorem bulk_no_cr (env : Env) (st : State) (hm : st.c.multibulklen ≠ 0)
    (hb : st.c.bulklen = -1) (hstr : strchr (st.c.querybuf.drop st.c.qb_pos) CR = none)
    (hsmall : ¬ unconsumed st.c > PROTO_INLINE_MAX_SIZE) :
    mbBulkLen env st = .done Ret.ERROR_FAILED st := by
  unfold mbBulkLen
  simp only [hb, hstr, hsmall, mbReturn, hm]
  simp

/-- The length block on a line whose first byte is `\r`: the line is complete
and its first byte is not `$`. -/
theorem bulk_empty_line (env : Env) (st : State) (text : List Nat) (x : Nat) (rest : List Nat)
    (hs : Sane st.c) (hbl : st.c.bulklen = -1)
    (hd : st.c.querybuf.drop st.c.qb_pos = 13 :: text ++ CR :: x :: rest) :
    mbBulkLen env st = .done Ret.ERROR_FAILED st := by
  have hu := unconsumed_eq st.c hs
  have hlen : (st.c.querybuf.drop st.c.qb_pos).length = text.length + 3 + rest.length := by
    rw [hd]; simp; omega
  have hl2 : (st.c.querybuf.drop st.c.qb_pos).length ≤ st.c.querybuf.length := by simp
  have h63 := hs.2
  have f1 : strchr (st.c.querybuf.drop st.c.qb_pos) CR = some 0 := by
    rw [hd]; simp [strchr, CR]
  have f2 : ¬ (((0 : Nat) : Int) > toSSizeT (toSizeT ((unconsumed st.c : Int) - 2))) := by
    rw [hu, hlen]
    have e : (((text.length + 3 + rest.length : Nat) : Int) - 2) =
        ((text.length + 1 + rest.length : Nat) : Int) := by omega
    rw [e, toSizeT_of_nat _ (by omega), toSSizeT_small _ (by omega)]
    omega
  have f3 : (st.c.querybuf.drop st.c.qb_pos).head? = some 13 := by rw [hd]; rfl
  unfold mbBulkLen
  simp only [hbl, f1, f2, f3]
  simp

/-- C6 as stated fails at the header `*1\0\r\n`: the text between `*` and the
CR, `1` followed by a NUL byte, is not a valid integer, yet the header is not
rejected: `strchr` stops at the NUL byte, and the header block answers as it
does for the incomplete line `*1`, with failure, the state unchanged and no
error reply. -/
theorem C6_counterexample :
    (received "*1\x00\r\n").c.querybuf = [42, 49, 0, 13, 10] ∧
    string2ll [49, 0] = none ∧
    mbHeader exampleEnv (received "*1\x00\r\n") =
      .ok (.done Ret.ERROR_FAILED (received "*1\x00\r\n")) ∧
    processMultibulkBuffer exampleEnv (received "*1\x00\r\n") =
      .ok (Ret.ERROR_FAILED, received "*1\x00\r\n") ∧
    outputStream (received "*1\x00\r\n").c = [] ∧
    outputStream (addReplyError exampleEnv (received "*1\x00\r\n")
        "Protocol error: invalid multibulk length").c =
      bytes "-ERR Protocol error: invalid multibulk length\r\n" ∧
    mbHeader exampleEnv (received "*1") = .ok (.done Ret.ERROR_FAILED (received "*1")) :=
  ⟨rfl, rfl, rfl, rfl, rfl,
   (addReplyError_output exampleEnv (received "*1\x00\r\n")
      "Protocol error: invalid multibulk length" ⟨by decide, by decide⟩ (by decide)).trans rfl,
   rfl⟩

/-- C6, amended.  Length limits are enforced exactly at their boundaries.  On a
complete count line `*text\r` whose text holds no NUL byte the header block
rejects (error reply, failure, nothing consumed) iff `text` is not a valid
integer or exceeds 1048576, and the count 1048576 is accepted and stored in
`multibulklen`; a count line whose text holds a NUL byte is handled as a line
in which no `\r` is found (failure, and no error reply while at most
`PROTO_INLINE_MAX_SIZE` bytes are unconsumed).  On a complete bulk length line
`$text\r` the length block returns failure without changing `bulklen` or
`qb_pos` iff `text` is not a valid integer, is negative or exceeds
`proto_max_bulk_len`, whatever bytes the text holds, and with the whole state
unchanged when the text holds no NUL byte; the length `proto_max_bulk_len` is
accepted and stored in `bulklen`, and `proto_max_bulk_len + 1` returns failure
without changing `bulklen` or `qb_pos`. -/
theorem C6_length_limits (env : Env) (st : State) (hs : Sane st.c) :
    (∀ text x rest, st.c.multibulklen = 0 → st.c.argc = 0 →
      st.c.querybuf.drop st.c.qb_pos = 42 :: text ++ CR :: x :: rest →
      ((∀ y ∈ text, y ≠ 13 ∧ y ≠ 0) →
        ((processMultibulkBuffer env st = .ok (Ret.ERROR_FAILED,
              addReplyError env st "Protocol error: invalid multibulk length") ∧
            mbHeader env st = .ok (.done Ret.ERROR_FAILED
              (addReplyError env st "Protocol error: invalid multibulk length"))) ↔
          (string2ll text = none ∨ ∃ ll, string2ll text = some ll ∧ ll > 1048576))) ∧
      (string2ll text = some 1048576 →
        mbHeader env st = .ok (.next { st with c :=
          { st.c with qb_pos := st.c.qb_pos + (text.length + 1) + 2, multibulklen := 1048576,
                      argv := [], argv_alloc := 1048576, argv_len_sum := 0 } })) ∧
      ((∀ y ∈ text, y ≠ 13) → 0 ∈ text →
        string2ll text = none ∧
        strchr (st.c.querybuf.drop st.c.qb_pos) CR = none ∧
        (¬ unconsumed st.c > PROTO_INLINE_MAX_SIZE →
          mbHeader env st = .ok (.done Ret.ERROR_FAILED st) ∧
          processMultibulkBuffer env st = .ok (Ret.ERROR_FAILED, st)) ∧
        (unconsumed st.c > PROTO_INLINE_MAX_SIZE →
          mbHeader env st = .ok (.done Ret.ERROR_FAILED
            (addReplyError env st "Protocol error: too big mbulk count string"))))) ∧
    (∀ text x rest, st.c.bulklen = -1 →
      st.c.querybuf.drop st.c.qb_pos = 36 :: text ++ CR :: x :: rest →
      (st.c.multibulklen ≠ 0 → (∀ y ∈ text, y ≠ 13) →
        ((∃ st1, mbBulkLen env st = .done Ret.ERROR_FAILED st1 ∧
            st1.c.bulklen = st.c.bulklen ∧ st1.c.qb_pos = st.c.qb_pos ∧
            st1.c.querybuf = st.c.querybuf) ↔
          (string2ll text = none ∨
            ∃ ll, string2ll text = some ll ∧ (ll < 0 ∨ ll > proto_max_bulk_len)))) ∧
      ((∀ y ∈ text, y ≠ 13 ∧ y ≠ 0) →
        (mbBulkLen env st = .done Ret.ERROR_FAILED st ↔
          (string2ll text = none ∨
            ∃ ll, string2ll text = some ll ∧ (ll < 0 ∨ ll > proto_max_bulk_len)))) ∧
      (string2ll text = some proto_max_bulk_len →
        ∃ q p, mbBulkLen env st = .next { st with c :=
          { st.c with querybuf := q, qb_pos := p, bulklen := proto_max_bulk_len } }) ∧
      (string2ll text = some (proto_max_bulk_len + 1) →
        mbBulkLen env st = .done Ret.ERROR_FAILED st ∧
        (st.c.multibulklen > 0 →
          processMultibulkBuffer env st = .ok (Ret.ERROR_FAILED, st)))) ∧
    string2ll (bytes "1048576") = some 1048576 ∧
    string2ll (bytes "536870912") = some proto_max_bulk_len ∧
    string2ll (bytes "536870913") = some (proto_max_bulk_len + 1) := by
  have hP : proto_max_bulk_len = 536870912 := by unfold proto_max_bulk_len; norm_num
  have hnul : ∀ text : List Nat, 0 ∈ text → string2ll text = none := by
    intro text h0
    cases hx : string2ll text with
    | none => rfl
    | some v => exact absurd rfl (string2ll_bytes text v hx 0 h0).1
  have hclean : ∀ (text : List Nat) (v : Int), string2ll text = some v →
      ∀ y ∈ text, y ≠ 13 ∧ y ≠ 0 :=
    fun text v h y hy => ⟨(string2ll_bytes text v h y hy).2, (string2ll_bytes text v h y hy).1⟩
  refine ⟨?_, ?_, by decide, by decide, by decide⟩
  · intro text x rest hm ha hd
    refine ⟨?_, ?_, ?_⟩
    · intro ht
      obtain ⟨hiff, _⟩ := header_reject_iff env st text x rest hs hm ha ht hd
      exact ⟨fun h => hiff.1 h.2, fun h => ⟨pmb_of_header_done env st _ _ (hiff.2 h), hiff.2 h⟩⟩
    · intro hll
      obtain ⟨_, hval⟩ := header_reject_iff env st text x rest hs hm ha (hclean text _ hll) hd
      have := hval 1048576 hll (le_refl _)
      rw [this]
      rfl
    · intro ht h0
      have hstr := line_nul st.c 42 text x rest (by decide) ht (Or.inr h0) hd
      refine ⟨hnul text h0, hstr, ?_, ?_⟩
      · intro hsmall
        have h := header_no_cr env st hm ha hstr hsmall
        exact ⟨h, pmb_of_header_done env st _ _ h⟩
      · intro hbig
        exact header_toobig env st hm ha hstr hbig
  · intro text x rest hb hd
    refine ⟨?_, ?_, ?_, ?_⟩
    · intro hm ht
      by_cases h0 : 0 ∈ text
      · have hstr := line_nul st.c 36 text x rest (by decide) ht (Or.inr h0) hd
        refine ⟨fun _ => Or.inl (hnul text h0), fun _ => ?_⟩
        by_cases hbig : unconsumed st.c > PROTO_INLINE_MAX_SIZE
        · obtain ⟨a1, a2, a3⟩ :=
            addReplyError_input env st "Protocol error: too big bulk count string"
          exact ⟨_, bulk_toobig env st hb hstr hbig, a3, a2, a1⟩
        · exact ⟨st, bulk_no_cr env st hm hb hstr hbig, rfl, rfl, rfl⟩
      · have ht2 : ∀ y ∈ text, y ≠ 13 ∧ y ≠ 0 :=
          fun y hy => ⟨ht y hy, fun e => h0 (e ▸ hy)⟩
        obtain ⟨hiff, hval⟩ := bulk_reject_iff env st text x rest hs hb ht2 hd
        refine ⟨?_, fun hbad => ⟨st, hiff.2 hbad, rfl, rfl, rfl⟩⟩
        rintro ⟨st1, hdone, _⟩
        cases hx : string2ll text with
        | none => exact Or.inl rfl
        | some ll =>
          by_cases hr : ll < 0 ∨ ll > proto_max_bulk_len
          · exact Or.inr ⟨ll, rfl, hr⟩
          · exfalso
            obtain ⟨q, p, hnext, _⟩ := hval ll hx (by omega) (by omega)
            rw [hnext] at hdone
            cases hdone
    · intro ht
      exact (bulk_reject_iff env st text x rest hs hb ht hd).1
    · intro hll
      obtain ⟨_, hval⟩ := bulk_reject_iff env st text x rest hs hb (hclean text _ hll) hd
      obtain ⟨q, p, h, _⟩ := hval proto_max_bulk_len hll (by omega) (le_refl _)
      exact ⟨q, p, h⟩
    · intro hll
      obtain ⟨hiff, _⟩ := bulk_reject_iff env st text x rest hs hb (hclean text _ hll) hd
      have h := hiff.2 (Or.inr ⟨_, hll, Or.inr (by omega)⟩)
      exact ⟨h, fun hm => pmb_of_bulk_done env st _ _ hm h⟩

theorem C6_length_limits_witness :
    processMultibulkBuffer exampleEnv (received "*1048577\r\n") = .ok (Ret.ERROR_FAILED,
        addReplyError exampleEnv (received "*1048577\r\n")
          "Protocol error: invalid multibulk length") ∧
      mbHeader exampleEnv (received "*1048577\r\n") = .ok (.done Ret.ERROR_FAILED
        (addReplyError exampleEnv (received "*1048577\r\n")
          "Protocol error: invalid multibulk length")) :=
  (((C6_length_limits exampleEnv (received "*1048577\r\n") ⟨by decide, by decide⟩).1
    (bytes "1048577") 10 [] rfl rfl rfl).1 (by decide)).2 (Or.inr ⟨1048577, by decide, by decide⟩)

/-- C3 as stated fails: after `*2\r\n$3\r\nfoo\r\n` the bytes `garbage`, which
hold no `\r`, are an incomplete line, so `processMultibulkBuffer` returns
failure with no reply at all; the complete bulk header lines `#3\r\n`
(first byte not `$`) and `$-1\r\n` (negative length) are refused with no reply
either; and the count line `*1\0\r\n`, whose count is not a valid integer, is
taken for an incomplete line, because `strchr` stops at the NUL byte, and gets
no reply. -/
theorem C3_counterexample :
    (∃ st1, processMultibulkBuffer exampleEnv (received "*2\r\n$3\r\nfoo\r\ngarbage") =
        .ok (Ret.ERROR_FAILED, st1) ∧ outputStream st1.c = []) ∧
    (∃ st1, processMultibulkBuffer exampleEnv (received "*1\r\n#3\r\nabc\r\n") =
        .ok (Ret.ERROR_FAILED, st1) ∧ outputStream st1.c = []) ∧
    (∃ st1, processMultibulkBuffer exampleEnv (received "*1\r\n$-1\r\n") =
        .ok (Ret.ERROR_FAILED, st1) ∧ outputStream st1.c = []) ∧
    (string2ll [49, 0] = none ∧
      ∃ st1, processMultibulkBuffer exampleEnv (received "*1\x00\r\n") =
        .ok (Ret.ERROR_FAILED, st1) ∧ outputStream st1.c = []) :=
  ⟨⟨_, rfl, rfl⟩, ⟨_, rfl, rfl⟩, ⟨_, rfl, rfl⟩, rfl, ⟨_, rfl, rfl⟩⟩

/-- C3, amended. With the reply side of the client well formed:
a count line or a bulk length line in which `strchr` finds no `\r` within more
than `PROTO_INLINE_MAX_SIZE` unconsumed bytes, and a complete count line
without NUL byte whose count is not a valid integer or exceeds 1048576, make
`processMultibulkBuffer` append the error line `-ERR Protocol error: ...\r\n`
to the output stream and return failure; a complete bulk header line whose
first byte is not `$`, or whose length is not a valid integer, negative or
above `proto_max_bulk_len`, makes it return failure, whatever bytes the line
holds; after any failure of `processMultibulkBuffer` the loop of
`processInputBuffer` ends without a call of `processCommand` or of a handler;
and a count line or bulk header in which `strchr` finds no `\r` within at most
`PROTO_INLINE_MAX_SIZE` unconsumed bytes is incomplete input: failure is
returned with the state unchanged, so no reply is produced.  `strchr` finds no
`\r` in input that holds none and in input with a NUL byte before the first
one. -/
theorem C3_protocol_errors_amended (env : Env) (st : State) (hwf : ReplyWF st.c) :
    (st.c.multibulklen = 0 → st.c.argc = 0 →
      strchr (st.c.querybuf.drop st.c.qb_pos) CR = none →
      unconsumed st.c > PROTO_INLINE_MAX_SIZE →
      ∃ st1, processMultibulkBuffer env st = .ok (Ret.ERROR_FAILED, st1) ∧
        outputStream st1.c = outputStream st.c ++
          bytes "-ERR Protocol error: too big mbulk count string\r\n") ∧
    (∀ text x rest, Sane st.c → st.c.multibulklen = 0 → st.c.argc = 0 →
      (∀ y ∈ text, y ≠ 13 ∧ y ≠ 0) →
      st.c.querybuf.drop st.c.qb_pos = 42 :: text ++ CR :: x :: rest →
      (string2ll text = none ∨ ∃ ll, string2ll text = some ll ∧ ll > 1048576) →
      ∃ st1, processMultibulkBuffer env st = .ok (Ret.ERROR_FAILED, st1) ∧
        outputStream st1.c = outputStream st.c ++
          bytes "-ERR Protocol error: invalid multibulk length\r\n") ∧
    (st.c.multibulklen > 0 → st.c.bulklen = -1 →
      strchr (st.c.querybuf.drop st.c.qb_pos) CR = none →
      unconsumed st.c > PROTO_INLINE_MAX_SIZE →
      ∃ st1, processMultibulkBuffer env st = .ok (Ret.ERROR_FAILED, st1) ∧
        (∀ fuel, mbLoop env (fuel + 1) st = .ok (Ret.ERROR_FAILED, st1)) ∧
        outputStream st1.c = outputStream st.c ++
          bytes "-ERR Protocol error: too big bulk count string\r\n") ∧
    (∀ b text x rest, Sane st.c → st.c.multibulklen > 0 → st.c.bulklen = -1 →
      (∀ y ∈ text, y ≠ 13) →
      st.c.querybuf.drop st.c.qb_pos = b :: text ++ CR :: x :: rest →
      (b ≠ 36 ∨ string2ll text = none ∨
        ∃ ll, string2ll text = some ll ∧ (ll < 0 ∨ ll > proto_max_bulk_len)) →
      ∃ st1, processMultibulkBuffer env st = .ok (Ret.ERROR_FAILED, st1) ∧
        (∀ fuel, mbLoop env (fuel + 1) st = .ok (Ret.ERROR_FAILED, st1))) ∧
    (∀ fuel st2, st.c.qb_pos < st.c.querybuf.length →
      (classify st).c.reqtype = ReqType.PROTO_REQ_MULTIBULK →
      processMultibulkBuffer env (classify st) = .ok (Ret.ERROR_FAILED, st2) →
      ∃ st3, processInputLoop env (fuel + 1) st = .ok st3 ∧
        st3.dispatched = st.dispatched ∧ st3.invoked = st.invoked) ∧
    (st.c.multibulklen = 0 → st.c.argc = 0 →
      strchr (st.c.querybuf.drop st.c.qb_pos) CR = none →
      ¬ unconsumed st.c > PROTO_INLINE_MAX_SIZE →
      processMultibulkBuffer env st = .ok (Ret.ERROR_FAILED, st)) ∧
    (st.c.multibulklen > 0 → st.c.bulklen = -1 →
      strchr (st.c.querybuf.drop st.c.qb_pos) CR = none →
      ¬ unconsumed st.c > PROTO_INLINE_MAX_SIZE →
      processMultibulkBuffer env st = .ok (Ret.ERROR_FAILED, st) ∧
      ∀ fuel, mbLoop env (fuel + 1) st = .ok (Ret.ERROR_FAILED, st)) ∧
    (∀ l : List Nat, (∀ y ∈ l, y ≠ 13) → strchr l CR = none) ∧
    (∀ l rest : List Nat, (∀ y ∈ l, y ≠ 13) → 0 ∈ l → strchr (l ++ rest) CR = none) := by
  refine ⟨?_, ?_, ?_, ?_, ?_, ?_, ?_, ?_, ?_⟩
  · intro hm ha hstr hbig
    refine ⟨_, pmb_of_header_done env st _ _ (header_toobig env st hm ha hstr hbig), ?_⟩
    rw [addReplyError_output env st _ hwf (by decide)]
    rw [List.append_assoc, List.append_assoc]
    rfl
  · intro text x rest hs hm ha ht hd hbad
    have h := ((header_reject_iff env st text x rest hs hm ha ht hd).1).2 hbad
    refine ⟨_, pmb_of_header_done env st _ _ h, ?_⟩
    rw [addReplyError_output env st _ hwf (by decide)]
    rw [List.append_assoc, List.append_assoc]
    rfl
  · intro hm hb hstr hbig
    have h := bulk_toobig env st hb hstr hbig
    have hne : st.c.multibulklen ≠ 0 := by omega
    refine ⟨_, pmb_of_bulk_done env st _ _ hm h, ?_, ?_⟩
    · intro fuel
      simp only [mbLoop, hne, if_false, h]
    · rw [addReplyError_output env st _ hwf (by decide)]
      rw [List.append_assoc, List.append_assoc]
      rfl
  · intro b text x rest hs hm hb ht hd hbad
    have hne : st.c.multibulklen ≠ 0 := by omega
    have h : ∃ st1, mbBulkLen env st = .done Ret.ERROR_FAILED st1 := by
      by_cases hb13 : b = 13
      · subst hb13
        exact ⟨st, bulk_empty_line env st text x rest hs hb hd⟩
      · by_cases h0 : b = 0 ∨ 0 ∈ text
        · have hstr := line_nul st.c b text x rest hb13 ht h0 hd
          by_cases hbig : unconsumed st.c > PROTO_INLINE_MAX_SIZE
          · exact ⟨_, bulk_toobig env st hb hstr hbig⟩
          · exact ⟨st, bulk_no_cr env st hne hb hstr hbig⟩
        · have hb1 : b ≠ 13 ∧ b ≠ 0 := ⟨hb13, fun e => h0 (Or.inl e)⟩
          have ht2 : ∀ y ∈ text, y ≠ 13 ∧ y ≠ 0 :=
            fun y hy => ⟨ht y hy, fun e => h0 (Or.inr (e ▸ hy))⟩
          refine ⟨st, ?_⟩
          by_cases hb36 : b = 36
          · subst hb36
            rcases hbad with h1 | h1
            · exact absurd rfl h1
            · exact ((bulk_reject_iff env st text x rest hs hb ht2 hd).1).2 h1
          · exact bulk_not_dollar env st b text x rest hs hb hb1 hb36 ht2 hd
    obtain ⟨st1, h⟩ := h
    refine ⟨st1, pmb_of_bulk_done env st _ _ hm h, ?_⟩
    intro fuel
    simp only [mbLoop, hne, if_false, h]
  · intro fuel st2 hlt hreq h
    obtain ⟨h1, h2, h3⟩ := processInputLoop_failed env fuel st st2 hlt hreq h
    exact ⟨_, h1, h2, h3⟩
  · intro hm ha hstr hsmall
    exact pmb_of_header_done env st _ _ (header_no_cr env st hm ha hstr hsmall)
  · intro hm hb hstr hsmall
    have hne : st.c.multibulklen ≠ 0 := by omega
    have h := bulk_no_cr env st hne hb hstr hsmall
    refine ⟨pmb_of_bulk_done env st _ _ hm h, ?_⟩
    intro fuel
    simp only [mbLoop, hne, if_false, h]
  · intro l hl
    exact strchr_none_of_forall l CR hl
  · intro l rest hl h0
    exact strchr_of_nul l rest hl h0

theorem C3_protocol_errors_amended_witness :
    ∃ st1, processMultibulkBuffer exampleEnv (received "*x\r\n") =
        .ok (Ret.ERROR_FAILED, st1) ∧
      outputStream st1.c = outputStream (received "*x\r\n").c ++
        bytes "-ERR Protocol error: invalid multibulk length\r\n" :=
  (C3_protocol_errors_amended exampleEnv (received "*x\r\n") ⟨by decide, by decide⟩).2.1
    [120] 10 [] ⟨by decide, by decide⟩ rfl rfl (by decide) rfl (Or.inl rfl)

end RespServer
